import Mathlib

/-!
# kebab: chunk writer / reader, the buckets and the request signing

A shallow embedding of `writer.go`, `reader.go`, `bucket/bucket.go`,
`bucket/encrypted.go`, `bucket/recoverable.go`, `bucket/fs.go`, `bucket/s3.go`
and `s3/sign.go`.

* A Go `[]byte` is a `List Byte`; a Go `error` is an `Option GoError`
  (`none` is `nil`).
* A `Bucket` is a pair of state-passing functions over a store state `σ`.
* Library functions (`sha256.Sum256`, `json.Marshal`, `json.Unmarshal`,
  `secretbox.Seal`, `secretbox.Open`) are parameters, collected in `Lib` and
  `Secretbox`.
* The `for` loop of `Writer.Write` is driven by a fuel argument; `none` means
  that the fuel ran out.
* The recovery decorator acts on a `Console`: the lines logged, the waits and
  the prompts so far, and the lines that the operator will enter. Its loops
  recurse on those lines.
* The file system and the remote service are parameters too (`OS`,
  `s3.Bucket`); `filepath.Clean`, `filepath.Join` and `filepath.Dir` are
  modelled on the characters of a path, for a Unix system.
* A `BucketKind` holds the six methods of the `Bucket` interface for the bucket
  values of one implementation.
* The signing code takes its library functions (`sha256`, `hmac`, `time`,
  `strings.ToLower`, `URL.ResolveReference`) from a `SignLib`; a call that can
  panic returns an `Outcome`. For the test vectors `resolvePath` of net/url is
  modelled on the characters of a path.
-/

namespace Kebab

/-- One Go `byte`. -/
abbrev Byte := UInt8

/-- Go `int64`: an integer in the two's complement range of 64 bits. -/
abbrev int64 := {x : Int // -9223372036854775808 ≤ x ∧ x < 9223372036854775808}

/-- The value `0` of type `int64`. -/
def int64.zero : int64 := ⟨0, by omega⟩

/-- Go `a += int64(n)` on an `int64`: addition wraps around modulo `2^64`. -/
def int64.add (a : int64) (n : Nat) : int64 :=
  ⟨(a.val + (n : Int) + 9223372036854775808) % 18446744073709551616 - 9223372036854775808,
    by omega⟩

/-- Go `error` values that occur in the modelled code. Values made by
`fmt.Errorf` and `errors.New` are kept apart by the place that makes them, so
that `ErrAuth` (compared with `==` in `isRecoverable`) is a value of its own. -/
inductive GoError where
  /-- `io.EOF` -/
  | EOF
  /-- `bucket.ErrAuth = errors.New("integrity check failure")` -/
  | ErrAuth
  /-- `errors.New("already closed")` in `Writer.Close` -/
  | alreadyClosed
  /-- `fmt.Errorf("short box")` in `encryptedBucket.Get` -/
  | shortBox
  /-- `fmt.Errorf("Get(%q): hash mismatch", key)` in `Reader.fill` -/
  | hashMismatch (key : String)
  /-- `fmt.Errorf("Get(%q): %s", key, err)` -/
  | getFailed (key : String) (cause : GoError)
  /-- `fmt.Errorf("Put(%q): %s", key, err)` -/
  | putFailed (key : String) (cause : GoError)
  /-- `fmt.Errorf("failed to parse metadata: %s", err)` in `NewReader` -/
  | parseMetadata (cause : GoError)
  /-- `*s3.ServiceError` with its `Code` and `Message` -/
  | serviceError (Code : String) (Message : String)
  /-- an error of package `os`; `notExist` is what `os.IsNotExist` answers -/
  | osError (notExist : Bool) (text : String)
  /-- any other error value -/
  | other (text : String)
  deriving DecidableEq, Repr

/-- `os.IsNotExist`, on the modelled error values. -/
def osIsNotExist : GoError → Bool
  | .osError notExist _ => notExist
  | _ => false

/-- `bucket.IsNotExist` (bucket.go). -/
def IsNotExist (err : GoError) : Bool :=
  match err with
  | .serviceError Code _ => Code == "NoSuchKey"
  | _ => osIsNotExist err

/-- `isRecoverable` (recoverable.go). -/
def isRecoverable (err : GoError) : Bool :=
  if IsNotExist err then false
  else if err = GoError.ErrAuth then false
  else true

/-- The `Put` and `Get` methods of the `Bucket` interface, as state-passing
functions on a store state `σ`. `Get` returns the Go pair `(data, err)`. -/
structure Bucket (σ : Type) where
  Put : String → List Byte → σ → Option GoError × σ
  Get : String → σ → (List Byte × Option GoError) × σ

/-- `boxhash`: `[sha256.Size]byte`, an array of 32 bytes. -/
abbrev boxhash := {l : List Byte // l.length = 32}

/-- `const Version = 0` (writer.go). -/
def Version : Int := 0

/-- `Metadata` (writer.go). -/
structure Metadata where
  Version : Int
  Boxes : List boxhash
  deriving DecidableEq

/-- Library functions used by the writer and the reader. -/
structure Lib where
  /-- `sha256.Sum256` -/
  Sum256 : List Byte → boxhash
  /-- `json.Marshal` on a `Metadata` (it cannot fail on this type) -/
  Marshal : Metadata → List Byte
  /-- `json.Unmarshal` into a `Metadata` -/
  Unmarshal : List Byte → Except GoError Metadata

/-- `fmt.Sprintf("%05d", i)` for `i ≥ 0`: the decimal digits of `i`, padded on
the left with zeros to a width of 5. -/
def Sprintf05d (i : Nat) : String :=
  String.mk (List.replicate (5 - (Nat.toDigits 10 i).length) '0' ++ Nat.toDigits 10 i)

/-- Go builtin `copy(dst, src)`: the new contents of `dst` and the number of
bytes copied, `min(len(dst), len(src))`. -/
def copy (dst src : List Byte) : List Byte × Nat :=
  (src.take (min dst.length src.length) ++ dst.drop (min dst.length src.length),
    min dst.length src.length)

/-! ## writer.go -/

/-- `Writer` (writer.go); the `bucket` field is passed to the methods. -/
structure Writer where
  err : Option GoError
  boxes : List boxhash
  buf : List Byte
  n : Nat
  total : int64
  deriving DecidableEq

/-- `NewWriter`: `buf` is `make([]byte, boxSize)`. -/
def NewWriter (boxSize : Nat) : Writer :=
  { err := none, boxes := [], buf := List.replicate boxSize 0, n := 0, total := int64.zero }

/-- `Writer.flush`. -/
def Writer.flush {σ : Type} (B : Bucket σ) (L : Lib) (w : Writer) (s : σ) :
    Option GoError × Writer × σ :=
  if w.n = 0 then (none, w, s)
  else
    match B.Put (Sprintf05d w.boxes.length) (w.buf.take w.n) s with
    | (some err, s1) => (some err, w, s1)
    | (none, s1) =>
      (none, { w with boxes := w.boxes ++ [L.Sum256 (w.buf.take w.n)], n := 0 }, s1)

/-- The statement `c := copy(w.buf[w.n:], p); w.n += c` of `Writer.Write`:
the new writer and `c`. -/
def Writer.fillBuf (w : Writer) (p : List Byte) : Writer × Nat :=
  ({ w with buf := w.buf.take w.n ++ (copy (w.buf.drop w.n) p).1,
            n := w.n + (copy (w.buf.drop w.n) p).2 },
    (copy (w.buf.drop w.n) p).2)

/-- The body of `Writer.Write` after the check of `w.err`: the `for` loop and
the final copy, with the running value of the result `n`. One unit of fuel
per evaluation of the loop condition. -/
def Writer.writeLoop {σ : Type} (B : Bucket σ) (L : Lib) :
    Nat → Writer → σ → List Byte → Nat → Option (Nat × Option GoError × Writer × σ)
  | 0, _, _, _, _ => none
  | fuel + 1, w, s, p, n =>
    if p.length > w.buf.length - w.n then
      match Writer.flush B L (w.fillBuf p).1 s with
      | (some err, w2, s2) =>
        some (n + (w.fillBuf p).2, some err, { w2 with err := some err }, s2)
      | (none, w2, s2) =>
        Writer.writeLoop B L fuel { w2 with err := none } s2 (p.drop (w.fillBuf p).2)
          (n + (w.fillBuf p).2)
    else
      some (n + (w.fillBuf p).2, none, (w.fillBuf p).1, s)

/-- `Writer.Write`: the result `(n, err)`, the writer and the store afterwards.
The deferred `w.total += int64(n)` runs on every return after the first. -/
def Writer.Write {σ : Type} (B : Bucket σ) (L : Lib) (fuel : Nat) (w : Writer) (s : σ)
    (p : List Byte) : Option (Nat × Option GoError × Writer × σ) :=
  match w.err with
  | some err => some (0, some err, w, s)
  | none =>
    match Writer.writeLoop B L fuel w s p 0 with
    | none => none
    | some (n, err, w1, s1) => some (n, err, { w1 with total := w1.total.add n }, s1)

/-- `Writer.Close`. -/
def Writer.Close {σ : Type} (B : Bucket σ) (L : Lib) (w : Writer) (s : σ) :
    Option GoError × Writer × σ :=
  match w.err with
  | some err => (some err, w, s)
  | none =>
    match Writer.flush B L w s with
    | (some err, w1, s1) => (some err, { w1 with err := some err }, s1)
    | (none, w1, s1) =>
      match B.Put "meta" (L.Marshal { Version := Version, Boxes := w1.boxes }) s1 with
      | (some err, s2) => (some err, { w1 with err := some err }, s2)
      | (none, s2) => (none, { w1 with err := some GoError.alreadyClosed }, s2)

/-- `Writer.Size`. -/
def Writer.Size (w : Writer) : int64 := w.total

/-! ## reader.go -/

/-- `Reader` (reader.go); the `bucket` field is passed to the methods. -/
structure Reader where
  buf : List Byte
  n : Nat
  boxes : List boxhash
  bn : Nat
  total : int64
  deriving DecidableEq

/-- `NewReader`. -/
def NewReader {σ : Type} (B : Bucket σ) (L : Lib) (s : σ) : Except GoError Reader × σ :=
  match B.Get "meta" s with
  | ((_, some err), s1) => (.error (GoError.getFailed "meta" err), s1)
  | ((metajson, none), s1) =>
    match L.Unmarshal metajson with
    | .error err => (.error (GoError.parseMetadata err), s1)
    | .ok m => (.ok { buf := [], n := 0, boxes := m.Boxes, bn := 0, total := int64.zero }, s1)

/-- How a call ends: it returns a value, or it panics. -/
inductive Outcome (α : Type) where
  | ret (a : α)
  | panic
  deriving DecidableEq

/-- `Reader.fill`. The index expression `r.boxes[r.bn]` panics when `r.bn` is
out of range. -/
def Reader.fill {σ : Type} (B : Bucket σ) (L : Lib) (r : Reader) (s : σ) :
    Outcome (Option GoError) × Reader × σ :=
  if r.bn = r.boxes.length then (.ret (some GoError.EOF), r, s)
  else
    match B.Get (Sprintf05d r.bn) s with
    | ((data, some err), s1) => (.ret (some err), { r with buf := data }, s1)
    | ((data, none), s1) =>
      match r.boxes[r.bn]? with
      | none => (.panic, { r with buf := data }, s1)
      | some h =>
        if L.Sum256 data ≠ h then
          (.ret (some (GoError.hashMismatch (Sprintf05d r.bn))), { r with buf := data }, s1)
        else (.ret none, { r with buf := data, n := 0, bn := r.bn + 1 }, s1)

/-- `Reader.Read(p)`: on return, the new contents of `p` and the result
`(n, err)`. The slice expression `r.buf[r.n:]` panics when `r.n > len(r.buf)`;
the deferred `r.total += int64(n)` runs in every case. -/
def Reader.Read {σ : Type} (B : Bucket σ) (L : Lib) (r : Reader) (s : σ) (p : List Byte) :
    Outcome (List Byte × Nat × Option GoError) × Reader × σ :=
  match (if r.n = r.buf.length then Reader.fill B L r s else (.ret none, r, s)) with
  | (.panic, r1, s1) => (.panic, { r1 with total := r1.total.add 0 }, s1)
  | (.ret (some err), r1, s1) => (.ret (p, 0, some err), { r1 with total := r1.total.add 0 }, s1)
  | (.ret none, r1, s1) =>
    if r1.n ≤ r1.buf.length then
      (.ret ((copy p (r1.buf.drop r1.n)).1, (copy p (r1.buf.drop r1.n)).2, none),
        { r1 with n := r1.n + (copy p (r1.buf.drop r1.n)).2,
                  total := r1.total.add (copy p (r1.buf.drop r1.n)).2 }, s1)
    else (.panic, { r1 with total := r1.total.add 0 }, s1)

/-- `Reader.Size`. -/
def Reader.Size (r : Reader) : int64 := r.total

/-! ## Driving a writer and a reader -/

/-- A sequence of `Write` calls, one per slice, on the same writer, with the
results `(n, err)` of the calls in order. -/
def Writer.writeAll {σ : Type} (B : Bucket σ) (L : Lib) (fuel : Nat) :
    Writer → σ → List (List Byte) → Option (List (Nat × Option GoError) × Writer × σ)
  | w, s, [] => some ([], w, s)
  | w, s, p :: ps =>
    match Writer.Write B L fuel w s p with
    | none => none
    | some (n, err, w1, s1) =>
      match Writer.writeAll B L fuel w1 s1 ps with
      | none => none
      | some (rs, w2, s2) => some ((n, err) :: rs, w2, s2)

/-- A call of a method of a `Writer`: `Write(p)` or `Close()`. -/
inductive WriterCall where
  | Write (p : List Byte)
  | Close
  deriving DecidableEq

/-- The result `(n, err)` of one call, with the writer and the store
afterwards; for `Close` the `n` is `0`. -/
def Writer.call {σ : Type} (B : Bucket σ) (L : Lib) (fuel : Nat) :
    WriterCall → Writer → σ → Option (Nat × Option GoError × Writer × σ)
  | .Write p, w, s => Writer.Write B L fuel w s p
  | .Close, w, s =>
    some (0, (Writer.Close B L w s).1, (Writer.Close B L w s).2.1, (Writer.Close B L w s).2.2)

/-- A sequence of calls on the same writer, with their results in order. -/
def Writer.calls {σ : Type} (B : Bucket σ) (L : Lib) (fuel : Nat) :
    List WriterCall → Writer → σ → Option (List (Nat × Option GoError) × Writer × σ)
  | [], w, s => some ([], w, s)
  | c :: cs, w, s =>
    match Writer.call B L fuel c w s with
    | none => none
    | some (n, err, w1, s1) =>
      match Writer.calls B L fuel cs w1 s1 with
      | none => none
      | some (rs, w2, s2) => some ((n, err) :: rs, w2, s2)

/-- `NewWriter`, one `Write` per slice, then `Close`: the error returned by
`Close`, the writer and the store afterwards. -/
def writeStream {σ : Type} (B : Bucket σ) (L : Lib) (fuel boxSize : Nat) (s : σ)
    (ps : List (List Byte)) : Option (Option GoError × Writer × σ) :=
  match Writer.writeAll B L fuel (NewWriter boxSize) s ps with
  | none => none
  | some (_, w, s1) => some (Writer.Close B L w s1)

/-- Calling `Read` until it returns `io.EOF`, with the caller's buffers `qs` in
turn: the bytes received (`p[:n]` of every call). The result is `none` when a
call returns another error or panics, or when the buffers run out before
`io.EOF`. -/
def Reader.readUntilEOF {σ : Type} (B : Bucket σ) (L : Lib) :
    List (List Byte) → Reader → σ → List Byte → Option (List Byte)
  | [], _, _, _ => none
  | q :: qs, r, s, acc =>
    match Reader.Read B L r s q with
    | (.ret (q1, n, none), r1, s1) => Reader.readUntilEOF B L qs r1 s1 (acc ++ q1.take n)
    | (.ret (_, _, some GoError.EOF), _, _) => some acc
    | _ => none

/-- `NewReader` followed by `Read` until `io.EOF`. -/
def readStream {σ : Type} (B : Bucket σ) (L : Lib) (qs : List (List Byte)) (s : σ) :
    Option (List Byte) :=
  match NewReader B L s with
  | (.error _, _) => none
  | (.ok r, s1) => Reader.readUntilEOF B L qs r s1 []

/-- The store after the given `Put` calls, made in order. -/
def applyPuts {σ : Type} (B : Bucket σ) : List (String × List Byte) → σ → σ
  | [], s => s
  | (k, v) :: calls, s => applyPuts B calls (B.Put k v s).2

/-- The `Put` calls that store the chunks `cs` under the sequence keys of the
indices `i`, `i + 1`, ... -/
def chunkPuts : Nat → List (List Byte) → List (String × List Byte)
  | _, [] => []
  | i, c :: cs => (Sprintf05d i, c) :: chunkPuts (i + 1) cs

/-- The state of a writer that has no error, has put the chunks `stored` (each
of `boxSize` bytes) and holds the bytes `w.buf[0:w.n]` in its buffer. -/
structure Writer.Holds (L : Lib) (boxSize : Nat) (w : Writer) (stored : List (List Byte)) :
    Prop where
  err : w.err = none
  boxes : w.boxes = stored.map L.Sum256
  size : w.buf.length = boxSize
  n_le : w.n ≤ boxSize
  full : ∀ c ∈ stored, c.length = boxSize

/-- The number that a string of decimal digits stands for, continuing from the
value `acc` of the digits read so far. -/
def digitsVal (acc : Nat) (cs : List Char) : Nat :=
  cs.foldl (fun a c => 10 * a + (c.toNat - 48)) acc

/-- The state of a reader of the chunks `chunks`: its manifest lists their
hashes, and its chunk index and read offset are in range. -/
structure Reader.Serves (L : Lib) (chunks : List (List Byte)) (r : Reader) : Prop where
  boxes : r.boxes = chunks.map L.Sum256
  bn_le : r.bn ≤ chunks.length
  n_le : r.n ≤ r.buf.length

/-- The bytes that a reader of the chunks `chunks` has yet to deliver. -/
def Reader.remaining (chunks : List (List Byte)) (r : Reader) : List Byte :=
  r.buf.drop r.n ++ (chunks.drop r.bn).flatten

/-- A store in memory: the list of the `Put` calls made so far, latest first.
`Put` never fails; `Get` returns the value of the latest `Put` under the key,
and a not-found error for a key never put. -/
def memBucket : Bucket (List (String × List Byte)) where
  Put := fun key data s => (none, (key, data) :: s)
  Get := fun key s =>
    match s.lookup key with
    | some data => ((data, none), s)
    | none => (([], some (GoError.osError true "file does not exist")), s)

/-- A store of which `view` is the contents: `Put` never fails and sets the
value under the key, `Get` returns the value under the key and leaves the
contents as they are. -/
structure LawfulStore {σ : Type} (B : Bucket σ) (view : σ → String → Option (List Byte)) :
    Prop where
  put_ok : ∀ k v s, (B.Put k v s).1 = none
  put_view : ∀ k v s, view (B.Put k v s).2 = Function.update (view s) k (some v)
  get_ok : ∀ k v s, view s k = some v → (B.Get k s).1 = (v, none)
  get_view : ∀ k s, view (B.Get k s).2 = view s

/-! ## bucket/encrypted.go -/

/-- `secretkey.Key`: 32 bytes. -/
abbrev Key := {l : List Byte // l.length = 32}

/-- A secretbox nonce, `[24]byte`. -/
abbrev Nonce := {l : List Byte // l.length = 24}

/-- Package `golang.org/x/crypto/nacl/secretbox`. `Seal message nonce key` is
what `secretbox.Seal(out, message, &nonce, &key)` appends to `out`;
`Open box nonce key` is what `secretbox.Open(nil, box, &nonce, &key)` returns,
`none` when the box does not authenticate. -/
structure Secretbox where
  Seal : List Byte → Nonce → Key → List Byte
  Open : List Byte → Nonce → Key → Option (List Byte)

/-- `secretbox.Overhead`. -/
def secretboxOverhead : Nat := 16

/-- `BoxOverhead = 24 + secretbox.Overhead`. -/
def BoxOverhead : Nat := 24 + secretboxOverhead

/-- The array after `var nonce [24]byte; copy(nonce[:], src)`. -/
def Nonce.ofSlice (src : List Byte) : Nonce :=
  ⟨(copy (List.replicate 24 0) src).1, by simp [copy]⟩

/-- `sealBox`; `nonce` is the array that `rand.Read` has filled. -/
def sealBox (sb : Secretbox) (nonce : Nonce) (data : List Byte) (key : Key) : List Byte :=
  nonce.val ++ sb.Seal data nonce key

/-- `openBox`: `secretbox.Open(nil, box[24:], &nonce, key)` with the nonce
copied from `box[0:24]`. -/
def openBox (sb : Secretbox) (box : List Byte) (key : Key) : Option (List Byte) :=
  sb.Open (box.drop 24) (Nonce.ofSlice (box.take 24)) key

/-- `encryptedBucket.Put`. The state of the store carries the stream of the
nonces that `crypto/rand` delivers; every `Put` takes the next one. -/
def encryptedBucket.Put {σ : Type} (sb : Secretbox) (bucket : Bucket σ) (privateKey : Key)
    (key : String) (data : List Byte) (s : σ × Stream' Nonce) :
    Option GoError × (σ × Stream' Nonce) :=
  ((bucket.Put key (sealBox sb s.2.head data privateKey) s.1).1,
    ((bucket.Put key (sealBox sb s.2.head data privateKey) s.1).2, s.2.tail))

/-- `encryptedBucket.Get`. -/
def encryptedBucket.Get {σ : Type} (sb : Secretbox) (bucket : Bucket σ) (privateKey : Key)
    (key : String) (s : σ × Stream' Nonce) :
    (List Byte × Option GoError) × (σ × Stream' Nonce) :=
  match bucket.Get key s.1 with
  | ((_, some err), s1) => (([], some err), (s1, s.2))
  | ((box, none), s1) =>
    if box.length < BoxOverhead then (([], some GoError.shortBox), (s1, s.2))
    else
      match openBox sb box privateKey with
      | none => (([], some GoError.ErrAuth), (s1, s.2))
      | some data => ((data, none), (s1, s.2))

/-- `NewEncryptedBucket`. -/
def NewEncryptedBucket {σ : Type} (sb : Secretbox) (bucket : Bucket σ) (key : Key) :
    Bucket (σ × Stream' Nonce) where
  Put := encryptedBucket.Put sb bucket key
  Get := encryptedBucket.Get sb bucket key

/-! ## Concrete instances -/

/-- A stand-in for `sha256.Sum256`: the first 32 bytes of the input, padded
with zeros. -/
def toySum (l : List Byte) : boxhash := ⟨(copy (List.replicate 32 0) l).1, by simp [copy]⟩

/-- Cuts a list of bytes into arrays of 32 bytes. -/
def toyUnflat : Nat → List Byte → List boxhash
  | 0, _ => []
  | k + 1, l =>
    if h : (l.take 32).length = 32 then ⟨l.take 32, h⟩ :: toyUnflat k (l.drop 32) else []

/-- A stand-in for the library: the manifest is encoded as the concatenation
of its hashes. -/
def toyLib : Lib where
  Sum256 := toySum
  Marshal := fun m => (m.Boxes.map Subtype.val).flatten
  Unmarshal := fun l => .ok ⟨0, toyUnflat l.length l⟩

/-- A stand-in for secretbox: the box is the message followed by a tag of 16
zero bytes, and a box opens when it ends in that tag. -/
def toySecretbox : Secretbox where
  Seal := fun message _ _ => message ++ List.replicate 16 0
  Open := fun box _ _ =>
    if box.drop (box.length - 16) = List.replicate 16 0 ∧ 16 ≤ box.length
    then some (box.take (box.length - 16)) else none

/-- A key of 32 zero bytes. -/
def toyKey : Key := ⟨List.replicate 32 0, by simp⟩

/-- A nonce of 24 bytes of value 7. -/
def toyNonce : Nonce := ⟨List.replicate 24 7, by simp⟩

/-- A store that fails every `Put` and holds nothing. -/
def brokenBucket : Bucket Unit where
  Put := fun _ _ s => (some (GoError.other "disk full"), s)
  Get := fun _ s => (([], some (GoError.osError true "file does not exist")), s)

/-- A store that records the `Put` calls made, earliest first, and never
fails. -/
def logBucket : Bucket (List (String × List Byte)) where
  Put := fun key data s => (none, s ++ [(key, data)])
  Get := fun _ s => (([], some (GoError.osError true "file does not exist")), s)

/-! ## Error messages -/

/-- The method `Error()` of the modelled error values; `quote` is
`strconv.Quote`, the verb `%q` of package `fmt`. -/
def GoError.Error (quote : String → String) : GoError → String
  | .EOF => "EOF"
  | .ErrAuth => "integrity check failure"
  | .alreadyClosed => "already closed"
  | .shortBox => "short box"
  | .hashMismatch key => "Get(" ++ quote key ++ "): hash mismatch"
  | .getFailed key cause => "Get(" ++ quote key ++ "): " ++ cause.Error quote
  | .putFailed key cause => "Put(" ++ quote key ++ "): " ++ cause.Error quote
  | .parseMetadata cause => "failed to parse metadata: " ++ cause.Error quote
  | .serviceError Code Message =>
    if Message ≠ "" then Code ++ " (S3 error)" ++ ": " ++ Message else Code ++ " (S3 error)"
  | .osError _ text => text
  | .other text => text

/-! ## bucket/recoverable.go -/

/-- What the process does to the operator and to the clock, in order: a line
written through the logger, a wait of `time.Sleep`, a text written to standard
error. -/
inductive Event where
  | log (line : String)
  | sleep (seconds : Nat)
  | stderr (text : String)
  deriving DecidableEq, Repr

/-- The console of the process: the events so far, and what the coming calls of
`buf.ReadString('\n')` on standard input will return, one pair `(line, err)`
per call. After the last pair the input is at its end: `ReadString` returns
`("", io.EOF)`. -/
structure Console where
  out : List Event
  stdin : List (String × Option GoError)
  deriving DecidableEq

/-- The result of `PromptLogger.Retry`, given the pair `(line, err)` that
`buf.ReadString('\n')` has returned in it. `line[0]` is the first byte of the
line. -/
def PromptLogger.Retry (line : String) (err : Option GoError) : Bool :=
  if err ≠ none ∨ line = "" ∨ line.get 0 = 'n' ∨ line.get 0 = 'N' then false else true

/-- What `b.log.Printf("Put(%q) failed: %s\n... Retrying in 5 seconds.", key, err)`
followed by `time.Sleep(5 * time.Second)` does; `op` is `"Put"` or `"Get"`. -/
def recoverableBucket.retrying (quote : String → String) (op key : String) (err : GoError) :
    List Event :=
  [Event.log (op ++ "(" ++ quote key ++ ") failed: " ++ err.Error quote
      ++ "\n... Retrying in 5 seconds."),
    Event.sleep 5]

/-- What `b.log.Retry("Put(%q) failed: %s", key, err)` does before it reads the
operator's line: the failure goes through the logger, the prompt to standard
error. -/
def recoverableBucket.prompting (quote : String → String) (op key : String) (err : GoError) :
    List Event :=
  [Event.log (op ++ "(" ++ quote key ++ ") failed: " ++ err.Error quote),
    Event.stderr "--> Retry? [Y/n]: "]

/-- The loop of `recoverableBucket.Put`, on the lines still to come from
standard input, the state of the wrapped bucket and the events so far. -/
def recoverableBucket.putLoop {σ : Type} (quote : String → String) (bucket : Bucket σ)
    (key : String) (data : List Byte) :
    List (String × Option GoError) → σ → List Event → Option GoError × σ × Console
  | stdin, s, out =>
    match bucket.Put key data s with
    | (none, s1) => (none, s1, { out := out, stdin := stdin })
    | (some err, s1) =>
      match bucket.Put key data s1 with
      | (none, s2) =>
        (none, s2,
          { out := out ++ recoverableBucket.retrying quote "Put" key err, stdin := stdin })
      | (some err2, s2) =>
        match stdin with
        | [] =>
          (some (GoError.putFailed key err2), s2,
            { out := out ++ recoverableBucket.retrying quote "Put" key err
                ++ recoverableBucket.prompting quote "Put" key err2,
              stdin := [] })
        | (line, rerr) :: rest =>
          if PromptLogger.Retry line rerr then
            recoverableBucket.putLoop quote bucket key data rest s2
              (out ++ recoverableBucket.retrying quote "Put" key err
                ++ recoverableBucket.prompting quote "Put" key err2)
          else
            (some (GoError.putFailed key err2), s2,
              { out := out ++ recoverableBucket.retrying quote "Put" key err
                  ++ recoverableBucket.prompting quote "Put" key err2,
                stdin := rest })

/-- `recoverableBucket.Put`, on the state of the wrapped bucket and the
console. -/
def recoverableBucket.Put {σ : Type} (quote : String → String) (bucket : Bucket σ)
    (key : String) (data : List Byte) (s : σ × Console) : Option GoError × (σ × Console) :=
  ((recoverableBucket.putLoop quote bucket key data s.2.stdin s.1 s.2.out).1,
    ((recoverableBucket.putLoop quote bucket key data s.2.stdin s.1 s.2.out).2.1,
      (recoverableBucket.putLoop quote bucket key data s.2.stdin s.1 s.2.out).2.2))

/-- The loop of `recoverableBucket.Get`, on the lines still to come from
standard input, the state of the wrapped bucket and the events so far. -/
def recoverableBucket.getLoop {σ : Type} (quote : String → String) (bucket : Bucket σ)
    (key : String) :
    List (String × Option GoError) → σ → List Event →
      (List Byte × Option GoError) × σ × Console
  | stdin, s, out =>
    match bucket.Get key s with
    | ((data, none), s1) => ((data, none), s1, { out := out, stdin := stdin })
    | ((_, some err), s1) =>
      if ¬ isRecoverable err then (([], some err), s1, { out := out, stdin := stdin })
      else
        match bucket.Get key s1 with
        | ((data, none), s2) =>
          ((data, none), s2,
            { out := out ++ recoverableBucket.retrying quote "Get" key err, stdin := stdin })
        | ((_, some err2), s2) =>
          match stdin with
          | [] =>
            (([], some (GoError.getFailed key err2)), s2,
              { out := out ++ recoverableBucket.retrying quote "Get" key err
                  ++ recoverableBucket.prompting quote "Get" key err2,
                stdin := [] })
          | (line, rerr) :: rest =>
            if PromptLogger.Retry line rerr then
              recoverableBucket.getLoop quote bucket key rest s2
                (out ++ recoverableBucket.retrying quote "Get" key err
                  ++ recoverableBucket.prompting quote "Get" key err2)
            else
              (([], some (GoError.getFailed key err2)), s2,
                { out := out ++ recoverableBucket.retrying quote "Get" key err
                    ++ recoverableBucket.prompting quote "Get" key err2,
                  stdin := rest })

/-- `recoverableBucket.Get`, on the state of the wrapped bucket and the
console. -/
def recoverableBucket.Get {σ : Type} (quote : String → String) (bucket : Bucket σ)
    (key : String) (s : σ × Console) : (List Byte × Option GoError) × (σ × Console) :=
  ((recoverableBucket.getLoop quote bucket key s.2.stdin s.1 s.2.out).1,
    ((recoverableBucket.getLoop quote bucket key s.2.stdin s.1 s.2.out).2.1,
      (recoverableBucket.getLoop quote bucket key s.2.stdin s.1 s.2.out).2.2))

/-- `NewRecoverableBucket`. -/
def NewRecoverableBucket {σ : Type} (quote : String → String) (b : Bucket σ) :
    Bucket (σ × Console) where
  Put := recoverableBucket.Put quote b
  Get := recoverableBucket.Get quote b

/-- The state after `n` calls of `Put(key, data)` on a bucket. -/
def putTimes {σ : Type} (bucket : Bucket σ) (key : String) (data : List Byte) : Nat → σ → σ
  | 0, s => s
  | n + 1, s => putTimes bucket key data n (bucket.Put key data s).2

/-- The state after `n` calls of `Get(key)` on a bucket. -/
def getTimes {σ : Type} (bucket : Bucket σ) (key : String) : Nat → σ → σ
  | 0, s => s
  | n + 1, s => getTimes bucket key n (bucket.Get key s).2

/-- The state of a bucket that answers from a script: the errors that the
coming calls return (`none` for success), and the number of calls made. -/
structure Scripted where
  script : List (Option GoError)
  calls : Nat
  deriving DecidableEq

/-- A bucket that answers its calls from a script and counts them; when the
script is used up every call succeeds. A successful `Get` returns one byte. -/
def scriptedBucket : Bucket Scripted where
  Put := fun _ _ s =>
    match s.script with
    | [] => (none, { s with calls := s.calls + 1 })
    | r :: rest => (r, { script := rest, calls := s.calls + 1 })
  Get := fun _ s =>
    match s.script with
    | [] => (([42], none), { s with calls := s.calls + 1 })
    | none :: rest => (([42], none), { script := rest, calls := s.calls + 1 })
    | some err :: rest => (([], some err), { script := rest, calls := s.calls + 1 })

/-- A stand-in for `strconv.Quote`, right on keys without quotes, backslashes or
unprintable characters. -/
def toyQuote (s : String) : String := "\"" ++ s ++ "\""

/-! ## The manifest as JSON -/

/-- Package `encoding/json` on a `boxhash`. The type is an array of bytes, not
a slice: it is encoded as a JSON array of the 32 byte values as numbers (only a
slice of bytes is encoded as a base64 string). -/
def jsonBoxhash (h : boxhash) : String :=
  "[" ++ ",".intercalate (h.val.map (fun b => Nat.repr b.toNat)) ++ "]"

/-- Package `encoding/json` on a `Metadata`, as text: an object with the fields
in the order of the struct. The field `Boxes` of the writer is the nil slice
until the first chunk is put, and a nil slice is encoded as `null`. -/
def jsonMetadata (m : Metadata) : String :=
  "\x7b\"Version\":" ++ (if m.Version < 0 then "-" else "") ++ Nat.repr m.Version.natAbs
    ++ ",\"Boxes\":"
    ++ (if m.Boxes.isEmpty then "null"
        else "[" ++ ",".intercalate (m.Boxes.map jsonBoxhash) ++ "]")
    ++ "\x7d"

/-- `json.Marshal` on a `Metadata`: the bytes of the text, which is ASCII. -/
def jsonMarshal (m : Metadata) : List Byte :=
  (jsonMetadata m).data.map (fun c => c.toNat.toUInt8)

/-- The stand-in library with `json.Marshal` as modelled; `Unmarshal` is not
used with it. -/
def toyJsonLib : Lib where
  Sum256 := toySum
  Marshal := jsonMarshal
  Unmarshal := fun _ => .error (GoError.other "not used")

/-! ## Package strings

A Go string is a Lean `String`: text in UTF-8. The separators and suffixes
that the code looks for are ASCII, for which a prefix or suffix of the bytes is
a prefix or suffix of the characters. -/

/-- `strings.HasPrefix`. -/
def strings.HasPrefix (s pre : String) : Bool := pre.data.isPrefixOf s.data

/-- `strings.HasSuffix`. -/
def strings.HasSuffix (s suffix : String) : Bool := suffix.data.isSuffixOf s.data

/-- `strings.TrimPrefix`: `s` without the leading `pre`, `s` itself when it does
not start with `pre`. -/
def strings.TrimPrefix (s pre : String) : String :=
  if strings.HasPrefix s pre then ⟨s.data.drop pre.data.length⟩ else s

/-- `strings.TrimSuffix`: `s` without the trailing `suffix`, `s` itself when it
does not end with `suffix`. -/
def strings.TrimSuffix (s suffix : String) : String :=
  if strings.HasSuffix s suffix then ⟨s.data.take (s.data.length - suffix.data.length)⟩
  else s

/-! ## Package path/filepath, on a Unix system -/

/-- The texts between the separators of a path, empty ones included. -/
def filepath.splitSlash : List Char → List (List Char)
  | [] => [[]]
  | c :: cs =>
    if c = '/' then [] :: filepath.splitSlash cs
    else
      match filepath.splitSlash cs with
      | [] => [[c]]
      | e :: es => (c :: e) :: es

/-- The path elements: the non-empty texts between the separators. -/
def filepath.elements (path : List Char) : List (List Char) :=
  (filepath.splitSlash path).filter (fun e => !e.isEmpty)

/-- Whether a path starts with the separator. -/
def filepath.rooted : List Char → Bool
  | [] => false
  | c :: _ => c == '/'

/-- One round of the loop of `filepath.Clean` on a path element, `out` being
the elements written so far, the last one first. A `.` is dropped; a `..`
takes back the last element written unless there is none or it is a `..`
itself, in which case a rooted path drops it and another path keeps it; any
other element is written. -/
def filepath.cleanStep (rooted : Bool) (out : List (List Char)) (e : List Char) :
    List (List Char) :=
  if e = ['.'] then out
  else if e = ['.', '.'] then
    match out with
    | [] => if rooted then out else e :: out
    | top :: rest =>
      if top = ['.', '.'] then (if rooted then out else e :: out) else rest
  else e :: out

/-- The elements with a separator between them. -/
def filepath.joinSlash : List (List Char) → List Char
  | [] => []
  | [e] => e
  | e :: e2 :: es => e ++ '/' :: filepath.joinSlash (e2 :: es)

/-- `filepath.Clean` on the characters of a path. The empty path and a path
that is not rooted and cleans to nothing give `.`. -/
def filepath.cleanChars (path : List Char) : List Char :=
  if path = [] then ['.']
  else if filepath.rooted path then
    '/' :: filepath.joinSlash
      ((filepath.elements path).foldl (filepath.cleanStep true) []).reverse
  else if (filepath.elements path).foldl (filepath.cleanStep false) [] = [] then ['.']
  else filepath.joinSlash ((filepath.elements path).foldl (filepath.cleanStep false) []).reverse

/-- `filepath.Clean`. -/
def filepath.Clean (path : String) : String := ⟨filepath.cleanChars path.data⟩

/-- `filepath.Join(a, b)`: the elements from the first non-empty one on are
joined with the separator and the result is cleaned; the empty string when both
are empty. -/
def filepath.Join (a b : String) : String :=
  if a ≠ "" then filepath.Clean (a ++ "/" ++ b)
  else if b ≠ "" then filepath.Clean b
  else ""

/-- `filepath.Dir`: the path up to its last separator, cleaned. -/
def filepath.Dir (path : String) : String :=
  filepath.Clean ⟨(path.data.reverse.dropWhile (fun c => c != '/')).reverse⟩

/-! ## Package os -/

/-- An `os.FileInfo`: what `List` reads of it. -/
structure FileInfo where
  Name : String
  IsDir : Bool
  deriving DecidableEq, Repr

/-- The functions of packages `os` and `io/ioutil` that `fileBucket` calls, on
the state `φ` of the file system and the process. -/
structure OS (φ : Type) where
  Getwd : φ → String × Option GoError
  MkdirAll : String → φ → Option GoError × φ
  WriteFile : String → List Byte → φ → Option GoError × φ
  ReadFile : String → φ → (List Byte × Option GoError) × φ
  ReadDir : String → φ → (List FileInfo × Option GoError) × φ
  RemoveAll : String → φ → Option GoError × φ

/-- `filepath.Abs`: a rooted path is cleaned, any other path is joined to the
working directory. -/
def filepath.Abs {φ : Type} (os : OS φ) (path : String) (fs : φ) : String × Option GoError :=
  if filepath.rooted path.data then (filepath.Clean path, none)
  else
    match os.Getwd fs with
    | (_, some err) => ("", some err)
    | (wd, none) => (filepath.Join wd path, none)

/-! ## bucket/fs.go -/

/-- `fileBucket`. -/
structure fileBucket where
  root : String
  deriving DecidableEq, Repr

/-- `NewFileBucket`; its error is always nil. -/
def NewFileBucket (path : String) : fileBucket := { root := path }

/-- `fileBucket.Abs`. -/
def fileBucket.Abs (b : fileBucket) (key : String) : String := filepath.Join b.root key

/-- `fileBucket.Put`. -/
def fileBucket.Put {φ : Type} (os : OS φ) (b : fileBucket) (key : String) (data : List Byte)
    (fs : φ) : Option GoError × φ :=
  match os.MkdirAll (filepath.Dir (b.Abs key)) fs with
  | (some err, fs1) => (some err, fs1)
  | (none, fs1) => os.WriteFile (b.Abs key) data fs1

/-- `fileBucket.Get`. -/
def fileBucket.Get {φ : Type} (os : OS φ) (b : fileBucket) (key : String) (fs : φ) :
    (List Byte × Option GoError) × φ :=
  os.ReadFile (b.Abs key) fs

/-- `fileBucket.List`: the Go triple `(keys, children, err)`. -/
def fileBucket.List {φ : Type} (os : OS φ) (b : fileBucket) (fs : φ) :
    (List String × List String × Option GoError) × φ :=
  match os.ReadDir b.root fs with
  | ((_, some err), fs1) =>
    if osIsNotExist err then (([], [], none), fs1) else (([], [], some err), fs1)
  | ((list, none), fs1) =>
    (((list.filter (fun x => !x.IsDir)).map (fun x => x.Name),
      (list.filter (fun x => x.IsDir)).map (fun x => x.Name), none), fs1)

/-- `fileBucket.Descend`; its error is always nil. -/
def fileBucket.Descend (b : fileBucket) (child : String) : fileBucket :=
  NewFileBucket (b.Abs child)

/-- `fileBucket.Destroy`. -/
def fileBucket.Destroy {φ : Type} (os : OS φ) (quote : String → String) (b : fileBucket)
    (fs : φ) : Option GoError × φ :=
  match filepath.Abs os b.root fs with
  | (_, some err) =>
    (some (GoError.other ("filepath.Abs(" ++ quote b.root ++ "): " ++ err.Error quote)), fs)
  | (abs, none) =>
    if filepath.Dir abs = "/" then
      (some (GoError.other ("refusing to destroy top-level directory " ++ quote abs)), fs)
    else
      match os.RemoveAll b.root fs with
      | (some err, fs1) =>
        (some (GoError.other ("os.RemoveAll(" ++ quote b.root ++ "): " ++ err.Error quote)),
          fs1)
      | (none, fs1) => (none, fs1)

/-! ## Package s3, as package bucket uses it -/

/-- `s3.ListBucketResult`. -/
structure s3.ListBucketResult where
  IsTruncated : Bool
  Contents : List String
  CommonPrefixes : List String
  deriving DecidableEq, Repr

/-- `s3.DeleteError`. -/
structure s3.DeleteError where
  Key : String
  Code : String
  Message : String
  deriving DecidableEq, Repr

/-- `s3.DeleteResult`. -/
structure s3.DeleteResult where
  Object : List String
  Error : List s3.DeleteError
  deriving DecidableEq, Repr

/-- The methods of an `*s3.Bucket`, which send requests to the remote service,
on the state `ρ` of that service. `List` and `Delete` return their result or
an error. -/
structure s3.Bucket (ρ : Type) where
  Put : String → List Byte → ρ → Option GoError × ρ
  Get : String → ρ → (List Byte × Option GoError) × ρ
  Delete : List String → ρ → Except GoError s3.DeleteResult × ρ
  List : String → String → ρ → Except GoError s3.ListBucketResult × ρ

/-! ## bucket/s3.go -/

/-- `s3Bucket`; `prefix_` is the field `prefix`. -/
structure s3Bucket (ρ : Type) where
  bucket : s3.Bucket ρ
  prefix_ : String

/-- `NewS3Bucket`. -/
def NewS3Bucket {ρ : Type} (b : s3.Bucket ρ) : s3Bucket ρ := { bucket := b, prefix_ := "" }

/-- `s3Bucket.Abs`. -/
def s3Bucket.Abs {ρ : Type} (b : s3Bucket ρ) (key : String) : String := b.prefix_ ++ key

/-- `s3Bucket.Put`. -/
def s3Bucket.Put {ρ : Type} (b : s3Bucket ρ) (key : String) (data : List Byte) (r : ρ) :
    Option GoError × ρ :=
  b.bucket.Put (b.Abs key) data r

/-- `s3Bucket.Get`. -/
def s3Bucket.Get {ρ : Type} (b : s3Bucket ρ) (key : String) (r : ρ) :
    (List Byte × Option GoError) × ρ :=
  b.bucket.Get (b.Abs key) r

/-- `s3Bucket.List`: the Go triple `(keys, children, err)`. A truncated result
sets the error and is still read. -/
def s3Bucket.List {ρ : Type} (quote : String → String) (b : s3Bucket ρ) (r : ρ) :
    (List String × List String × Option GoError) × ρ :=
  match b.bucket.List b.prefix_ "/" r with
  | (.error err, r1) =>
    (([], [], some (GoError.other ("List(" ++ quote b.prefix_ ++ ", " ++ quote "/" ++ "): "
      ++ err.Error quote))), r1)
  | (.ok list, r1) =>
    ((list.Contents.map (fun k => strings.TrimPrefix k b.prefix_),
      list.CommonPrefixes.map
        (fun d => strings.TrimPrefix (strings.TrimSuffix d "/") b.prefix_),
      if list.IsTruncated then
        some (GoError.other ("List(" ++ quote b.prefix_ ++ ", " ++ quote "/"
          ++ "): results truncated"))
      else none), r1)

/-- `s3Bucket.Descend`; its error is always nil. -/
def s3Bucket.Descend {ρ : Type} (b : s3Bucket ρ) (child : String) : s3Bucket ρ :=
  { bucket := b.bucket,
    prefix_ := b.prefix_ ++ (if !strings.HasSuffix child "/" then child ++ "/" else child) }

/-! ## The whole `Bucket` interface and the decorators -/

/-- The `Bucket` interface (bucket.go) for the buckets of one kind: `β` is the
type of the bucket values, `σ` the state of the store behind them. `bucket b`
is the pair of `Put` and `Get` of `b`. `List` returns the Go triple
`(keys, children, err)`, `Descend` an error or the child bucket. -/
structure BucketKind (β σ : Type) where
  bucket : β → Bucket σ
  Abs : β → String → String
  List : β → σ → (List String × List String × Option GoError) × σ
  Descend : β → String → σ → Except GoError β × σ
  Destroy : β → σ → Option GoError × σ

/-- The struct `encryptedBucket` (encrypted.go) around a bucket value of type
`β`. -/
structure encryptedBucket (β : Type) where
  bucket : β
  privateKey : Key

/-- `encryptedBucket.Abs`. -/
def encryptedBucket.Abs {β σ : Type} (I : BucketKind β σ) (b : encryptedBucket β)
    (key : String) : String :=
  I.Abs b.bucket key

/-- `encryptedBucket.List`; named `List_` to leave the name of the type of lists free in
this namespace. -/
def encryptedBucket.List_ {β σ : Type} (I : BucketKind β σ) (b : encryptedBucket β)
    (s : σ × Stream' Nonce) :
    (List String × List String × Option GoError) × (σ × Stream' Nonce) :=
  ((I.List b.bucket s.1).1, ((I.List b.bucket s.1).2, s.2))

/-- `encryptedBucket.Descend`. -/
def encryptedBucket.Descend {β σ : Type} (I : BucketKind β σ) (b : encryptedBucket β)
    (child : String) (s : σ × Stream' Nonce) :
    Except GoError (encryptedBucket β) × (σ × Stream' Nonce) :=
  match I.Descend b.bucket child s.1 with
  | (.error err, s1) => (.error err, (s1, s.2))
  | (.ok bb, s1) => (.ok { bucket := bb, privateKey := b.privateKey }, (s1, s.2))

/-- `encryptedBucket.Destroy`. -/
def encryptedBucket.Destroy {β σ : Type} (I : BucketKind β σ) (b : encryptedBucket β)
    (s : σ × Stream' Nonce) : Option GoError × (σ × Stream' Nonce) :=
  ((I.Destroy b.bucket s.1).1, ((I.Destroy b.bucket s.1).2, s.2))

/-- The buckets that `NewEncryptedBucket` and `encryptedBucket.Descend` make. -/
def encryptedBucket.kind {β σ : Type} (sb : Secretbox) (I : BucketKind β σ) :
    BucketKind (encryptedBucket β) (σ × Stream' Nonce) where
  bucket := fun b => NewEncryptedBucket sb (I.bucket b.bucket) b.privateKey
  Abs := encryptedBucket.Abs I
  List := encryptedBucket.List_ I
  Descend := encryptedBucket.Descend I
  Destroy := encryptedBucket.Destroy I

/-- A `*PromptLogger` (recoverable.go): the logger it points to, by name. -/
structure PromptLogger where
  name : String
  deriving DecidableEq, Repr

/-- The struct `recoverableBucket` (recoverable.go) around a bucket value of
type `β`. -/
structure recoverableBucket (β : Type) where
  bucket : β
  log : PromptLogger

/-- `recoverableBucket.Abs`. -/
def recoverableBucket.Abs {β σ : Type} (I : BucketKind β σ) (b : recoverableBucket β)
    (key : String) : String :=
  I.Abs b.bucket key

/-- `recoverableBucket.List`; named `List_` to leave the name of the type of lists free in
this namespace. -/
def recoverableBucket.List_ {β σ : Type} (I : BucketKind β σ) (b : recoverableBucket β)
    (s : σ × Console) : (List String × List String × Option GoError) × (σ × Console) :=
  ((I.List b.bucket s.1).1, ((I.List b.bucket s.1).2, s.2))

/-- `recoverableBucket.Descend`. -/
def recoverableBucket.Descend {β σ : Type} (I : BucketKind β σ) (b : recoverableBucket β)
    (child : String) (s : σ × Console) :
    Except GoError (recoverableBucket β) × (σ × Console) :=
  match I.Descend b.bucket child s.1 with
  | (.error err, s1) => (.error err, (s1, s.2))
  | (.ok bb, s1) => (.ok { bucket := bb, log := b.log }, (s1, s.2))

/-- `recoverableBucket.Destroy`. -/
def recoverableBucket.Destroy {β σ : Type} (I : BucketKind β σ) (b : recoverableBucket β)
    (s : σ × Console) : Option GoError × (σ × Console) :=
  ((I.Destroy b.bucket s.1).1, ((I.Destroy b.bucket s.1).2, s.2))

/-- The buckets that `NewRecoverableBucket` and `recoverableBucket.Descend`
make. -/
def recoverableBucket.kind {β σ : Type} (quote : String → String) (I : BucketKind β σ) :
    BucketKind (recoverableBucket β) (σ × Console) where
  bucket := fun b => NewRecoverableBucket quote (I.bucket b.bucket)
  Abs := recoverableBucket.Abs I
  List := recoverableBucket.List_ I
  Descend := recoverableBucket.Descend I
  Destroy := recoverableBucket.Destroy I

/-- The file buckets as a kind of bucket. -/
def fileBucket.kind {φ : Type} (os : OS φ) (quote : String → String) :
    BucketKind fileBucket φ where
  bucket := fun b => { Put := fileBucket.Put os b, Get := fileBucket.Get os b }
  Abs := fileBucket.Abs
  List := fileBucket.List os
  Descend := fun b child fs => (.ok (b.Descend child), fs)
  Destroy := fileBucket.Destroy os quote

/-! ## s3/sign.go -/

/-- The bytes of a Go string. -/
def bytesOf (s : String) : List Byte := s.data.flatMap String.utf8EncodeChar

/-- What `fmt.Fprintf(b, "%%%X", c)` writes for a byte `c`: a percent sign and
the value of `c` in upper-case hexadecimal. The verb has no width. -/
def percentX (c : Byte) : List Char := '%' :: (Nat.toDigits 16 c.toNat).map Char.toUpper

/-- Whether `uriEncode` writes the byte `c` as it is: the first two cases of its
`switch`. -/
def uriUnreserved (encodeSlash : Bool) (c : Byte) : Bool :=
  (65 ≤ c.toNat && c.toNat ≤ 90) || (97 ≤ c.toNat && c.toNat ≤ 122)
    || (48 ≤ c.toNat && c.toNat ≤ 57)
    || c.toNat == 95 || c.toNat == 45 || c.toNat == 126 || c.toNat == 46
    || (c.toNat == 47 && !encodeSlash)

/-- The loop of `uriEncode` over the bytes of its input. -/
def uriEncodeBytes (encodeSlash : Bool) : List Byte → List Char
  | [] => []
  | c :: s =>
    (if uriUnreserved encodeSlash c then [Char.ofNat c.toNat] else percentX c)
      ++ uriEncodeBytes encodeSlash s

/-- `uriEncode`. -/
def uriEncode (input : String) (encodeSlash : Bool) : String :=
  ⟨uriEncodeBytes encodeSlash (bytesOf input)⟩

/-- The order `<=` of Go strings on texts, character by character. For texts
in UTF-8 the order of the characters is the order of the bytes. -/
def lessEq : List Char → List Char → Bool
  | [], _ => true
  | _ :: _, [] => false
  | x :: xs, y :: ys =>
    if x.toNat < y.toNat then true
    else if y.toNat < x.toNat then false
    else lessEq xs ys

/-- `sort.Strings`: the strings in ascending order. -/
def sortStrings (qs : List String) : List String :=
  qs.insertionSort (fun a b => lessEq a.data b.data = true)

/-- `url.Values` is a `map[string][]string`: here the list of its entries in
the order in which `range` visits them. -/
abbrev Values := List (String × List String)

/-- The pairs of a name and one of its values. -/
def Values.pairs (m : Values) : List (String × String) :=
  m.flatMap (fun kv => kv.2.map (fun v => (kv.1, v)))

/-- `canonicalQueryString`: what it writes to `w`. -/
def canonicalQueryString (m : Values) : String :=
  "&".intercalate
    (sortStrings (m.flatMap (fun kv =>
      kv.2.map (fun v => uriEncode kv.1 true ++ "=" ++ uriEncode v true))))

/-! ## More concrete instances -/

/-- A file system for examples: the absolute paths that exist, with `true` for
a directory. The working directory is `/home/u`. -/
def toyOS.abs (path : String) : String :=
  if filepath.rooted path.data then filepath.Clean path else filepath.Join "/home/u" path

/-- See `toyOS.abs`. Every call succeeds except reading what does not exist. -/
def toyOS : OS (List (String × Bool)) where
  Getwd := fun _ => ("/home/u", none)
  MkdirAll := fun path fs => (none, (toyOS.abs path, true) :: fs)
  WriteFile := fun path _ fs => (none, (toyOS.abs path, false) :: fs)
  ReadFile := fun path fs =>
    if fs.contains (toyOS.abs path, false) then (([], none), fs)
    else (([], some (GoError.osError true "no such file or directory")), fs)
  ReadDir := fun path fs =>
    if fs.contains (toyOS.abs path, true) then
      ((((fs.filter (fun e => e.1 != toyOS.abs path && filepath.Dir e.1 == toyOS.abs path)).map
        (fun e => { Name := strings.TrimPrefix e.1 (toyOS.abs path ++ "/"), IsDir := e.2 })),
        none), fs)
    else (([], some (GoError.osError true "no such file or directory")), fs)
  RemoveAll := fun path fs =>
    (none, fs.filter (fun e =>
      !(e.1 == toyOS.abs path || strings.HasPrefix e.1 (toyOS.abs path ++ "/"))))

/-- A remote service for examples: the objects by key; every request succeeds
and a listing is never truncated. -/
def toyS3 : s3.Bucket (List (String × List Byte)) where
  Put := fun key data r => (none, (key, data) :: r)
  Get := fun key r =>
    match r.lookup key with
    | some data => ((data, none), r)
    | none => (([], some (GoError.serviceError "NoSuchKey" "")), r)
  List := fun pre _ r =>
    (.ok { IsTruncated := false,
           Contents := (r.map (fun e => e.1)).filter (fun k => strings.HasPrefix k pre),
           CommonPrefixes := [] }, r)
  Delete := fun keys r =>
    (.ok { Object := keys, Error := [] }, r.filter (fun e => !keys.contains e.1))

/-! ## Describing cleaned paths -/

/-- A path element: not empty and without a separator. -/
def filepath.IsElement (e : List Char) : Prop := e ≠ [] ∧ '/' ∉ e

/-- What `filepath.Clean` has written when its loop ends with `out`. -/
def filepath.render (rooted : Bool) (out : List (List Char)) : List Char :=
  if rooted then '/' :: filepath.joinSlash out.reverse
  else if out = [] then ['.'] else filepath.joinSlash out.reverse

/-! ## Counting the `Put` calls of a writer -/

/-- A bucket that counts the `Put` calls made on it, next to the bucket `B` that
serves them. -/
def countingBucket {σ : Type} (B : Bucket σ) : Bucket (σ × Nat) where
  Put := fun key data s => ((B.Put key data s.1).1, ((B.Put key data s.1).2, s.2 + 1))
  Get := fun key s => ((B.Get key s.1).1, ((B.Get key s.1).2, s.2))

/-! ## bucket/s3.go: `Destroy` -/

/-- `DeleteResult.GetError` (s3.go). -/
def s3.DeleteResult.GetError (quote : String → String) (d : s3.DeleteResult) :
    Option GoError :=
  match d.Error with
  | [] => none
  | e :: rest =>
    some (GoError.other ("deleting keys: " ++ quote e.Key ++ ": " ++ e.Code ++ ": " ++ e.Message
      ++ (if rest.length + 1 > 1 then " (+" ++ Nat.repr rest.length ++ " more errors)" else "")))

/-- `s3Bucket.Destroy`: the loop lists the keys under the prefix and deletes
them until a listing is empty. One unit of fuel per round; `none` means that
the fuel ran out. -/
def s3Bucket.Destroy {ρ : Type} (quote : String → String) (b : s3Bucket ρ) :
    Nat → ρ → Option (Option GoError) × ρ
  | 0, r => (none, r)
  | fuel + 1, r =>
    match b.bucket.List b.prefix_ "" r with
    | (.error err, r1) =>
      (some (some (GoError.other ("List(" ++ quote b.prefix_ ++ ", " ++ quote "" ++ "): "
        ++ err.Error quote))), r1)
    | (.ok list, r1) =>
      if list.Contents.length = 0 then (some none, r1)
      else
        match b.bucket.Delete list.Contents r1 with
        | (.error err, r2) =>
          (some (some (GoError.other ("Delete(" ++ quote (list.Contents.headD "") ++ ", ...): "
            ++ err.Error quote))), r2)
        | (.ok del, r2) =>
          match del.GetError quote with
          | some err => (some (some err), r2)
          | none => s3Bucket.Destroy quote b fuel r2

/-! ## s3/sign.go: the canonical request and the authorization -/

/-- An `http.Header`, a `map[string][]string`: the list of its entries in the
order in which `range` visits them. -/
abbrev Header := List (String × List String)

/-- What `canonicalRequest` reads of an `*http.Request`: `Path` is
`r.URL.Path`, `Query` is `r.URL.Query()`, `Body` is nil or what
`ioutil.ReadAll(r.Body)` returns. -/
structure Request where
  Method : String
  Path : String
  Query : Values
  Header : Header
  Host : String
  Body : Option (Except GoError (List Byte))

/-- `s3.Service`. -/
structure Service where
  Name : String
  Endpoint : String
  Region : String
  AccessKey : String
  AccessKeyId : String
  deriving DecidableEq, Repr

/-- The library functions that the signing code calls; `τ` is `time.Time`.
`HMAC key message` is the sum of `hmac.New(sha256.New, key)` after `message`
has been written to it; `ResolveReference path` is the path of
`r.URL.ResolveReference(r.URL)`; `Parse layout value` and `Format t layout` are
`time.Parse` and `Time.Format`. -/
structure SignLib (τ : Type) where
  Sum256 : List Byte → boxhash
  HMAC : List Byte → List Byte → boxhash
  ToLower : String → String
  ResolveReference : String → String
  Parse : String → String → Except GoError τ
  Format : τ → String → String

/-- `const iso8601`. -/
def iso8601 : String := "20060102T150405Z0700"

/-- `http.TimeFormat`. -/
def http.TimeFormat : String := "Mon, 02 Jan 2006 15:04:05 GMT"

/-- The verb `%x` on a slice or an array of bytes: two lower-case hexadecimal
digits for each byte. -/
def hexLower (bs : List Byte) : String :=
  ⟨bs.flatMap (fun b => [Nat.digitChar (b.toNat / 16), Nat.digitChar (b.toNat % 16)])⟩

/-- `textproto.CanonicalMIMEHeaderKey` on a key of letters, digits and hyphens:
the first letter and every letter after a hyphen in upper case, the others in
lower case. -/
def CanonicalMIMEHeaderKey (key : String) : String :=
  ⟨(key.data.foldl
    (fun (acc : List Char × Bool) c =>
      ((if acc.2 then c.toUpper else c.toLower) :: acc.1, c == '-'))
    ([], true)).1.reverse⟩

/-- `Header.Get`: the first value under the canonical form of the key, the
empty string when there is none. -/
def Header.Get (h : Header) (key : String) : String :=
  match h.lookup (CanonicalMIMEHeaderKey key) with
  | some (v :: _) => v
  | _ => ""

/-- Reading a Go `map[string]string` that is given by the list of its
assignments, the latest first: the empty string for a key never assigned. -/
def mapGet (m : List (String × String)) (k : String) : String := (m.lookup k).getD ""

/-- The map `m` of `canonicalHeaders` after its first loop, as the list of the
assignments made, the latest first. The values of each header are sorted and
joined with commas. -/
def canonicalHeaders.m {τ : Type} (lib : SignLib τ) (r : Request) : List (String × String) :=
  r.Header.foldl
    (fun m e => (lib.ToLower e.1, ",".intercalate (sortStrings e.2)) :: m)
    [("host", r.Host)]

/-- The slice `ks` of `canonicalHeaders` after `sort.Strings(ks)`. -/
def canonicalHeaders.ks {τ : Type} (lib : SignLib τ) (r : Request) : List String :=
  sortStrings ("host" :: r.Header.map (fun e => lib.ToLower e.1))

/-- The header lines that `canonicalHeaders` writes in its second loop. -/
def canonicalHeaders.lines {τ : Type} (lib : SignLib τ) (r : Request) : String :=
  String.join ((canonicalHeaders.ks lib r).map
    (fun k => k ++ ":" ++ mapGet (canonicalHeaders.m lib r) k ++ "\n"))

/-- The header of the request after `canonicalHeaders`: `sort.Strings(vs)` has
sorted the values of every header in place. -/
def canonicalHeaders.sorted (r : Request) : Header :=
  r.Header.map (fun e => (e.1, sortStrings e.2))

/-- `canonicalHeaders`: what it writes to `w`, and the slice it returns. -/
def canonicalHeaders {τ : Type} (lib : SignLib τ) (r : Request) : String × List String :=
  (canonicalHeaders.lines lib r ++ "\n" ++ ";".intercalate (canonicalHeaders.ks lib r),
    canonicalHeaders.ks lib r)

/-- `bodyHash`; it panics when the body cannot be read. -/
def bodyHash {τ : Type} (lib : SignLib τ) (r : Request) : Outcome String :=
  match r.Body with
  | none => .ret (hexLower (lib.Sum256 []).val)
  | some (.error _) => .panic
  | some (.ok body) => .ret (hexLower (lib.Sum256 body).val)

/-- The payload hash of `canonicalRequest`, read after `canonicalHeaders` has
run. -/
def canonicalRequest.hash {τ : Type} (lib : SignLib τ) (r : Request) : Outcome String :=
  if Header.Get (canonicalHeaders.sorted r) "x-amz-content-sha256" = "" then bodyHash lib r
  else .ret (Header.Get (canonicalHeaders.sorted r) "x-amz-content-sha256")

/-- `canonicalRequest`: what it writes to `w`, and the slice it returns. -/
def canonicalRequest {τ : Type} (lib : SignLib τ) (r : Request) :
    Outcome (String × List String) :=
  match canonicalRequest.hash lib r with
  | .panic => .panic
  | .ret hash =>
    .ret (r.Method ++ "\n" ++ uriEncode (lib.ResolveReference r.Path) false ++ "\n"
      ++ canonicalQueryString r.Query ++ "\n" ++ (canonicalHeaders lib r).1 ++ "\n" ++ hash,
      (canonicalHeaders lib r).2)

/-- `Service.scope`. -/
def Service.scope {τ : Type} (lib : SignLib τ) (s : Service) (now : τ) : String :=
  lib.Format now "20060102" ++ "/" ++ s.Region ++ "/" ++ s.Name ++ "/aws4_request"

/-- `hmacSum`. -/
def hmacSum {τ : Type} (lib : SignLib τ) (key : List Byte) (data : String) : List Byte :=
  (lib.HMAC key (bytesOf data)).val

/-- `Service.signingKey`. -/
def Service.signingKey {τ : Type} (lib : SignLib τ) (s : Service) (now : τ) : List Byte :=
  hmacSum lib
    (hmacSum lib
      (hmacSum lib
        (hmacSum lib (bytesOf ("AWS4" ++ s.AccessKey)) (lib.Format now "20060102"))
        s.Region)
      s.Name)
    "aws4_request"

/-- `Service.stringToSign`: what it writes to `w`, and the slice it returns. -/
def Service.stringToSign {τ : Type} (lib : SignLib τ) (s : Service) (r : Request) (now : τ) :
    Outcome (String × List String) :=
  match canonicalRequest lib r with
  | .panic => .panic
  | .ret (cr, signedHeaders) =>
    .ret ("AWS4-HMAC-SHA256\n" ++ lib.Format now iso8601 ++ "\n" ++ s.scope lib now ++ "\n"
      ++ hexLower (lib.Sum256 (bytesOf cr)).val, signedHeaders)

/-- The time `now` of `Service.authorization`: from `x-amz-date`, else from
`Date`; a panic when neither is set or the value does not parse. -/
def Service.now {τ : Type} (lib : SignLib τ) (r : Request) : Outcome τ :=
  if Header.Get r.Header "x-amz-date" ≠ "" then
    match lib.Parse iso8601 (Header.Get r.Header "x-amz-date") with
    | .error _ => .panic
    | .ok now => .ret now
  else if Header.Get r.Header "Date" ≠ "" then
    match lib.Parse http.TimeFormat (Header.Get r.Header "Date") with
    | .error _ => .panic
    | .ok now => .ret now
  else .panic

/-- `Service.authorization`. -/
def Service.authorization {τ : Type} (lib : SignLib τ) (s : Service) (r : Request) :
    Outcome String :=
  match Service.now lib r with
  | .panic => .panic
  | .ret now =>
    match s.stringToSign lib r now with
    | .panic => .panic
    | .ret (sts, signedHeaders) =>
      .ret ("AWS4-HMAC-SHA256 Credential=" ++ s.AccessKeyId ++ "/" ++ s.scope lib now
        ++ ", SignedHeaders=" ++ ";".intercalate signedHeaders
        ++ ", Signature=" ++ hexLower (lib.HMAC (s.signingKey lib now) (bytesOf sts)).val)

/-! ## The published test vectors (sign_test.go) -/

/-- The SHA-256 of the empty input. -/
def emptySum : boxhash :=
  ⟨[0xe3, 0xb0, 0xc4, 0x42, 0x98, 0xfc, 0x1c, 0x14, 0x9a, 0xfb, 0xf4, 0xc8, 0x99, 0x6f, 0xb9,
    0x24, 0x27, 0xae, 0x41, 0xe4, 0x64, 0x9b, 0x93, 0x4c, 0xa4, 0x95, 0x99, 0x1b, 0x78, 0x52,
    0xb8, 0x55], rfl⟩

/-! ## Package net/url: `resolvePath` -/

/-- The slice `str[:index]` for `index := strings.LastIndexByte(str, '/')`: the
text before the last `/` of `str`; `none` when `index == -1`. -/
def url.beforeLastSlash (str : List Char) : Option (List Char) :=
  if '/' ∈ str then some ((str.reverse.dropWhile (fun c => c ≠ '/')).drop 1).reverse
  else none

/-- One round of the loop of `resolvePath` (net/url), on the element `elem` that
`strings.Cut(remaining, "/")` has returned; the state is the text written to
`dst` and the flag `first`. -/
def url.resolveStep (st : List Char × Bool) (elem : List Char) : List Char × Bool :=
  if elem = ['.'] then (st.1, false)
  else if elem = ['.', '.'] then
    match url.beforeLastSlash (st.1.drop 1) with
    | none => (['/'], true)
    | some str => ('/' :: str, st.2)
  else ((if st.2 then st.1 else st.1 ++ ['/']) ++ elem, false)

/-- `resolvePath(base, ref)` of net/url (url.go, the version with
`strings.Cut`). `full` is `base` for an empty `ref`, `ref` for a `ref` that
starts with `/`, and else `base` up to its last `/` followed by `ref`. The loop
runs once for each text between the separators of `full`, empty ones included;
a last element `.` or `..` adds a `/`; of two `/` at the start the first is
dropped. -/
def url.resolvePath (base ref : String) : String :=
  let full : List Char :=
    if ref.data = [] then base.data
    else if ref.data.head? ≠ some '/' then
      (base.data.reverse.dropWhile (fun c => c ≠ '/')).reverse ++ ref.data
    else ref.data
  if full = [] then ""
  else
    let elems := filepath.splitSlash full
    let dst := (elems.foldl url.resolveStep (['/'], true)).1
    let r := if elems.getLast? = some ['.'] ∨ elems.getLast? = some ['.', '.']
      then dst ++ ['/'] else dst
    if 1 < r.length ∧ r.get? 1 = some '/' then ⟨r.drop 1⟩ else ⟨r⟩

/-- The library for the examples. `ResolveReference` is what net/url does for a
URL without scheme, host and raw path, as `http.ReadRequest` makes it from a
request line: `resolvePath` of the path against itself (the escaping before and
the unescaping after change no separator and no element `.` or `..`). It also
answers as the Go library does for the SHA-256 of the empty input and for the
lower case of ASCII header names. Elsewhere it is a stand-in: a time is the text
of its header, and `Format` with the layout of the date cuts it to eight
characters. -/
def toySignLib : SignLib String where
  Sum256 := fun b => if b = [] then emptySum else toySum b
  HMAC := fun key message => toySum (key ++ message)
  ToLower := fun s => ⟨s.data.map Char.toLower⟩
  ResolveReference := fun path => url.resolvePath path path
  Parse := fun _ value => .ok value
  Format := fun t layout => if layout = "20060102" then ⟨t.data.take 8⟩ else t

/-- A `test` of sign_test.go, after `fixTest`: `Request` is what
`http.ReadRequest` makes of the text of the request. -/
structure SignTest where
  Name : String
  Request : Request
  CanonicalRequest : String

/-- The tests of sign_test.go that `TestSign` runs (those not in `ignoreTest`). -/
def signTests : List SignTest := [
  { Name := "get-header-key-duplicate",
    Request := { Method := "POST", Path := "/", Query := [],
                 Header := [("Date", ["Mon, 09 Sep 2011 23:36:00 GMT"]), ("Zoo", ["zoobar", "foobar", "zoobar"])],
                 Host := "host.foo.com", Body := some (.ok []) },
    CanonicalRequest := "POST\n/\n\ndate:Mon, 09 Sep 2011 23:36:00 GMT\nhost:host.foo.com\nzoo:foobar,zoobar,zoobar\n\ndate;host;zoo\ne3b0c44298fc1c149afbf4c8996fb92427ae41e4649b934ca495991b7852b855" },
  { Name := "get-header-value-order",
    Request := { Method := "POST", Path := "/", Query := [],
                 Header := [("Date", ["Mon, 09 Sep 2011 23:36:00 GMT"]), ("P", ["z", "a", "p", "a"])],
                 Host := "host.foo.com", Body := some (.ok []) },
    CanonicalRequest := "POST\n/\n\ndate:Mon, 09 Sep 2011 23:36:00 GMT\nhost:host.foo.com\np:a,a,p,z\n\ndate;host;p\ne3b0c44298fc1c149afbf4c8996fb92427ae41e4649b934ca495991b7852b855" },
  { Name := "get-header-value-trim",
    Request := { Method := "POST", Path := "/", Query := [],
                 Header := [("Date", ["Mon, 09 Sep 2011 23:36:00 GMT"]), ("P", ["phfft"])],
                 Host := "host.foo.com", Body := some (.ok []) },
    CanonicalRequest := "POST\n/\n\ndate:Mon, 09 Sep 2011 23:36:00 GMT\nhost:host.foo.com\np:phfft\n\ndate;host;p\ne3b0c44298fc1c149afbf4c8996fb92427ae41e4649b934ca495991b7852b855" },
  { Name := "get-relative-relative",
    Request := { Method := "GET", Path := "/foo/bar/../..", Query := [],
                 Header := [("Date", ["Mon, 09 Sep 2011 23:36:00 GMT"])],
                 Host := "host.foo.com", Body := some (.ok []) },
    CanonicalRequest := "GET\n/\n\ndate:Mon, 09 Sep 2011 23:36:00 GMT\nhost:host.foo.com\n\ndate;host\ne3b0c44298fc1c149afbf4c8996fb92427ae41e4649b934ca495991b7852b855" },
  { Name := "get-relative",
    Request := { Method := "GET", Path := "/foo/..", Query := [],
                 Header := [("Date", ["Mon, 09 Sep 2011 23:36:00 GMT"])],
                 Host := "host.foo.com", Body := some (.ok []) },
    CanonicalRequest := "GET\n/\n\ndate:Mon, 09 Sep 2011 23:36:00 GMT\nhost:host.foo.com\n\ndate;host\ne3b0c44298fc1c149afbf4c8996fb92427ae41e4649b934ca495991b7852b855" },
  { Name := "get-slash-dot-slash",
    Request := { Method := "GET", Path := "/./", Query := [],
                 Header := [("Date", ["Mon, 09 Sep 2011 23:36:00 GMT"])],
                 Host := "host.foo.com", Body := some (.ok []) },
    CanonicalRequest := "GET\n/\n\ndate:Mon, 09 Sep 2011 23:36:00 GMT\nhost:host.foo.com\n\ndate;host\ne3b0c44298fc1c149afbf4c8996fb92427ae41e4649b934ca495991b7852b855" },
  { Name := "get-slash-pointless-dot",
    Request := { Method := "GET", Path := "/./foo", Query := [],
                 Header := [("Date", ["Mon, 09 Sep 2011 23:36:00 GMT"])],
                 Host := "host.foo.com", Body := some (.ok []) },
    CanonicalRequest := "GET\n/foo\n\ndate:Mon, 09 Sep 2011 23:36:00 GMT\nhost:host.foo.com\n\ndate;host\ne3b0c44298fc1c149afbf4c8996fb92427ae41e4649b934ca495991b7852b855" },
  { Name := "get-slash",
    Request := { Method := "GET", Path := "//", Query := [],
                 Header := [("Date", ["Mon, 09 Sep 2011 23:36:00 GMT"])],
                 Host := "host.foo.com", Body := some (.ok []) },
    CanonicalRequest := "GET\n/\n\ndate:Mon, 09 Sep 2011 23:36:00 GMT\nhost:host.foo.com\n\ndate;host\ne3b0c44298fc1c149afbf4c8996fb92427ae41e4649b934ca495991b7852b855" },
  { Name := "get-space",
    Request := { Method := "GET", Path := "/ /foo", Query := [],
                 Header := [("Date", ["Mon, 09 Sep 2011 23:36:00 GMT"])],
                 Host := "host.foo.com", Body := some (.ok []) },
    CanonicalRequest := "GET\n/%20/foo\n\ndate:Mon, 09 Sep 2011 23:36:00 GMT\nhost:host.foo.com\n\ndate;host\ne3b0c44298fc1c149afbf4c8996fb92427ae41e4649b934ca495991b7852b855" },
  { Name := "get-unreserved",
    Request := { Method := "GET", Path := "/-._~0123456789ABCDEFGHIJKLMNOPQRSTUVWXYZabcdefghijklmnopqrstuvwxyz", Query := [],
                 Header := [("Date", ["Mon, 09 Sep 2011 23:36:00 GMT"])],
                 Host := "host.foo.com", Body := some (.ok []) },
    CanonicalRequest := "GET\n/-._~0123456789ABCDEFGHIJKLMNOPQRSTUVWXYZabcdefghijklmnopqrstuvwxyz\n\ndate:Mon, 09 Sep 2011 23:36:00 GMT\nhost:host.foo.com\n\ndate;host\ne3b0c44298fc1c149afbf4c8996fb92427ae41e4649b934ca495991b7852b855" },
  { Name := "get-utf8",
    Request := { Method := "GET", Path := "/ሴ", Query := [],
                 Header := [("Date", ["Mon, 09 Sep 2011 23:36:00 GMT"])],
                 Host := "host.foo.com", Body := some (.ok []) },
    CanonicalRequest := "GET\n/%E1%88%B4\n\ndate:Mon, 09 Sep 2011 23:36:00 GMT\nhost:host.foo.com\n\ndate;host\ne3b0c44298fc1c149afbf4c8996fb92427ae41e4649b934ca495991b7852b855" },
  { Name := "get-vanilla-empty-query-key",
    Request := { Method := "GET", Path := "/", Query := [("foo", ["bar"])],
                 Header := [("Date", ["Mon, 09 Sep 2011 23:36:00 GMT"])],
                 Host := "host.foo.com", Body := some (.ok []) },
    CanonicalRequest := "GET\n/\nfoo=bar\ndate:Mon, 09 Sep 2011 23:36:00 GMT\nhost:host.foo.com\n\ndate;host\ne3b0c44298fc1c149afbf4c8996fb92427ae41e4649b934ca495991b7852b855" },
  { Name := "get-vanilla-query-order-key-case",
    Request := { Method := "GET", Path := "/", Query := [("foo", ["Zoo", "aha"])],
                 Header := [("Date", ["Mon, 09 Sep 2011 23:36:00 GMT"])],
                 Host := "host.foo.com", Body := some (.ok []) },
    CanonicalRequest := "GET\n/\nfoo=Zoo&foo=aha\ndate:Mon, 09 Sep 2011 23:36:00 GMT\nhost:host.foo.com\n\ndate;host\ne3b0c44298fc1c149afbf4c8996fb92427ae41e4649b934ca495991b7852b855" },
  { Name := "get-vanilla-query-order-key",
    Request := { Method := "GET", Path := "/", Query := [("a", ["foo"]), ("b", ["foo"])],
                 Header := [("Date", ["Mon, 09 Sep 2011 23:36:00 GMT"])],
                 Host := "host.foo.com", Body := some (.ok []) },
    CanonicalRequest := "GET\n/\na=foo&b=foo\ndate:Mon, 09 Sep 2011 23:36:00 GMT\nhost:host.foo.com\n\ndate;host\ne3b0c44298fc1c149afbf4c8996fb92427ae41e4649b934ca495991b7852b855" },
  { Name := "get-vanilla-query-order-value",
    Request := { Method := "GET", Path := "/", Query := [("foo", ["b", "a"])],
                 Header := [("Date", ["Mon, 09 Sep 2011 23:36:00 GMT"])],
                 Host := "host.foo.com", Body := some (.ok []) },
    CanonicalRequest := "GET\n/\nfoo=a&foo=b\ndate:Mon, 09 Sep 2011 23:36:00 GMT\nhost:host.foo.com\n\ndate;host\ne3b0c44298fc1c149afbf4c8996fb92427ae41e4649b934ca495991b7852b855" },
  { Name := "get-vanilla-query-unreserved",
    Request := { Method := "GET", Path := "/", Query := [("-._~0123456789ABCDEFGHIJKLMNOPQRSTUVWXYZabcdefghijklmnopqrstuvwxyz", ["-._~0123456789ABCDEFGHIJKLMNOPQRSTUVWXYZabcdefghijklmnopqrstuvwxyz"])],
                 Header := [("Date", ["Mon, 09 Sep 2011 23:36:00 GMT"])],
                 Host := "host.foo.com", Body := some (.ok []) },
    CanonicalRequest := "GET\n/\n-._~0123456789ABCDEFGHIJKLMNOPQRSTUVWXYZabcdefghijklmnopqrstuvwxyz=-._~0123456789ABCDEFGHIJKLMNOPQRSTUVWXYZabcdefghijklmnopqrstuvwxyz\ndate:Mon, 09 Sep 2011 23:36:00 GMT\nhost:host.foo.com\n\ndate;host\ne3b0c44298fc1c149afbf4c8996fb92427ae41e4649b934ca495991b7852b855" },
  { Name := "get-vanilla-query",
    Request := { Method := "GET", Path := "/", Query := [],
                 Header := [("Date", ["Mon, 09 Sep 2011 23:36:00 GMT"])],
                 Host := "host.foo.com", Body := some (.ok []) },
    CanonicalRequest := "GET\n/\n\ndate:Mon, 09 Sep 2011 23:36:00 GMT\nhost:host.foo.com\n\ndate;host\ne3b0c44298fc1c149afbf4c8996fb92427ae41e4649b934ca495991b7852b855" },
  { Name := "get-vanilla-ut8-query",
    Request := { Method := "GET", Path := "/", Query := [("ሴ", ["bar"])],
                 Header := [("Date", ["Mon, 09 Sep 2011 23:36:00 GMT"])],
                 Host := "host.foo.com", Body := some (.ok []) },
    CanonicalRequest := "GET\n/\n%E1%88%B4=bar\ndate:Mon, 09 Sep 2011 23:36:00 GMT\nhost:host.foo.com\n\ndate;host\ne3b0c44298fc1c149afbf4c8996fb92427ae41e4649b934ca495991b7852b855" },
  { Name := "get-vanilla",
    Request := { Method := "GET", Path := "/", Query := [],
                 Header := [("Date", ["Mon, 09 Sep 2011 23:36:00 GMT"])],
                 Host := "host.foo.com", Body := some (.ok []) },
    CanonicalRequest := "GET\n/\n\ndate:Mon, 09 Sep 2011 23:36:00 GMT\nhost:host.foo.com\n\ndate;host\ne3b0c44298fc1c149afbf4c8996fb92427ae41e4649b934ca495991b7852b855" },
  { Name := "post-header-key-case",
    Request := { Method := "POST", Path := "/", Query := [],
                 Header := [("Date", ["Mon, 09 Sep 2011 23:36:00 GMT"])],
                 Host := "host.foo.com", Body := some (.ok []) },
    CanonicalRequest := "POST\n/\n\ndate:Mon, 09 Sep 2011 23:36:00 GMT\nhost:host.foo.com\n\ndate;host\ne3b0c44298fc1c149afbf4c8996fb92427ae41e4649b934ca495991b7852b855" },
  { Name := "post-header-key-sort",
    Request := { Method := "POST", Path := "/", Query := [],
                 Header := [("Date", ["Mon, 09 Sep 2011 23:36:00 GMT"]), ("Zoo", ["zoobar"])],
                 Host := "host.foo.com", Body := some (.ok []) },
    CanonicalRequest := "POST\n/\n\ndate:Mon, 09 Sep 2011 23:36:00 GMT\nhost:host.foo.com\nzoo:zoobar\n\ndate;host;zoo\ne3b0c44298fc1c149afbf4c8996fb92427ae41e4649b934ca495991b7852b855" },
  { Name := "post-header-value-case",
    Request := { Method := "POST", Path := "/", Query := [],
                 Header := [("Date", ["Mon, 09 Sep 2011 23:36:00 GMT"]), ("Zoo", ["ZOOBAR"])],
                 Host := "host.foo.com", Body := some (.ok []) },
    CanonicalRequest := "POST\n/\n\ndate:Mon, 09 Sep 2011 23:36:00 GMT\nhost:host.foo.com\nzoo:ZOOBAR\n\ndate;host;zoo\ne3b0c44298fc1c149afbf4c8996fb92427ae41e4649b934ca495991b7852b855" },
  { Name := "post-vanilla-empty-query-value",
    Request := { Method := "POST", Path := "/", Query := [("foo", ["bar"])],
                 Header := [("Date", ["Mon, 09 Sep 2011 23:36:00 GMT"])],
                 Host := "host.foo.com", Body := some (.ok []) },
    CanonicalRequest := "POST\n/\nfoo=bar\ndate:Mon, 09 Sep 2011 23:36:00 GMT\nhost:host.foo.com\n\ndate;host\ne3b0c44298fc1c149afbf4c8996fb92427ae41e4649b934ca495991b7852b855" },
  { Name := "post-vanilla-query",
    Request := { Method := "POST", Path := "/", Query := [("foo", ["bar"])],
                 Header := [("Date", ["Mon, 09 Sep 2011 23:36:00 GMT"])],
                 Host := "host.foo.com", Body := some (.ok []) },
    CanonicalRequest := "POST\n/\nfoo=bar\ndate:Mon, 09 Sep 2011 23:36:00 GMT\nhost:host.foo.com\n\ndate;host\ne3b0c44298fc1c149afbf4c8996fb92427ae41e4649b934ca495991b7852b855" },
  { Name := "post-vanilla",
    Request := { Method := "POST", Path := "/", Query := [],
                 Header := [("Date", ["Mon, 09 Sep 2011 23:36:00 GMT"])],
                 Host := "host.foo.com", Body := some (.ok []) },
    CanonicalRequest := "POST\n/\n\ndate:Mon, 09 Sep 2011 23:36:00 GMT\nhost:host.foo.com\n\ndate;host\ne3b0c44298fc1c149afbf4c8996fb92427ae41e4649b934ca495991b7852b855" }]

/-! ## Driving a reader call by call -/

/-- The outcomes of a sequence of `Read` calls on one reader, one call for each
buffer of `ps`; no call is made after a panic. -/
def Reader.readCalls {σ : Type} (B : Bucket σ) (L : Lib) :
    List (List Byte) → Reader → σ → List (Outcome (List Byte × Nat × Option GoError))
  | [], _, _ => []
  | p :: ps, r, s =>
    match Reader.Read B L r s p with
    | (.panic, _, _) => [.panic]
    | (.ret a, r1, s1) => .ret a :: Reader.readCalls B L ps r1 s1

/-! ## The authorization header in the words of its description -/

/-- The text that the description of `Service.authorization` gives, for the time
`now` of the request, its canonical request `cr` and its signed header names:
the credential is the access key id and the scope `yyyymmdd/Region/Name/aws4_request`,
the signature is the HMAC in lower-case hexadecimal, under the key derived from
`"AWS4" + AccessKey` by four HMACs, of the algorithm name, the timestamp, the
scope and the hash of the canonical request in hexadecimal, one per line. -/
def Service.authorizationSpec {τ : Type} (lib : SignLib τ) (s : Service) (now : τ)
    (cr : String) (names : List String) : String :=
  "AWS4-HMAC-SHA256 Credential=" ++ s.AccessKeyId ++ "/" ++ lib.Format now "20060102" ++ "/"
    ++ s.Region ++ "/" ++ s.Name ++ "/aws4_request" ++ ", SignedHeaders="
    ++ ";".intercalate names
    ++ ", Signature="
    ++ hexLower (lib.HMAC
        (lib.HMAC
          (lib.HMAC
            (lib.HMAC
              (lib.HMAC (bytesOf ("AWS4" ++ s.AccessKey))
                (bytesOf (lib.Format now "20060102"))).val
              (bytesOf s.Region)).val
            (bytesOf s.Name)).val
          (bytesOf "aws4_request")).val
        (bytesOf ("AWS4-HMAC-SHA256\n" ++ lib.Format now iso8601 ++ "\n"
          ++ (lib.Format now "20060102" ++ "/" ++ s.Region ++ "/" ++ s.Name ++ "/aws4_request")
          ++ "\n" ++ hexLower (lib.Sum256 (bytesOf cr)).val))).val

/-! ## Recording the results of the `Put` calls of a writer -/

/-- A bucket that records the error result of each `Put` made on it, earliest
first, next to the bucket `B` that serves them. -/
def recordingBucket {σ : Type} (B : Bucket σ) : Bucket (σ × List (Option GoError)) where
  Put := fun key data s =>
    ((B.Put key data s.1).1, ((B.Put key data s.1).2, s.2 ++ [(B.Put key data s.1).1]))
  Get := fun key s => ((B.Get key s.1).1, ((B.Get key s.1).2, s.2))

/-! ## Trimming (packages unicode and strings) -/

/-- `unicode.IsSpace`: the code points with the property White_Space. -/
def unicode.IsSpace (c : Char) : Bool :=
  (0x09 ≤ c.toNat && c.toNat ≤ 0x0D) || c.toNat == 0x20 || c.toNat == 0x85 || c.toNat == 0xA0
    || c.toNat == 0x1680 || (0x2000 ≤ c.toNat && c.toNat ≤ 0x200A) || c.toNat == 0x2028
    || c.toNat == 0x2029 || c.toNat == 0x202F || c.toNat == 0x205F || c.toNat == 0x3000

/-- `strings.TrimFunc(s, f)`: `s` without its leading and its trailing
characters that satisfy `f`. -/
def strings.TrimFunc (s : String) (f : Char → Bool) : String :=
  ⟨((s.data.dropWhile f).reverse.dropWhile f).reverse⟩

/-- `strings.TrimSpace(s)`: `s` without its leading and trailing white space. -/
def strings.TrimSpace (s : String) : String := strings.TrimFunc s unicode.IsSpace

/-! ## Lemmas -/

theorem int64.add_zero (a : int64) : a.add 0 = a := by
  apply Subtype.ext
  have h := a.property
  simp only [int64.add]
  omega

theorem copy_snd (dst src : List Byte) : (copy dst src).2 = min dst.length src.length := rfl

theorem copy_fst_take (dst src : List Byte) :
    (copy dst src).1.take (copy dst src).2 = src.take (min dst.length src.length) := by
  simp only [copy]
  rw [List.take_append_of_le_length (by simp)]
  rw [List.take_take]
  simp

theorem Nonce.ofSlice_val (nonce : Nonce) : Nonce.ofSlice nonce.val = nonce := by
  apply Subtype.ext
  have h := nonce.property
  simp [Nonce.ofSlice, copy, h]

theorem Nonce.ofSlice_take (box : List Byte) (h : 24 ≤ box.length) :
    (Nonce.ofSlice (box.take 24)).val = box.take 24 := by
  simp [Nonce.ofSlice, copy, h]

/-! ## Encryption decorator -/

/-- The classification of `ErrAuth`. -/
theorem ErrAuth_class : IsNotExist GoError.ErrAuth = false ∧ isRecoverable GoError.ErrAuth = false := by
  decide

theorem prod_eq_of_fst {α β : Type} (x : α × β) (a : α) (h : x.1 = a) : x = (a, x.2) := by
  cases x; simp_all

theorem encryptedBucket.Get_err {σ : Type} (sb : Secretbox) (B : Bucket σ) (privateKey : Key)
    (key : String) (s : σ × Stream' Nonce) (box : List Byte) (err : GoError)
    (h : (B.Get key s.1).1 = (box, some err)) :
    encryptedBucket.Get sb B privateKey key s = (([], some err), ((B.Get key s.1).2, s.2)) := by
  have hg := prod_eq_of_fst _ _ h
  unfold encryptedBucket.Get
  rw [hg]

theorem encryptedBucket.Get_short {σ : Type} (sb : Secretbox) (B : Bucket σ) (privateKey : Key)
    (key : String) (s : σ × Stream' Nonce) (box : List Byte)
    (h : (B.Get key s.1).1 = (box, none)) (hlen : box.length < BoxOverhead) :
    encryptedBucket.Get sb B privateKey key s =
      (([], some GoError.shortBox), ((B.Get key s.1).2, s.2)) := by
  have hg := prod_eq_of_fst _ _ h
  unfold encryptedBucket.Get
  rw [hg]
  simp only [hlen, if_true]

theorem encryptedBucket.Get_open {σ : Type} (sb : Secretbox) (B : Bucket σ) (privateKey : Key)
    (key : String) (s : σ × Stream' Nonce) (box : List Byte)
    (h : (B.Get key s.1).1 = (box, none)) (hlen : BoxOverhead ≤ box.length) :
    encryptedBucket.Get sb B privateKey key s =
      ((match openBox sb box privateKey with
        | none => ([], some GoError.ErrAuth)
        | some data => (data, none)), ((B.Get key s.1).2, s.2)) := by
  have hg := prod_eq_of_fst _ _ h
  unfold encryptedBucket.Get
  rw [hg]
  simp only [Nat.not_lt.mpr hlen, if_false]
  cases openBox sb box privateKey <;> rfl

/-- C5. `encryptedBucket.Get` returns data without an error only when the
wrapped bucket returned a box of at least `BoxOverhead` bytes that
`secretbox.Open` authenticates under the key, with the nonce being the first 24
bytes of the box, and the data is then the opened plaintext; when
`secretbox.Open` rejects the box, `Get` returns no data and the error `ErrAuth`;
`ErrAuth` is not a not-found error and `isRecoverable` is false on it. -/
theorem encryptedBucket_Get_authenticated {σ : Type} (sb : Secretbox) (B : Bucket σ)
    (privateKey : Key) (key : String) (s : σ × Stream' Nonce) :
    (∀ data, (encryptedBucket.Get sb B privateKey key s).1 = (data, none) →
      ∃ box, (B.Get key s.1).1 = (box, none) ∧ BoxOverhead ≤ box.length ∧
        (Nonce.ofSlice (box.take 24)).val = box.take 24 ∧
        sb.Open (box.drop 24) (Nonce.ofSlice (box.take 24)) privateKey = some data) ∧
    (∀ box, (B.Get key s.1).1 = (box, none) → BoxOverhead ≤ box.length →
      sb.Open (box.drop 24) (Nonce.ofSlice (box.take 24)) privateKey = none →
      (encryptedBucket.Get sb B privateKey key s).1 = ([], some GoError.ErrAuth)) ∧
    IsNotExist GoError.ErrAuth = false ∧ isRecoverable GoError.ErrAuth = false := by
  refine ⟨?_, ?_, by decide, by decide⟩
  · intro data hd
    rcases hg : (B.Get key s.1).1 with ⟨box, e⟩
    cases e with
    | some err =>
      rw [encryptedBucket.Get_err sb B privateKey key s box err hg] at hd
      simp at hd
    | none =>
      by_cases hlen : box.length < BoxOverhead
      · rw [encryptedBucket.Get_short sb B privateKey key s box hg hlen] at hd
        simp at hd
      · have hle : BoxOverhead ≤ box.length := Nat.le_of_not_lt hlen
        rw [encryptedBucket.Get_open sb B privateKey key s box hg hle] at hd
        refine ⟨box, rfl, hle, Nonce.ofSlice_take box ?_, ?_⟩
        · simp only [BoxOverhead, secretboxOverhead] at hle
          omega
        · unfold openBox at hd
          cases ho : sb.Open (box.drop 24) (Nonce.ofSlice (box.take 24)) privateKey with
          | none => rw [ho] at hd; simp at hd
          | some d =>
            rw [ho] at hd
            simp only [Prod.mk.injEq, and_true] at hd
            rw [hd]
  · intro box hg hle ho
    rw [encryptedBucket.Get_open sb B privateKey key s box hg hle]
    simp only [openBox, ho]

theorem encryptedBucket_Get_authenticated_witness :
    (∃ box, (memBucket.Get "k" [("k", List.replicate 24 7 ++ [1, 2] ++ List.replicate 16 0)]).1
        = (box, none) ∧ BoxOverhead ≤ box.length ∧
        (Nonce.ofSlice (box.take 24)).val = box.take 24 ∧
        toySecretbox.Open (box.drop 24) (Nonce.ofSlice (box.take 24)) toyKey = some [1, 2]) ∧
    (encryptedBucket.Get toySecretbox memBucket toyKey "k"
      ([("k", List.replicate 40 9)], Stream'.const toyNonce)).1 = ([], some GoError.ErrAuth) :=
  ⟨(encryptedBucket_Get_authenticated toySecretbox memBucket toyKey "k"
      ([("k", List.replicate 24 7 ++ [1, 2] ++ List.replicate 16 0)], Stream'.const toyNonce)).1
      [1, 2] (by decide),
   (encryptedBucket_Get_authenticated toySecretbox memBucket toyKey "k"
      ([("k", List.replicate 40 9)], Stream'.const toyNonce)).2.1
      (List.replicate 40 9) (by decide) (by decide) (by decide)⟩

/-- C6, as the claim states it, fails: for a fetched payload of 0 bytes
`encryptedBucket.Get` returns the error "short box", which is not `ErrAuth` and
which `isRecoverable` classifies as recoverable. -/
theorem encryptedBucket_Get_short_recoverable :
    (encryptedBucket.Get toySecretbox memBucket toyKey "k"
        ([("k", [])], Stream'.const toyNonce)).1 = ([], some GoError.shortBox) ∧
    GoError.shortBox ≠ GoError.ErrAuth ∧
    ¬ (isRecoverable GoError.shortBox = false) := by
  decide

/-- C6, amended. For every fetched payload shorter than `BoxOverhead` (40
bytes), `encryptedBucket.Get` returns no data and the error "short box",
whatever `secretbox.Open` would answer (the box is not opened); that error is
not `ErrAuth` and not a not-found error, and `isRecoverable` classifies it as
recoverable. -/
theorem encryptedBucket_Get_short_box {σ : Type} (sb : Secretbox) (B : Bucket σ)
    (privateKey : Key) (key : String) (s : σ × Stream' Nonce) (box : List Byte)
    (h : (B.Get key s.1).1 = (box, none)) (hlen : box.length < BoxOverhead) :
    BoxOverhead = 40 ∧
    (encryptedBucket.Get sb B privateKey key s).1 = ([], some GoError.shortBox) ∧
    (∀ sb2 : Secretbox, encryptedBucket.Get sb2 B privateKey key s =
      encryptedBucket.Get sb B privateKey key s) ∧
    GoError.shortBox ≠ GoError.ErrAuth ∧
    IsNotExist GoError.shortBox = false ∧
    isRecoverable GoError.shortBox = true := by
  refine ⟨rfl, ?_, ?_, by decide, by decide, by decide⟩
  · rw [encryptedBucket.Get_short sb B privateKey key s box h hlen]
  · intro sb2
    rw [encryptedBucket.Get_short sb B privateKey key s box h hlen,
      encryptedBucket.Get_short sb2 B privateKey key s box h hlen]

theorem encryptedBucket_Get_short_box_witness :
    BoxOverhead = 40 ∧
    (encryptedBucket.Get toySecretbox memBucket toyKey "k"
      ([("k", List.replicate 39 0)], Stream'.const toyNonce)).1 = ([], some GoError.shortBox) ∧
    (∀ sb2 : Secretbox, encryptedBucket.Get sb2 memBucket toyKey "k"
        ([("k", List.replicate 39 0)], Stream'.const toyNonce) =
      encryptedBucket.Get toySecretbox memBucket toyKey "k"
        ([("k", List.replicate 39 0)], Stream'.const toyNonce)) ∧
    GoError.shortBox ≠ GoError.ErrAuth ∧
    IsNotExist GoError.shortBox = false ∧
    isRecoverable GoError.shortBox = true :=
  encryptedBucket_Get_short_box toySecretbox memBucket toyKey "k"
    ([("k", List.replicate 39 0)], Stream'.const toyNonce) (List.replicate 39 0)
    (by decide) (by decide)

theorem sealBox_length (sb : Secretbox) (nonce : Nonce) (data : List Byte) (key : Key)
    (hseal : ∀ m n k, (sb.Seal m n k).length = m.length + secretboxOverhead) :
    (sealBox sb nonce data key).length = data.length + BoxOverhead := by
  unfold sealBox
  rw [List.length_append, hseal, nonce.property]
  simp only [BoxOverhead]
  omega

/-- C7. For every plaintext `data`, `encryptedBucket.Put` calls the wrapped
bucket's `Put` once, with the same key and with the value: the 24 bytes of the
nonce drawn, followed by what `secretbox.Seal` makes of `data` under that
nonce and the key. That value has `len(data) + BoxOverhead` bytes, with
`BoxOverhead = 40`, and differs from `data`. (`secretbox.Seal` adds
`secretbox.Overhead` bytes to a message.) -/
theorem encryptedBucket_Put_box {σ : Type} (sb : Secretbox) (B : Bucket σ)
    (privateKey : Key) (key : String) (data : List Byte) (s : σ × Stream' Nonce)
    (hseal : ∀ m n k, (sb.Seal m n k).length = m.length + secretboxOverhead) :
    encryptedBucket.Put sb B privateKey key data s =
      ((B.Put key (s.2.head.val ++ sb.Seal data s.2.head privateKey) s.1).1,
        ((B.Put key (s.2.head.val ++ sb.Seal data s.2.head privateKey) s.1).2, s.2.tail)) ∧
    s.2.head.val.length = 24 ∧
    (s.2.head.val ++ sb.Seal data s.2.head privateKey).length = data.length + BoxOverhead ∧
    BoxOverhead = 40 ∧
    s.2.head.val ++ sb.Seal data s.2.head privateKey ≠ data := by
  have hn := s.2.head.property
  have hl : (s.2.head.val ++ sb.Seal data s.2.head privateKey).length
      = data.length + BoxOverhead := sealBox_length sb s.2.head data privateKey hseal
  refine ⟨rfl, hn, hl, rfl, ?_⟩
  intro heq
  rw [heq] at hl
  simp only [BoxOverhead, secretboxOverhead] at hl
  omega

theorem toySecretbox_Seal_length (m : List Byte) (n : Nonce) (k : Key) :
    (toySecretbox.Seal m n k).length = m.length + secretboxOverhead := by
  simp [toySecretbox, secretboxOverhead]

theorem toySecretbox_Open_Seal (m : List Byte) (n : Nonce) (k : Key) :
    toySecretbox.Open (toySecretbox.Seal m n k) n k = some m := by
  simp [toySecretbox]

theorem encryptedBucket_Put_box_witness :
    encryptedBucket.Put toySecretbox memBucket toyKey "k" [1, 2] ([], Stream'.const toyNonce) =
      ((memBucket.Put "k" (toyNonce.val ++ toySecretbox.Seal [1, 2] toyNonce toyKey) []).1,
        ((memBucket.Put "k" (toyNonce.val ++ toySecretbox.Seal [1, 2] toyNonce toyKey) []).2,
          (Stream'.const toyNonce).tail)) ∧
    toyNonce.val.length = 24 ∧
    (toyNonce.val ++ toySecretbox.Seal [1, 2] toyNonce toyKey).length = 2 + BoxOverhead ∧
    BoxOverhead = 40 ∧
    toyNonce.val ++ toySecretbox.Seal [1, 2] toyNonce toyKey ≠ [1, 2] :=
  encryptedBucket_Put_box toySecretbox memBucket toyKey "k" [1, 2]
    ([], Stream'.const toyNonce) toySecretbox_Seal_length

theorem memBucket_lawful : LawfulStore memBucket (fun s k => s.lookup k) := by
  refine ⟨fun _ _ _ => rfl, ?_, ?_, ?_⟩
  · intro k v s
    funext k2
    simp only [memBucket, Function.update, List.lookup, eq_rec_constant, dite_eq_ite]
    by_cases h : k2 = k
    · subst h
      simp
    · have : (k2 == k) = false := by simpa using h
      simp [h, this]
  · intro k v s h
    simp only [memBucket]
    simp only at h
    rw [h]
  · intro k s
    simp only [memBucket]
    cases s.lookup k <;> rfl

/-- C4. Over a wrapped bucket whose `Get` returns the last value `Put`, for
every secret key, key string and data (the empty data included),
`encryptedBucket.Put(k, data)` returns no error and `encryptedBucket.Get(k)`
afterwards returns exactly `data` and no error, given that `secretbox.Open`
inverts `secretbox.Seal` under the same key and nonce and that `Seal` adds
`secretbox.Overhead` bytes. -/
theorem encryptedBucket_roundtrip {σ : Type} (sb : Secretbox) (B : Bucket σ)
    (view : σ → String → Option (List Byte)) (hB : LawfulStore B view)
    (hopen : ∀ m n k, sb.Open (sb.Seal m n k) n k = some m)
    (hseal : ∀ m n k, (sb.Seal m n k).length = m.length + secretboxOverhead)
    (privateKey : Key) (key : String) (data : List Byte) (s : σ × Stream' Nonce) :
    (encryptedBucket.Put sb B privateKey key data s).1 = none ∧
    (encryptedBucket.Get sb B privateKey key
      (encryptedBucket.Put sb B privateKey key data s).2).1 = (data, none) := by
  have hput : encryptedBucket.Put sb B privateKey key data s =
      ((B.Put key (s.2.head.val ++ sb.Seal data s.2.head privateKey) s.1).1,
        ((B.Put key (s.2.head.val ++ sb.Seal data s.2.head privateKey) s.1).2, s.2.tail)) := rfl
  have hn := s.2.head.property
  have hl : (s.2.head.val ++ sb.Seal data s.2.head privateKey).length
      = data.length + BoxOverhead := sealBox_length sb s.2.head data privateKey hseal
  have hstate : (encryptedBucket.Put sb B privateKey key data s).2.1
      = (B.Put key (s.2.head.val ++ sb.Seal data s.2.head privateKey) s.1).2 := by
    rw [hput]
  have hview : view (encryptedBucket.Put sb B privateKey key data s).2.1 key
      = some (s.2.head.val ++ sb.Seal data s.2.head privateKey) := by
    rw [hstate, hB.put_view]
    simp
  have hget := hB.get_ok key _ _ hview
  refine ⟨?_, ?_⟩
  · rw [hput]
    exact hB.put_ok _ _ _
  · rw [encryptedBucket.Get_open sb B privateKey key _ _ hget (by omega)]
    have hopenBox : openBox sb (s.2.head.val ++ sb.Seal data s.2.head privateKey) privateKey
        = some data := by
      unfold openBox
      rw [List.drop_left' hn, List.take_left' hn, Nonce.ofSlice_val, hopen]
    simp only [hopenBox]

theorem encryptedBucket_roundtrip_witness :
    (encryptedBucket.Put toySecretbox memBucket toyKey "k" [] ([], Stream'.const toyNonce)).1
      = none ∧
    (encryptedBucket.Get toySecretbox memBucket toyKey "k"
      (encryptedBucket.Put toySecretbox memBucket toyKey "k" []
        ([], Stream'.const toyNonce)).2).1 = ([], none) :=
  encryptedBucket_roundtrip toySecretbox memBucket (fun s k => s.lookup k) memBucket_lawful
    toySecretbox_Open_Seal toySecretbox_Seal_length toyKey "k" [] ([], Stream'.const toyNonce)

/-! ## Writer: the sticky error -/

theorem Writer.flush_err {σ : Type} (B : Bucket σ) (L : Lib) (w : Writer) (s : σ) :
    (Writer.flush B L w s).2.1.err = w.err := by
  unfold Writer.flush
  split
  · rfl
  · split <;> rfl

theorem Writer.writeLoop_err {σ : Type} (B : Bucket σ) (L : Lib) (fuel : Nat) :
    ∀ (w : Writer) (s : σ) (p : List Byte) (n n1 : Nat) (e : GoError) (w1 : Writer) (s1 : σ),
      Writer.writeLoop B L fuel w s p n = some (n1, some e, w1, s1) → w1.err = some e := by
  induction fuel with
  | zero => intro w s p n n1 e w1 s1 h; simp [Writer.writeLoop] at h
  | succ fuel ih =>
    intro w s p n n1 e w1 s1 h
    unfold Writer.writeLoop at h
    split at h
    · split at h
      · simp only [Option.some.injEq, Prod.mk.injEq] at h
        obtain ⟨_, h2, h3, _⟩ := h
        rw [← h3]
        simpa using h2
      · exact ih _ _ _ _ _ _ _ _ h
    · simp at h

theorem Writer.Write_err {σ : Type} (B : Bucket σ) (L : Lib) (fuel : Nat) (w : Writer) (s : σ)
    (p : List Byte) (n1 : Nat) (e : GoError) (w1 : Writer) (s1 : σ)
    (h : Writer.Write B L fuel w s p = some (n1, some e, w1, s1)) : w1.err = some e := by
  unfold Writer.Write at h
  split at h
  · simp only [Option.some.injEq, Prod.mk.injEq] at h
    obtain ⟨_, h2, h3, _⟩ := h
    rw [← h3]
    simp_all
  · split at h
    · simp at h
    · rename_i n err w2 s2 hl
      simp only [Option.some.injEq, Prod.mk.injEq] at h
      obtain ⟨rfl, rfl, h3, rfl⟩ := h
      rw [← h3]
      exact Writer.writeLoop_err B L fuel _ _ _ _ _ _ w2 _ hl

theorem Writer.Close_err {σ : Type} (B : Bucket σ) (L : Lib) (w : Writer) (s : σ)
    (e : GoError) (h : (Writer.Close B L w s).1 = some e) :
    (Writer.Close B L w s).2.1.err = some e := by
  unfold Writer.Close at h ⊢
  split
  · simp_all
  · split
    · simp_all
    · split
      · simp_all
      · simp_all

theorem Writer.call_sticky {σ : Type} (B : Bucket σ) (L : Lib) (fuel : Nat) (c : WriterCall)
    (w : Writer) (s : σ) (e : GoError) (he : w.err = some e) :
    Writer.call B L fuel c w s = some (0, some e, w, s) := by
  cases c with
  | Write p => simp [Writer.call, Writer.Write, he]
  | Close => simp [Writer.call, Writer.Close, he]

theorem Writer.calls_sticky {σ : Type} (B : Bucket σ) (L : Lib) (fuel : Nat)
    (cs : List WriterCall) (w : Writer) (s : σ) (e : GoError) (he : w.err = some e) :
    Writer.calls B L fuel cs w s = some (cs.map (fun _ => (0, some e)), w, s) := by
  induction cs with
  | nil => rfl
  | cons c cs ih =>
    simp only [Writer.calls, Writer.call_sticky B L fuel c w s e he, ih, List.map_cons]

theorem Writer.flush_recording {σ : Type} (B : Bucket σ) (L : Lib) (w : Writer) (s : σ)
    (log : List (Option GoError)) :
    Writer.flush (recordingBucket B) L w (s, log) =
      ((Writer.flush B L w s).1, (Writer.flush B L w s).2.1, (Writer.flush B L w s).2.2,
        if w.n = 0 then log else log ++ [(Writer.flush B L w s).1]) := by
  unfold Writer.flush
  by_cases hn : w.n = 0
  · simp [hn]
  · simp only [if_neg hn]
    rcases hp : B.Put (Sprintf05d w.boxes.length) (w.buf.take w.n) s with ⟨e, s1⟩
    have hr : (recordingBucket B).Put (Sprintf05d w.boxes.length) (w.buf.take w.n) (s, log) =
        (e, s1, log ++ [e]) := by
      simp [recordingBucket, hp]
    rw [hr]
    cases e <;> rfl

/-- The record after a flush is the record before it, followed by the result of
the `Put` when the flush makes one; a flush that returns an error made one. -/
theorem Writer.flush_recording_log {σ : Type} (B : Bucket σ) (L : Lib) (w : Writer) (s : σ)
    (log : List (Option GoError)) :
    (∀ e, (Writer.flush B L w s).1 = some e →
      (Writer.flush (recordingBucket B) L w (s, log)).2.2.2 = log ++ [some e]) ∧
    ((Writer.flush B L w s).1 = none →
      ∃ j, (Writer.flush (recordingBucket B) L w (s, log)).2.2.2 =
        log ++ List.replicate j none) := by
  rw [Writer.flush_recording]
  by_cases hn : w.n = 0
  · have h0 : (Writer.flush B L w s).1 = none := by simp [Writer.flush, hn]
    constructor
    · intro e he; rw [h0] at he; cases he
    · intro _; exact ⟨0, by simp [hn]⟩
  · constructor
    · intro e he; simp [hn, he]
    · intro he; exact ⟨1, by simp [hn, he]⟩

/-- The write loop over the recording bucket returns what it returns over the
bucket itself, and its record grows by the results of the `Put` calls made: all
of them without error, except that a loop that returns an error made one last
`Put`, which returned that error. -/
theorem Writer.writeLoop_recording {σ : Type} (B : Bucket σ) (L : Lib) (fuel : Nat) :
    ∀ (w : Writer) (s : σ) (log : List (Option GoError)) (p : List Byte) (n : Nat),
      ∃ k, Writer.writeLoop (recordingBucket B) L fuel w (s, log) p n =
        (Writer.writeLoop B L fuel w s p n).map
          (fun r => (r.1, r.2.1, r.2.2.1, r.2.2.2,
            log ++ List.replicate k none ++ r.2.1.toList.map some)) := by
  induction fuel with
  | zero => intro w s log p n; exact ⟨0, rfl⟩
  | succ fuel ih =>
    intro w s log p n
    unfold Writer.writeLoop
    by_cases hc : p.length > w.buf.length - w.n
    · simp only [if_pos hc]
      have hlog := Writer.flush_recording_log B L (w.fillBuf p).1 s log
      have hrec := Writer.flush_recording B L (w.fillBuf p).1 s log
      rcases hf : Writer.flush B L (w.fillBuf p).1 s with ⟨e, w2, s2⟩
      rw [hf] at hlog hrec
      cases e with
      | some err =>
        have hl := hlog.1 err rfl
        rw [hrec] at hl ⊢
        simp only at hl
        refine ⟨0, ?_⟩
        simp only [hl, Option.map_some', List.replicate_zero, List.append_nil, Option.toList,
          List.map_cons, List.map_nil]
      | none =>
        obtain ⟨j, hj⟩ := hlog.2 rfl
        rw [hrec] at hj ⊢
        simp only at hj
        obtain ⟨k, hk⟩ := ih { w2 with err := none } s2 (log ++ List.replicate j none)
          (p.drop (w.fillBuf p).2) (n + (w.fillBuf p).2)
        refine ⟨j + k, ?_⟩
        simp only [hj]
        rw [hk]
        simp only [List.replicate_add, List.append_assoc]
    · simp only [if_neg hc]
      exact ⟨0, by simp⟩

/-- A call over the recording bucket returns what the call over the bucket
itself returns; its record grows by the results of the `Put` calls made. -/
theorem Writer.call_recording {σ : Type} (B : Bucket σ) (L : Lib) (fuel : Nat) (c : WriterCall)
    (w : Writer) (s : σ) (log : List (Option GoError)) (hnone : w.err = none) :
    ∃ k, Writer.call (recordingBucket B) L fuel c w (s, log) =
      (Writer.call B L fuel c w s).map
        (fun r => (r.1, r.2.1, r.2.2.1, r.2.2.2,
          log ++ List.replicate k none ++ r.2.1.toList.map some)) := by
  cases c with
  | Write p =>
    obtain ⟨k, hk⟩ := Writer.writeLoop_recording B L fuel w s log p 0
    refine ⟨k, ?_⟩
    simp only [Writer.call, Writer.Write, hnone, hk]
    cases Writer.writeLoop B L fuel w s p 0 with
    | none => rfl
    | some r => rfl
  | Close =>
    have hlog := Writer.flush_recording_log B L w s log
    have hrec := Writer.flush_recording B L w s log
    rcases hf : Writer.flush B L w s with ⟨e, w2, s2⟩
    rw [hf] at hlog hrec
    cases e with
    | some err =>
      have hl := hlog.1 err rfl
      rw [hrec] at hl
      simp only at hl
      refine ⟨0, ?_⟩
      simp only [Writer.call, Writer.Close, hnone, hrec, hf, hl, Option.map_some',
        List.replicate_zero, List.append_nil, Option.toList, List.map_cons, List.map_nil]
    | none =>
      obtain ⟨j, hj⟩ := hlog.2 rfl
      rw [hrec] at hj
      simp only at hj
      rcases hp : B.Put "meta" (L.Marshal { Version := Version, Boxes := w2.boxes }) s2
        with ⟨e, s3⟩
      have hr : (recordingBucket B).Put "meta"
          (L.Marshal { Version := Version, Boxes := w2.boxes })
          (s2, log ++ List.replicate j none) = (e, s3, log ++ List.replicate j none ++ [e]) := by
        simp [recordingBucket, hp]
      cases e with
      | some err =>
        refine ⟨j, ?_⟩
        simp only [Writer.call, Writer.Close, hnone, hrec, hf, hj, hr, hp, Option.map_some',
          Option.toList, List.map_cons, List.map_nil]
      | none =>
        refine ⟨j + 1, ?_⟩
        simp only [Writer.call, Writer.Close, hnone, hrec, hf, hj, hr, hp, Option.map_some',
          Option.toList, List.map_nil, List.append_nil, List.replicate_add,
          List.replicate_one, List.append_assoc]

/-- C10. Take a call of `Write` or `Close` on a writer without a recorded error,
over a store that records the result of each `Put` made on it. The call returns
what it returns over the store itself. Every `Put` it makes but the last
succeeds, and the last one fails exactly when the call returns an error, which is
then the error of that `Put`: a `Put` that fails inside the call is what the call
returns. Once the call has returned the error `e`, the writer has recorded it,
and every call of every later sequence of `Write` and `Close` calls, over this
store or any other, returns `n = 0` and that same `e` and leaves the writer (its
`Size()` with it), the store and the record of `Put` calls as the failing call
left them: no further `Put` is made. -/
theorem Writer_error_is_sticky {σ : Type} (B : Bucket σ) (L : Lib) (fuel : Nat)
    (w : Writer) (s : σ) (log : List (Option GoError)) (c : WriterCall)
    (n : Nat) (err : Option GoError) (w1 : Writer) (s1 : σ) (log1 : List (Option GoError))
    (hnone : w.err = none)
    (hcall : Writer.call (recordingBucket B) L fuel c w (s, log) = some (n, err, w1, s1, log1)) :
    Writer.call B L fuel c w s = some (n, err, w1, s1) ∧
    (∃ k, log1 = log ++ List.replicate k none ++ err.toList.map some) ∧
    (∀ e, some e ∈ log1.drop log.length → err = some e) ∧
    (∀ e, err = some e →
      w1.err = some e ∧
      (∀ cs : List WriterCall,
        Writer.calls (recordingBucket B) L fuel cs w1 (s1, log1) =
          some (cs.map (fun _ => (0, some e)), w1, s1, log1)) ∧
      (∀ (τ : Type) (B2 : Bucket τ) (t : τ) (cs : List WriterCall),
        Writer.calls B2 L fuel cs w1 t = some (cs.map (fun _ => (0, some e)), w1, t)) ∧
      (∀ p, Writer.Write B L fuel w1 s1 p = some (0, some e, w1, s1)) ∧
      Writer.Close B L w1 s1 = (some e, w1, s1)) := by
  obtain ⟨k, hk⟩ := Writer.call_recording B L fuel c w s log hnone
  rw [hk] at hcall
  rcases hB : Writer.call B L fuel c w s with _ | ⟨n0, e0, w0, s0⟩
  · rw [hB] at hcall; cases hcall
  rw [hB] at hcall
  simp only [Option.map_some', Option.some.injEq, Prod.mk.injEq] at hcall
  obtain ⟨rfl, rfl, rfl, rfl, hlog⟩ := hcall
  have hsticky : ∀ e, e0 = some e → w0.err = some e := by
    intro e he
    subst he
    cases c with
    | Write p => exact Writer.Write_err B L fuel w s p n0 e w0 s0 hB
    | Close =>
      simp only [Writer.call, Option.some.injEq, Prod.mk.injEq] at hB
      obtain ⟨_, h2, h3, _⟩ := hB
      rw [← h3]
      exact Writer.Close_err B L w s e h2
  refine ⟨rfl, ⟨k, hlog.symm⟩, ?_, ?_⟩
  · intro e he
    rw [← hlog, List.append_assoc, List.drop_left] at he
    rcases List.mem_append.1 he with h | h
    · exact absurd (List.eq_of_mem_replicate h) (by simp)
    · cases e0 with
      | none => simp at h
      | some e1 =>
        simp only [Option.toList, List.map_cons, List.map_nil, List.mem_singleton,
          Option.some.injEq] at h
        rw [h]
  · intro e he
    have hw := hsticky e he
    refine ⟨hw, fun cs => Writer.calls_sticky _ L fuel cs w0 _ e hw,
      fun τ B2 t cs => Writer.calls_sticky B2 L fuel cs w0 t e hw, ?_, ?_⟩
    · intro p
      simp [Writer.Write, hw]
    · simp [Writer.Close, hw]

theorem Writer_error_is_sticky_witness :
    Writer.call brokenBucket toyLib 5 (.Write [1, 2, 3]) (NewWriter 2) () =
      some (2, some (GoError.other "disk full"),
        { err := some (GoError.other "disk full"), boxes := [], buf := [1, 2], n := 2,
          total := int64.zero.add 2 }, ()) ∧
    (∀ e, some e ∈ ([some (GoError.other "disk full")] : List (Option GoError)).drop 0 →
      some (GoError.other "disk full") = some e) ∧
    Writer.calls (recordingBucket brokenBucket) toyLib 5 [.Write [4], .Close, .Write []]
        { err := some (GoError.other "disk full"), boxes := [], buf := [1, 2], n := 2,
          total := int64.zero.add 2 } ((), [some (GoError.other "disk full")])
      = some ([(0, some (GoError.other "disk full")), (0, some (GoError.other "disk full")),
          (0, some (GoError.other "disk full"))],
        { err := some (GoError.other "disk full"), boxes := [], buf := [1, 2], n := 2,
          total := int64.zero.add 2 }, (), [some (GoError.other "disk full")]) :=
  have h := Writer_error_is_sticky brokenBucket toyLib 5 (NewWriter 2) () [] (.Write [1, 2, 3]) 2
    (some (GoError.other "disk full"))
    { err := some (GoError.other "disk full"), boxes := [], buf := [1, 2], n := 2,
      total := int64.zero.add 2 } () [some (GoError.other "disk full")] rfl (by decide)
  ⟨h.1, h.2.2.1, (h.2.2.2 _ rfl).2.1 [.Write [4], .Close, .Write []]⟩

/-! ## Reader: a chunk that fails the hash check -/

theorem Reader.fill_mismatch {σ : Type} (B : Bucket σ) (L : Lib) (r : Reader) (s : σ)
    (data : List Byte) (h : boxhash)
    (hbox : r.boxes[r.bn]? = some h)
    (hget : (B.Get (Sprintf05d r.bn) s).1 = (data, none))
    (hsum : L.Sum256 data ≠ h) :
    Reader.fill B L r s =
      (.ret (some (GoError.hashMismatch (Sprintf05d r.bn))), { r with buf := data },
        (B.Get (Sprintf05d r.bn) s).2) := by
  have hlt : r.bn < r.boxes.length := by
    rcases Nat.lt_or_ge r.bn r.boxes.length with h1 | h1
    · exact h1
    · rw [List.getElem?_eq_none h1] at hbox
      simp at hbox
  have hg := prod_eq_of_fst _ _ hget
  unfold Reader.fill
  rw [if_neg (Nat.ne_of_lt hlt), hg]
  simp only [hbox]
  rw [if_pos hsum]

/-- C3. Let the reader's buffer be used up (`r.n = len(r.buf)`), so that `Read`
fetches the next chunk, and let the store return for it, without error, bytes
whose SHA-256 differs from the manifest entry `r.boxes[r.bn]`. Then `Read`
returns `n = 0` and the hash-mismatch error for the chunk's key, leaves the
caller's buffer as it was, does not advance the chunk index and leaves `Size()`
as it was. -/
theorem Reader_Read_hash_mismatch {σ : Type} (B : Bucket σ) (L : Lib) (r : Reader) (s : σ)
    (p data : List Byte) (h : boxhash)
    (hn : r.n = r.buf.length)
    (hbox : r.boxes[r.bn]? = some h)
    (hget : (B.Get (Sprintf05d r.bn) s).1 = (data, none))
    (hsum : L.Sum256 data ≠ h) :
    (Reader.Read B L r s p).1 =
      .ret (p, 0, some (GoError.hashMismatch (Sprintf05d r.bn))) ∧
    (Reader.Read B L r s p).2.1.bn = r.bn ∧
    (Reader.Read B L r s p).2.1.Size = r.Size := by
  have hr : Reader.Read B L r s p =
      (.ret (p, 0, some (GoError.hashMismatch (Sprintf05d r.bn))), { r with buf := data },
        (B.Get (Sprintf05d r.bn) s).2) := by
    unfold Reader.Read
    rw [if_pos hn, Reader.fill_mismatch B L r s data h hbox hget hsum]
    simp only [int64.add_zero]
  rw [hr]
  exact ⟨rfl, rfl, rfl⟩

theorem Reader_Read_hash_mismatch_witness :
    (Reader.Read memBucket toyLib
        { buf := [], n := 0, boxes := [toySum [1]], bn := 0, total := int64.zero }
        [("00000", [9, 9])] [0, 0, 0]).1 =
      .ret ([0, 0, 0], 0, some (GoError.hashMismatch (Sprintf05d 0))) ∧
    (Reader.Read memBucket toyLib
        { buf := [], n := 0, boxes := [toySum [1]], bn := 0, total := int64.zero }
        [("00000", [9, 9])] [0, 0, 0]).2.1.bn = 0 ∧
    (Reader.Read memBucket toyLib
        { buf := [], n := 0, boxes := [toySum [1]], bn := 0, total := int64.zero }
        [("00000", [9, 9])] [0, 0, 0]).2.1.Size = int64.zero :=
  Reader_Read_hash_mismatch memBucket toyLib
    { buf := [], n := 0, boxes := [toySum [1]], bn := 0, total := int64.zero }
    [("00000", [9, 9])] [0, 0, 0] [9, 9] (toySum [1]) rfl rfl (by decide) (by decide)

/-- C2 fails on the code. Under the conditions of the hash mismatch (the buffer
used up, the store returning for the next chunk bytes `data` whose SHA-256
differs from the manifest entry), the failing `Read` has already put `data`
into the reader's buffer. When `data` is longer than the old read offset `r.n`,
the next `Read` makes no store access, returns no error, and copies
`min(len(p2), len(data) - r.n)` bytes of the unverified `data` (from offset
`r.n` on) into the caller's buffer. -/
theorem Reader_Read_after_hash_mismatch {σ : Type} (B : Bucket σ) (L : Lib) (r : Reader)
    (s : σ) (p p2 data : List Byte) (h : boxhash)
    (hn : r.n = r.buf.length)
    (hbox : r.boxes[r.bn]? = some h)
    (hget : (B.Get (Sprintf05d r.bn) s).1 = (data, none))
    (hsum : L.Sum256 data ≠ h)
    (hlen : r.n < data.length) :
    (Reader.Read B L r s p).1 = .ret (p, 0, some (GoError.hashMismatch (Sprintf05d r.bn))) ∧
    (Reader.Read B L (Reader.Read B L r s p).2.1 (Reader.Read B L r s p).2.2 p2).1 =
      .ret ((data.drop r.n).take (min p2.length (data.length - r.n)) ++
              p2.drop (min p2.length (data.length - r.n)),
            min p2.length (data.length - r.n), none) ∧
    (Reader.Read B L (Reader.Read B L r s p).2.1 (Reader.Read B L r s p).2.2 p2).2.2 =
      (Reader.Read B L r s p).2.2 := by
  have hr : Reader.Read B L r s p =
      (.ret (p, 0, some (GoError.hashMismatch (Sprintf05d r.bn))), { r with buf := data },
        (B.Get (Sprintf05d r.bn) s).2) := by
    unfold Reader.Read
    rw [if_pos hn, Reader.fill_mismatch B L r s data h hbox hget hsum]
    simp only [int64.add_zero]
  rw [hr]
  refine ⟨rfl, ?_, ?_⟩
  · unfold Reader.Read
    simp only
    rw [if_neg (Nat.ne_of_lt hlen)]
    simp only
    rw [if_pos (Nat.le_of_lt hlen)]
    simp [copy]
  · unfold Reader.Read
    simp only
    rw [if_neg (Nat.ne_of_lt hlen)]
    simp only
    rw [if_pos (Nat.le_of_lt hlen)]

theorem Reader_Read_after_hash_mismatch_witness :
    (Reader.Read memBucket toyLib
        { buf := [], n := 0, boxes := [toySum [1]], bn := 0, total := int64.zero }
        [("00000", [9, 9])] [0, 0, 0]).1 =
      .ret ([0, 0, 0], 0, some (GoError.hashMismatch (Sprintf05d 0))) ∧
    (Reader.Read memBucket toyLib
        (Reader.Read memBucket toyLib
          { buf := [], n := 0, boxes := [toySum [1]], bn := 0, total := int64.zero }
          [("00000", [9, 9])] [0, 0, 0]).2.1
        (Reader.Read memBucket toyLib
          { buf := [], n := 0, boxes := [toySum [1]], bn := 0, total := int64.zero }
          [("00000", [9, 9])] [0, 0, 0]).2.2 [0, 0, 0]).1 =
      .ret ([9, 9, 0], 2, none) :=
  ⟨(Reader_Read_after_hash_mismatch memBucket toyLib
      { buf := [], n := 0, boxes := [toySum [1]], bn := 0, total := int64.zero }
      [("00000", [9, 9])] [0, 0, 0] [0, 0, 0] [9, 9] (toySum [1]) rfl rfl (by decide)
      (by decide) (by decide)).1,
   (Reader_Read_after_hash_mismatch memBucket toyLib
      { buf := [], n := 0, boxes := [toySum [1]], bn := 0, total := int64.zero }
      [("00000", [9, 9])] [0, 0, 0] [0, 0, 0] [9, 9] (toySum [1]) rfl rfl (by decide)
      (by decide) (by decide)).2.1⟩

/-! ## Writer: chunks and manifest -/

theorem applyPuts_append {σ : Type} (B : Bucket σ) (c1 c2 : List (String × List Byte)) (s : σ) :
    applyPuts B (c1 ++ c2) s = applyPuts B c2 (applyPuts B c1 s) := by
  induction c1 generalizing s with
  | nil => rfl
  | cons a c1 ih =>
    obtain ⟨k, v⟩ := a
    show applyPuts B (c1 ++ c2) (B.Put k v s).2 = applyPuts B c2 (applyPuts B c1 (B.Put k v s).2)
    exact ih _

theorem chunkPuts_append (i : Nat) (cs : List (List Byte)) (c : List Byte) :
    chunkPuts i (cs ++ [c]) = chunkPuts i cs ++ [(Sprintf05d (i + cs.length), c)] := by
  induction cs generalizing i with
  | nil => simp [chunkPuts]
  | cons a cs ih =>
    show (Sprintf05d i, a) :: chunkPuts (i + 1) (cs ++ [c]) =
      (Sprintf05d i, a) :: chunkPuts (i + 1) cs ++ [(Sprintf05d (i + (cs.length + 1)), c)]
    have : i + 1 + cs.length = i + (cs.length + 1) := by omega
    rw [ih, this]
    rfl

theorem Writer.fillBuf_snd (w : Writer) (p : List Byte) :
    (w.fillBuf p).2 = min (w.buf.length - w.n) p.length := by
  simp [Writer.fillBuf, copy]

theorem Writer.fillBuf_n (w : Writer) (p : List Byte) :
    (w.fillBuf p).1.n = w.n + min (w.buf.length - w.n) p.length := by
  simp [Writer.fillBuf, copy]

theorem Writer.fillBuf_length (w : Writer) (p : List Byte) (h : w.n ≤ w.buf.length) :
    (w.fillBuf p).1.buf.length = w.buf.length := by
  simp only [Writer.fillBuf, copy, List.length_append, List.length_take, List.length_drop]
  omega

theorem Writer.fillBuf_take (w : Writer) (p : List Byte) (h : w.n ≤ w.buf.length) :
    (w.fillBuf p).1.buf.take (w.fillBuf p).1.n =
      w.buf.take w.n ++ p.take (min (w.buf.length - w.n) p.length) := by
  simp only [Writer.fillBuf, copy, List.length_drop]
  have h1 : (w.buf.take w.n).length = w.n := by simp [h]
  rw [List.take_append_eq_append_take, h1]
  rw [List.take_of_length_le (by omega)]
  congr 1
  rw [Nat.add_sub_cancel_left, List.take_append_of_le_length (by simp), List.take_take]
  simp

theorem Writer.fillBuf_holds (L : Lib) (boxSize : Nat) (w : Writer) (stored : List (List Byte))
    (p : List Byte) (h : Writer.Holds L boxSize w stored) :
    Writer.Holds L boxSize (w.fillBuf p).1 stored := by
  have hle : w.n ≤ w.buf.length := by rw [h.size]; exact h.n_le
  refine ⟨h.err, h.boxes, ?_, ?_, h.full⟩
  · rw [Writer.fillBuf_length w p hle, h.size]
  · rw [Writer.fillBuf_n, h.size]
    have := h.n_le
    omega

theorem Writer.flush_ok {σ : Type} (B : Bucket σ) (L : Lib) (w : Writer) (s : σ)
    (w2 : Writer) (s2 : σ) (hf : Writer.flush B L w s = (none, w2, s2)) :
    (w.n = 0 ∧ w2 = w ∧ s2 = s) ∨
    (w.n ≠ 0 ∧ w2 = { w with boxes := w.boxes ++ [L.Sum256 (w.buf.take w.n)], n := 0 } ∧
      s2 = (B.Put (Sprintf05d w.boxes.length) (w.buf.take w.n) s).2) := by
  unfold Writer.flush at hf
  split at hf
  · rename_i h0
    simp only [Prod.mk.injEq, true_and] at hf
    exact Or.inl ⟨h0, hf.1.symm, hf.2.symm⟩
  · rename_i h0
    split at hf
    · simp at hf
    · rename_i s3 hput
      simp only [Prod.mk.injEq, true_and] at hf
      refine Or.inr ⟨h0, hf.1.symm, ?_⟩
      rw [hput]
      exact hf.2.symm

theorem Writer.writeLoop_spec {σ : Type} (B : Bucket σ) (L : Lib) (boxSize : Nat) (s0 : σ)
    (fuel : Nat) :
    ∀ (w : Writer) (s : σ) (p : List Byte) (n : Nat) (stored : List (List Byte))
      (n1 : Nat) (w1 : Writer) (s1 : σ),
      Writer.Holds L boxSize w stored →
      s = applyPuts B (chunkPuts 0 stored) s0 →
      (w.n = 0 → stored = [] ∨ p ≠ []) →
      Writer.writeLoop B L fuel w s p n = some (n1, none, w1, s1) →
      ∃ stored1, Writer.Holds L boxSize w1 stored1 ∧
        s1 = applyPuts B (chunkPuts 0 stored1) s0 ∧
        stored1.flatten ++ w1.buf.take w1.n = stored.flatten ++ w.buf.take w.n ++ p ∧
        (w1.n = 0 → stored1 = []) ∧ n1 = n + p.length ∧ w1.total = w.total := by
  induction fuel with
  | zero => intro w s p n stored n1 w1 s1 _ _ _ h; simp [Writer.writeLoop] at h
  | succ fuel ih =>
    intro w s p n stored n1 w1 s1 hw hs hne h
    have hle : w.n ≤ w.buf.length := by rw [hw.size]; exact hw.n_le
    have hsz := hw.size
    have hnle := hw.n_le
    unfold Writer.writeLoop at h
    split at h
    · rename_i hgt
      have hc : min (w.buf.length - w.n) p.length = w.buf.length - w.n := by omega
      have hfh := Writer.fillBuf_holds L boxSize w stored p hw
      have hft := Writer.fillBuf_take w p hle
      have hfn := Writer.fillBuf_n w p
      have hfs := Writer.fillBuf_snd w p
      rw [hc] at hft hfn hfs
      split at h
      · simp at h
      · rename_i w2 s2 hflush
        rcases Writer.flush_ok B L _ _ _ _ hflush with ⟨h0, hw2, hs2⟩ | ⟨h0, hw2, hs2⟩
        · -- nothing to flush: the buffer has size 0
          have hwn : w.n = 0 := by omega
          have hc0 : w.buf.length - w.n = 0 := by omega
          have hw2h : Writer.Holds L boxSize { w2 with err := none } stored := by
            rw [hw2]
            exact ⟨rfl, hfh.boxes, hfh.size, hfh.n_le, hfh.full⟩
          obtain ⟨stored1, h1, h2, h3, h4, h5, h6⟩ :=
            ih { w2 with err := none } s2 (p.drop (w.fillBuf p).2) (n + (w.fillBuf p).2)
              stored n1 w1 s1 hw2h (by rw [hs2]; exact hs)
              (by
                intro _
                rw [hfs, hc0]
                rcases hne hwn with h | h
                · exact Or.inl h
                · exact Or.inr (by simpa using h)) h
          refine ⟨stored1, h1, h2, ?_, h4, ?_, ?_⟩
          · rw [h3, hfs, hc0, hwn]
            simp only [hw2, h0, List.take_zero, List.append_nil, List.drop_zero]
          · rw [h5, hfs, hc0]
            simp
          · rw [h6, hw2]
            rfl
        · -- the full buffer is put as the next chunk
          have hchunk : ((w.fillBuf p).1.buf.take (w.fillBuf p).1.n).length = boxSize := by
            rw [hft]
            simp only [List.length_append, List.length_take]
            omega
          have hw2h : Writer.Holds L boxSize { w2 with err := none }
              (stored ++ [(w.fillBuf p).1.buf.take (w.fillBuf p).1.n]) := by
            rw [hw2]
            refine ⟨rfl, ?_, hfh.size, Nat.zero_le _, ?_⟩
            · simp only [List.map_append, List.map_cons, List.map_nil]
              rw [← hfh.boxes]
            · intro c hc
              rcases List.mem_append.mp hc with hc | hc
              · exact hfh.full c hc
              · rw [List.mem_singleton.mp hc]
                exact hchunk
          have hs2h : s2 = applyPuts B
              (chunkPuts 0 (stored ++ [(w.fillBuf p).1.buf.take (w.fillBuf p).1.n])) s0 := by
            rw [hs2, chunkPuts_append, applyPuts_append, ← hs, hfh.boxes, List.length_map,
              Nat.zero_add]
            rfl
          have hplen : (p.drop (w.fillBuf p).2) ≠ [] := by
            intro hnil
            have := congrArg List.length hnil
            rw [List.length_drop, hfs] at this
            simp only [List.length_nil] at this
            omega
          obtain ⟨stored1, h1, h2, h3, h4, h5, h6⟩ :=
            ih { w2 with err := none } s2 (p.drop (w.fillBuf p).2) (n + (w.fillBuf p).2)
              _ n1 w1 s1 hw2h hs2h (fun _ => Or.inr hplen) h
          refine ⟨stored1, h1, h2, ?_, h4, ?_, ?_⟩
          · rw [h3, hw2]
            simp only [List.take_zero, List.append_nil, List.flatten_append,
              List.flatten_cons, List.flatten_nil]
            rw [hft, hfs]
            simp only [List.append_assoc, List.take_append_drop]
          · rw [h5, hfs, List.length_drop]
            omega
          · rw [h6, hw2]
            rfl
    · rename_i hgt
      have hc : min (w.buf.length - w.n) p.length = p.length := by omega
      simp only [Option.some.injEq, Prod.mk.injEq, true_and] at h
      obtain ⟨hn1, hw1, hs1⟩ := h
      have hfh := Writer.fillBuf_holds L boxSize w stored p hw
      have hft := Writer.fillBuf_take w p hle
      have hfn := Writer.fillBuf_n w p
      have hfs := Writer.fillBuf_snd w p
      rw [hc] at hft hfn hfs
      subst hw1
      refine ⟨stored, hfh, by rw [← hs1]; exact hs, ?_, ?_, ?_, rfl⟩
      · rw [hft, List.take_length, List.append_assoc]
      · intro h0
        rw [hfn] at h0
        rcases hne (by omega) with h | h
        · exact h
        · exfalso
          apply h
          exact List.length_eq_zero.mp (by omega)
      · rw [← hn1, hfs]

theorem Writer.flush_buf {σ : Type} (B : Bucket σ) (L : Lib) (w : Writer) (s : σ) :
    (Writer.flush B L w s).2.1.buf = w.buf := by
  unfold Writer.flush
  split
  · rfl
  · split <;> rfl

theorem Writer.flush_n {σ : Type} (B : Bucket σ) (L : Lib) (w : Writer) (s : σ)
    (h : (Writer.flush B L w s).1 = none) : (Writer.flush B L w s).2.1.n = 0 := by
  unfold Writer.flush at h ⊢
  by_cases h0 : w.n = 0
  · rw [if_pos h0]
    exact h0
  · rw [if_neg h0] at h ⊢
    revert h
    rcases B.Put (Sprintf05d w.boxes.length) (w.buf.take w.n) s with ⟨e, s1⟩
    cases e with
    | none => intro _; rfl
    | some err => intro h; simp at h

/-- With a buffer of at least one byte the loop of `Write` ends: `len(p) + 2`
units of fuel are enough, on every store. -/
theorem Writer.writeLoop_terminates {σ : Type} (B : Bucket σ) (L : Lib) (fuel : Nat) :
    ∀ (w : Writer) (s : σ) (p : List Byte) (n : Nat),
      1 ≤ w.buf.length → w.n ≤ w.buf.length →
      p.length + 1 + (if w.n = w.buf.length then 1 else 0) ≤ fuel →
      ∃ r, Writer.writeLoop B L fuel w s p n = some r := by
  induction fuel with
  | zero => intro w s p n _ _ h; omega
  | succ fuel ih =>
    intro w s p n hpos hle hfuel
    unfold Writer.writeLoop
    split
    · rename_i hgt
      have hfs := Writer.fillBuf_snd w p
      have hc : min (w.buf.length - w.n) p.length = w.buf.length - w.n := by omega
      rw [hc] at hfs
      have hlen := Writer.fillBuf_length w p hle
      rcases hfl : Writer.flush B L (w.fillBuf p).1 s with ⟨e, w2, s2⟩
      cases e with
      | some err => exact ⟨_, rfl⟩
      | none =>
        have hbuf : w2.buf = (w.fillBuf p).1.buf := by
          have := Writer.flush_buf B L (w.fillBuf p).1 s
          rw [hfl] at this
          exact this
        have hn0 : w2.n = 0 := by
          have := Writer.flush_n B L (w.fillBuf p).1 s (by rw [hfl])
          rw [hfl] at this
          exact this
        simp only
        apply ih
        · show 1 ≤ w2.buf.length
          rw [hbuf, hlen]
          exact hpos
        · show w2.n ≤ w2.buf.length
          omega
        · show (p.drop (w.fillBuf p).2).length + 1 + (if w2.n = w2.buf.length then 1 else 0) ≤ fuel
          rw [hn0, hbuf, hlen, if_neg (by omega), List.length_drop, hfs]
          by_cases hfull : w.n = w.buf.length
          · rw [if_pos hfull] at hfuel
            omega
          · rw [if_neg hfull] at hfuel
            omega
    · exact ⟨_, rfl⟩

theorem Writer.flush_never_fails {σ : Type} (B : Bucket σ) (L : Lib)
    (hok : ∀ k v s, (B.Put k v s).1 = none) (w : Writer) (s : σ) :
    (Writer.flush B L w s).1 = none := by
  unfold Writer.flush
  split
  · rfl
  · split
    · rename_i hp
      have := hok (Sprintf05d w.boxes.length) (w.buf.take w.n) s
      rw [hp] at this
      simp at this
    · rfl

theorem Writer.writeLoop_never_fails {σ : Type} (B : Bucket σ) (L : Lib)
    (hok : ∀ k v s, (B.Put k v s).1 = none) (fuel : Nat) :
    ∀ (w : Writer) (s : σ) (p : List Byte) (n n1 : Nat) (e : Option GoError) (w1 : Writer)
      (s1 : σ), Writer.writeLoop B L fuel w s p n = some (n1, e, w1, s1) → e = none := by
  induction fuel with
  | zero => intro w s p n n1 e w1 s1 h; simp [Writer.writeLoop] at h
  | succ fuel ih =>
    intro w s p n n1 e w1 s1 h
    unfold Writer.writeLoop at h
    split at h
    · split at h
      · rename_i hfl
        have := Writer.flush_never_fails B L hok (w.fillBuf p).1 s
        rw [hfl] at this
        simp at this
      · exact ih _ _ _ _ _ _ _ _ h
    · simp only [Option.some.injEq, Prod.mk.injEq] at h
      exact h.2.1.symm

theorem Writer.Write_spec {σ : Type} (B : Bucket σ) (L : Lib) (boxSize : Nat) (s0 : σ)
    (fuel : Nat) (w : Writer) (s : σ) (p : List Byte) (stored : List (List Byte))
    (n1 : Nat) (w1 : Writer) (s1 : σ)
    (hw : Writer.Holds L boxSize w stored)
    (hs : s = applyPuts B (chunkPuts 0 stored) s0)
    (hne : w.n = 0 → stored = [])
    (h : Writer.Write B L fuel w s p = some (n1, none, w1, s1)) :
    ∃ stored1, Writer.Holds L boxSize w1 stored1 ∧
      s1 = applyPuts B (chunkPuts 0 stored1) s0 ∧
      stored1.flatten ++ w1.buf.take w1.n = stored.flatten ++ w.buf.take w.n ++ p ∧
      (w1.n = 0 → stored1 = []) ∧ n1 = p.length ∧ w1.total = w.total.add p.length := by
  unfold Writer.Write at h
  rw [hw.err] at h
  simp only at h
  split at h
  · simp at h
  · rename_i n2 e2 w2 s2 hl
    simp only [Option.some.injEq, Prod.mk.injEq] at h
    obtain ⟨rfl, rfl, rfl, rfl⟩ := h
    obtain ⟨stored1, h1, h2, h3, h4, h5, h6⟩ :=
      Writer.writeLoop_spec B L boxSize s0 fuel w s p 0 stored n2 w2 s2 hw hs
        (fun h0 => Or.inl (hne h0)) hl
    refine ⟨stored1, ⟨h1.err, h1.boxes, h1.size, h1.n_le, h1.full⟩, h2, h3, h4, ?_, ?_⟩
    · omega
    · show w2.total.add n2 = w.total.add p.length
      rw [h6, h5, Nat.zero_add]

theorem Writer.writeAll_sticky {σ : Type} (B : Bucket σ) (L : Lib) (fuel : Nat)
    (ps : List (List Byte)) (w : Writer) (s : σ) (e : GoError) (he : w.err = some e) :
    Writer.writeAll B L fuel w s ps = some (ps.map (fun _ => (0, some e)), w, s) := by
  induction ps with
  | nil => rfl
  | cons p ps ih =>
    have hW : Writer.Write B L fuel w s p = some (0, some e, w, s) := by
      simp [Writer.Write, he]
    simp only [Writer.writeAll, hW, ih, List.map_cons]

theorem Writer.writeAll_spec {σ : Type} (B : Bucket σ) (L : Lib) (boxSize : Nat) (s0 : σ)
    (fuel : Nat) (ps : List (List Byte)) :
    ∀ (w : Writer) (s : σ) (stored : List (List Byte))
      (rs : List (Nat × Option GoError)) (w1 : Writer) (s1 : σ),
      Writer.Holds L boxSize w stored →
      s = applyPuts B (chunkPuts 0 stored) s0 →
      (w.n = 0 → stored = []) →
      Writer.writeAll B L fuel w s ps = some (rs, w1, s1) →
      w1.err = none →
      ∃ stored1, Writer.Holds L boxSize w1 stored1 ∧
        s1 = applyPuts B (chunkPuts 0 stored1) s0 ∧
        stored1.flatten ++ w1.buf.take w1.n = stored.flatten ++ w.buf.take w.n ++ ps.flatten ∧
        (w1.n = 0 → stored1 = []) ∧ rs = ps.map (fun p => (p.length, none)) := by
  induction ps with
  | nil =>
    intro w s stored rs w1 s1 hw hs hne h he
    simp only [Writer.writeAll, Option.some.injEq, Prod.mk.injEq] at h
    obtain ⟨rfl, rfl, rfl⟩ := h
    exact ⟨stored, hw, hs, by simp, hne, rfl⟩
  | cons p ps ih =>
    intro w s stored rs w1 s1 hw hs hne h he
    unfold Writer.writeAll at h
    split at h
    · simp at h
    · rename_i n2 e2 w2 s2 hW
      split at h
      · simp at h
      · rename_i rs3 w3 s3 hA
        simp only [Option.some.injEq, Prod.mk.injEq] at h
        obtain ⟨rfl, rfl, rfl⟩ := h
        cases e2 with
        | some e =>
          exfalso
          have he2 := Writer.Write_err B L fuel w s p n2 e w2 s2 hW
          rw [Writer.writeAll_sticky B L fuel ps w2 s2 e he2] at hA
          simp only [Option.some.injEq, Prod.mk.injEq] at hA
          rw [← hA.2.1, he2] at he
          simp at he
        | none =>
          obtain ⟨stored1, h1, h2, h3, h4, h5, _⟩ :=
            Writer.Write_spec B L boxSize s0 fuel w s p stored n2 w2 s2 hw hs hne hW
          obtain ⟨stored2, g1, g2, g3, g4, g5⟩ := ih w2 s2 stored1 rs3 w3 s3 h1 h2 h4 hA he
          refine ⟨stored2, g1, g2, ?_, g4, ?_⟩
          · rw [g3, h3]
            simp only [List.flatten_cons, List.append_assoc]
          · rw [g5, h5]
            rfl

theorem Writer.Write_total {σ : Type} (B : Bucket σ) (L : Lib)
    (hok : ∀ k v s, (B.Put k v s).1 = none) (fuel : Nat) (w : Writer) (s : σ) (p : List Byte)
    (he : w.err = none) (hpos : 1 ≤ w.buf.length) (hle : w.n ≤ w.buf.length)
    (hfuel : p.length + 2 ≤ fuel) :
    ∃ n1 w1 s1, Writer.Write B L fuel w s p = some (n1, none, w1, s1) := by
  obtain ⟨⟨n2, e2, w2, s2⟩, hr⟩ := Writer.writeLoop_terminates B L fuel w s p 0 hpos hle
    (by split <;> omega)
  have hnone := Writer.writeLoop_never_fails B L hok fuel w s p 0 n2 e2 w2 s2 hr
  subst hnone
  refine ⟨n2, { w2 with total := w2.total.add n2 }, s2, ?_⟩
  unfold Writer.Write
  rw [he]
  simp only [hr]

theorem Writer.writeAll_total {σ : Type} (B : Bucket σ) (L : Lib) (boxSize : Nat) (s0 : σ)
    (hok : ∀ k v s, (B.Put k v s).1 = none) (hbs : 1 ≤ boxSize) (fuel : Nat)
    (ps : List (List Byte)) :
    ∀ (w : Writer) (s : σ) (stored : List (List Byte)),
      Writer.Holds L boxSize w stored →
      s = applyPuts B (chunkPuts 0 stored) s0 →
      (w.n = 0 → stored = []) →
      (∀ p ∈ ps, p.length + 2 ≤ fuel) →
      ∃ rs w1 s1, Writer.writeAll B L fuel w s ps = some (rs, w1, s1) ∧ w1.err = none := by
  induction ps with
  | nil =>
    intro w s stored hw _ _ _
    exact ⟨[], w, s, rfl, hw.err⟩
  | cons p ps ih =>
    intro w s stored hw hs hne hfuel
    obtain ⟨n1, w1, s1, hW⟩ := Writer.Write_total B L hok fuel w s p hw.err
      (by rw [hw.size]; exact hbs) (by rw [hw.size]; exact hw.n_le)
      (hfuel p (List.mem_cons_self _ _))
    obtain ⟨stored1, h1, h2, _, h4, _, _⟩ :=
      Writer.Write_spec B L boxSize s0 fuel w s p stored n1 w1 s1 hw hs hne hW
    obtain ⟨rs, w2, s2, hA, he⟩ := ih w1 s1 stored1 h1 h2 h4
      (fun q hq => hfuel q (List.mem_cons_of_mem _ hq))
    refine ⟨(n1, none) :: rs, w2, s2, ?_, he⟩
    simp only [Writer.writeAll, hW, hA]

/-- The chunks of a closed writer: the chunks put by `Write`, followed by the
bytes of the buffer when there are any. -/
theorem Writer.Close_spec {σ : Type} (B : Bucket σ) (L : Lib) (boxSize : Nat) (s0 : σ)
    (w : Writer) (s : σ) (stored : List (List Byte)) (w1 : Writer) (s1 : σ)
    (hw : Writer.Holds L boxSize w stored)
    (hs : s = applyPuts B (chunkPuts 0 stored) s0)
    (h : Writer.Close B L w s = (none, w1, s1)) :
    s1 = applyPuts B
      (chunkPuts 0 (stored ++ (if w.n = 0 then [] else [w.buf.take w.n])) ++
        [("meta", L.Marshal
          { Version := 0,
            Boxes := (stored ++ (if w.n = 0 then [] else [w.buf.take w.n])).map L.Sum256 })])
      s0 := by
  unfold Writer.Close at h
  rw [hw.err] at h
  simp only at h
  split at h
  · simp at h
  · rename_i w2 s2 hfl
    split at h
    · simp at h
    · rename_i s3 hput
      simp only [Prod.mk.injEq, true_and] at h
      obtain ⟨_, rfl⟩ := h
      rw [applyPuts_append]
      rcases Writer.flush_ok B L _ _ _ _ hfl with ⟨h0, hw2, hs2⟩ | ⟨h0, hw2, hs2⟩
      · rw [if_pos h0, List.append_nil, ← hs]
        subst hw2 hs2
        rw [hw.boxes] at hput
        simp only [applyPuts]
        rw [show Version = 0 from rfl] at hput
        rw [hput]
      · rw [if_neg h0, chunkPuts_append, applyPuts_append, ← hs]
        simp only [applyPuts, Nat.zero_add]
        rw [hw.boxes, List.length_map] at hs2
        rw [← hs2]
        subst hw2
        simp only at hput
        rw [hw.boxes, show Version = 0 from rfl] at hput
        simp only [List.map_append, List.map_cons, List.map_nil]
        rw [hput]

theorem Writer.Close_never_fails {σ : Type} (B : Bucket σ) (L : Lib)
    (hok : ∀ k v s, (B.Put k v s).1 = none) (w : Writer) (s : σ) (he : w.err = none) :
    (Writer.Close B L w s).1 = none := by
  unfold Writer.Close
  rw [he]
  simp only
  split
  · rename_i hfl
    have := Writer.flush_never_fails B L hok w s
    rw [hfl] at this
    simp at this
  · split
    · rename_i w2 s2 _ _ e3 s3 hput
      have := hok "meta" (L.Marshal { Version := Version, Boxes := w2.boxes }) s2
      rw [hput] at this
      simp at this
    · rfl

theorem NewWriter_holds (L : Lib) (boxSize : Nat) : Writer.Holds L boxSize (NewWriter boxSize) [] :=
  ⟨rfl, rfl, by simp [NewWriter], Nat.zero_le _, by simp⟩

theorem length_flatten_of_full (boxSize : Nat) (stored : List (List Byte))
    (h : ∀ c ∈ stored, c.length = boxSize) : stored.flatten.length = stored.length * boxSize := by
  induction stored with
  | nil => simp
  | cons a cs ih =>
    rw [List.flatten_cons, List.length_append, h a (List.mem_cons_self _ _),
      ih (fun c hc => h c (List.mem_cons_of_mem _ hc)), List.length_cons, Nat.succ_mul]
    omega

theorem chunkPuts_eq_zip (i : Nat) (cs : List (List Byte)) :
    chunkPuts i cs = List.zip ((List.range' i cs.length).map Sprintf05d) cs := by
  induction cs generalizing i with
  | nil => rfl
  | cons c cs ih =>
    rw [chunkPuts, ih, List.length_cons, List.range'_succ, List.map_cons, List.zip_cons_cons]

/-- The chunks of a writer about to be closed, in terms of the bytes written. -/
theorem Writer.chunks_shape (L : Lib) (boxSize : Nat) (w : Writer) (stored : List (List Byte))
    (hw : Writer.Holds L boxSize w stored) (hne : w.n = 0 → stored = []) :
    (stored ++ (if w.n = 0 then [] else [w.buf.take w.n])).flatten =
      stored.flatten ++ w.buf.take w.n ∧
    (1 ≤ boxSize →
      (stored ++ (if w.n = 0 then [] else [w.buf.take w.n])).length =
        ((stored.flatten ++ w.buf.take w.n).length + boxSize - 1) / boxSize ∧
      (∀ c ∈ (stored ++ (if w.n = 0 then [] else [w.buf.take w.n])).dropLast,
        c.length = boxSize) ∧
      (∀ c ∈ stored ++ (if w.n = 0 then [] else [w.buf.take w.n]),
        1 ≤ c.length ∧ c.length ≤ boxSize)) := by
  have hsz := hw.size
  have hnle := hw.n_le
  by_cases h0 : w.n = 0
  · have hst := hne h0
    subst hst
    rw [if_pos h0, h0]
    refine ⟨by simp, fun hbs => ⟨?_, by simp, by simp⟩⟩
    simp only [List.append_nil, List.length_nil, List.flatten_nil, List.take_zero, Nat.zero_add]
    exact (Nat.div_eq_of_lt (by omega)).symm
  · rw [if_neg h0]
    have hpl : (w.buf.take w.n).length = w.n := by
      rw [List.length_take]
      omega
    refine ⟨by simp, fun hbs => ⟨?_, ?_, ?_⟩⟩
    · rw [List.length_append, List.length_append, length_flatten_of_full boxSize stored hw.full,
        hpl, List.length_singleton]
      have h1 : stored.length * boxSize + w.n + boxSize - 1
          = (w.n - 1) + (stored.length + 1) * boxSize := by
        rw [Nat.succ_mul]
        omega
      rw [h1, Nat.add_mul_div_right _ _ (by omega), Nat.div_eq_of_lt (by omega)]
      omega
    · rw [List.dropLast_concat]
      exact hw.full
    · intro c hc
      rcases List.mem_append.mp hc with hc | hc
      · rw [hw.full c hc]
        exact ⟨hbs, Nat.le_refl _⟩
      · rw [List.mem_singleton.mp hc, hpl]
        omega

/-- C9. After any sequence of `Write` calls on a new writer, let `Close` return
`nil`. Then the store is the result of these `Put` calls on the initial store,
in this order: the chunks, under the sequence keys of the indices `0, 1, ...`,
and last, under the key `"meta"`, the encoding of the manifest with
`Version = 0` and with `Boxes` the SHA-256 of each chunk, in the order of the
chunks (so `Boxes` has as many entries as there are chunks). The chunks add up
to the bytes written. -/
theorem Writer_Close_manifest {σ : Type} (B : Bucket σ) (L : Lib) (fuel boxSize : Nat)
    (s0 : σ) (ps : List (List Byte)) (w : Writer) (s1 : σ)
    (h : writeStream B L fuel boxSize s0 ps = some (none, w, s1)) :
    ∃ chunks : List (List Byte),
      chunks.flatten = ps.flatten ∧
      s1 = applyPuts B
        (chunkPuts 0 chunks ++
          [("meta", L.Marshal { Version := 0, Boxes := chunks.map L.Sum256 })]) s0 ∧
      chunkPuts 0 chunks = List.zip ((List.range chunks.length).map Sprintf05d) chunks ∧
      (chunks.map L.Sum256).length = chunks.length := by
  unfold writeStream at h
  split at h
  · simp at h
  · rename_i rs w2 s2 hA
    simp only [Option.some.injEq] at h
    have he : w2.err = none := by
      cases hw2 : w2.err with
      | none => rfl
      | some e =>
        rw [Writer.Close, hw2] at h
        simp at h
    obtain ⟨stored, h1, h2, h3, h4, _⟩ :=
      Writer.writeAll_spec B L boxSize s0 fuel ps (NewWriter boxSize) s0 [] rs w2 s2
        (NewWriter_holds L boxSize) rfl (fun _ => rfl) hA he
    have hshape := (Writer.chunks_shape L boxSize w2 stored h1 h4).1
    refine ⟨stored ++ (if w2.n = 0 then [] else [w2.buf.take w2.n]), ?_, ?_, ?_, ?_⟩
    · rw [hshape, h3]
      simp [NewWriter]
    · exact Writer.Close_spec B L boxSize s0 w2 s2 stored w s1 h1 h2 h
    · rw [chunkPuts_eq_zip, List.range_eq_range']
    · simp

/-- C8. On a store whose `Put` never fails, with `boxSize ≥ 1`, writing any
slices to a new writer and closing it returns no error, and the store is then
the result of these `Put` calls on the initial store, in this order: the chunks
under the sequence keys of the indices `0, 1, 2, ...`, then the manifest. The
chunks add up to the `N` bytes written; there are `ceil(N / boxSize)` of them
(none for `N = 0`); every chunk but the last has exactly `boxSize` bytes and
every chunk has between 1 and `boxSize` bytes. -/
theorem Writer_chunks {σ : Type} (B : Bucket σ) (L : Lib)
    (hok : ∀ k v s, (B.Put k v s).1 = none) (fuel boxSize : Nat) (hbs : 1 ≤ boxSize)
    (s0 : σ) (ps : List (List Byte)) (hfuel : ∀ p ∈ ps, p.length + 2 ≤ fuel) :
    ∃ (w : Writer) (s1 : σ) (chunks : List (List Byte)),
      writeStream B L fuel boxSize s0 ps = some (none, w, s1) ∧
      s1 = applyPuts B
        (chunkPuts 0 chunks ++
          [("meta", L.Marshal { Version := 0, Boxes := chunks.map L.Sum256 })]) s0 ∧
      chunkPuts 0 chunks = List.zip ((List.range chunks.length).map Sprintf05d) chunks ∧
      chunks.flatten = ps.flatten ∧
      chunks.length = (ps.flatten.length + boxSize - 1) / boxSize ∧
      (∀ c ∈ chunks.dropLast, c.length = boxSize) ∧
      (∀ c ∈ chunks, 1 ≤ c.length ∧ c.length ≤ boxSize) := by
  obtain ⟨rs, w2, s2, hA, he⟩ :=
    Writer.writeAll_total B L boxSize s0 hok hbs fuel ps (NewWriter boxSize) s0 []
      (NewWriter_holds L boxSize) rfl (fun _ => rfl) hfuel
  obtain ⟨stored, h1, h2, h3, h4, _⟩ :=
    Writer.writeAll_spec B L boxSize s0 fuel ps (NewWriter boxSize) s0 [] rs w2 s2
      (NewWriter_holds L boxSize) rfl (fun _ => rfl) hA he
  have hclose : Writer.Close B L w2 s2
      = (none, (Writer.Close B L w2 s2).2.1, (Writer.Close B L w2 s2).2.2) := by
    have := Writer.Close_never_fails B L hok w2 s2 he
    rw [← this]
  obtain ⟨hflat, hrest⟩ := Writer.chunks_shape L boxSize w2 stored h1 h4
  obtain ⟨hlen, hfull, hall⟩ := hrest hbs
  have hdata : stored.flatten ++ w2.buf.take w2.n = ps.flatten := by
    rw [h3]
    simp [NewWriter]
  refine ⟨(Writer.Close B L w2 s2).2.1, (Writer.Close B L w2 s2).2.2,
    stored ++ (if w2.n = 0 then [] else [w2.buf.take w2.n]), ?_, ?_, ?_, ?_, ?_, hfull, hall⟩
  · unfold writeStream
    rw [hA]
    simp only
    rw [← hclose]
  · exact Writer.Close_spec B L boxSize s0 w2 s2 stored _ _ h1 h2 hclose
  · rw [chunkPuts_eq_zip, List.range_eq_range']
  · rw [hflat, hdata]
  · rw [hlen, hdata]

theorem logBucket_never_fails (k : String) (v : List Byte) (s : List (String × List Byte)) :
    (logBucket.Put k v s).1 = none := rfl

theorem Writer_chunks_witness :
    ∃ (w : Writer) (s1 : List (String × List Byte)) (chunks : List (List Byte)),
      writeStream logBucket toyLib 6 2 [] [[1, 2, 3], [], [4]] = some (none, w, s1) ∧
      s1 = applyPuts logBucket
        (chunkPuts 0 chunks ++
          [("meta", toyLib.Marshal { Version := 0, Boxes := chunks.map toyLib.Sum256 })]) [] ∧
      chunkPuts 0 chunks = List.zip ((List.range chunks.length).map Sprintf05d) chunks ∧
      chunks.flatten = [[1, 2, 3], [], [4]].flatten ∧
      chunks.length = ([[1, 2, 3], [], [4]].flatten.length + 2 - 1) / 2 ∧
      (∀ c ∈ chunks.dropLast, c.length = 2) ∧
      (∀ c ∈ chunks, 1 ≤ c.length ∧ c.length ≤ 2) :=
  Writer_chunks logBucket toyLib logBucket_never_fails 6 2 (by decide) [] [[1, 2, 3], [], [4]]
    (by decide)

theorem Writer_Close_manifest_witness :
    ∃ chunks : List (List Byte),
      chunks.flatten = [[1, 2, 3]].flatten ∧
      [("00000", [1, 2]), ("00001", [3]),
          ("meta", toyLib.Marshal { Version := 0, Boxes := [toySum [1, 2], toySum [3]] })] =
        applyPuts logBucket
          (chunkPuts 0 chunks ++
            [("meta", toyLib.Marshal { Version := 0, Boxes := chunks.map toyLib.Sum256 })]) [] ∧
      chunkPuts 0 chunks = List.zip ((List.range chunks.length).map Sprintf05d) chunks ∧
      (chunks.map toyLib.Sum256).length = chunks.length :=
  Writer_Close_manifest logBucket toyLib 5 2 [] [[1, 2, 3]]
    { err := some GoError.alreadyClosed, boxes := [toySum [1, 2], toySum [3]], buf := [3, 2],
      n := 0, total := int64.zero.add 3 }
    [("00000", [1, 2]), ("00001", [3]),
      ("meta", toyLib.Marshal { Version := 0, Boxes := [toySum [1, 2], toySum [3]] })]
    (by decide)

/-! ## Sequence keys -/

theorem digitChar_val (d : Nat) (h : d < 10) : (Nat.digitChar d).toNat - 48 = d := by
  interval_cases d <;> rfl

theorem digitsVal_toDigitsCore (fuel : Nat) :
    ∀ (n : Nat) (ds : List Char), n < fuel →
      digitsVal 0 (Nat.toDigitsCore 10 fuel n ds) = digitsVal n ds := by
  induction fuel with
  | zero => intro n ds h; omega
  | succ fuel ih =>
    intro n ds h
    unfold Nat.toDigitsCore
    simp only
    split
    · rename_i h0
      have hn : n % 10 = n := by omega
      simp only [digitsVal, List.foldl_cons, Nat.mul_zero, Nat.zero_add]
      rw [digitChar_val _ (Nat.mod_lt _ (by omega)), hn]
    · rename_i h0
      rw [ih (n / 10) _ (by omega)]
      simp only [digitsVal, List.foldl_cons]
      rw [digitChar_val _ (Nat.mod_lt _ (by omega)), Nat.div_add_mod]

theorem digitsVal_zeros (k : Nat) (cs : List Char) :
    digitsVal 0 (List.replicate k '0' ++ cs) = digitsVal 0 cs := by
  induction k with
  | zero => rfl
  | succ k ih =>
    rw [List.replicate_succ, List.cons_append]
    simp only [digitsVal, List.foldl_cons] at ih ⊢
    exact ih

theorem digitsVal_Sprintf05d (i : Nat) : digitsVal 0 (Sprintf05d i).data = i := by
  simp only [Sprintf05d]
  rw [digitsVal_zeros, Nat.toDigits, digitsVal_toDigitsCore _ _ _ (Nat.lt_succ_self i)]
  rfl

/-- Different chunk indices have different sequence keys. -/
theorem Sprintf05d_injective (i j : Nat) (h : Sprintf05d i = Sprintf05d j) : i = j := by
  rw [← digitsVal_Sprintf05d i, ← digitsVal_Sprintf05d j, h]

/-- No sequence key is the key of the manifest. -/
theorem Sprintf05d_ne_meta (i : Nat) : Sprintf05d i ≠ "meta" := by
  intro h
  have h2 : ("meta" : String).data.length = 4 := rfl
  have h1 : (Sprintf05d i).data.length = 4 := by rw [h, h2]
  simp only [Sprintf05d, List.length_append, List.length_replicate] at h1
  omega

/-! ## The contents of a store after the writer's `Put` calls -/

theorem view_applyPuts_of_not_mem {σ : Type} (B : Bucket σ)
    (view : σ → String → Option (List Byte)) (hB : LawfulStore B view)
    (calls : List (String × List Byte)) (k : String) (hk : ∀ c ∈ calls, c.1 ≠ k) (s : σ) :
    view (applyPuts B calls s) k = view s k := by
  induction calls generalizing s with
  | nil => rfl
  | cons a calls ih =>
    obtain ⟨k1, v1⟩ := a
    show view (applyPuts B calls (B.Put k1 v1 s).2) k = view s k
    rw [ih (fun c hc => hk c (List.mem_cons_of_mem _ hc)), hB.put_view]
    have hne : k ≠ k1 := fun h => hk (k1, v1) (List.mem_cons_self _ _) h.symm
    simp [Function.update, hne]

theorem chunkPuts_keys (j : Nat) (cs : List (List Byte)) (c : String × List Byte)
    (hc : c ∈ chunkPuts j cs) : ∃ m, j ≤ m ∧ c.1 = Sprintf05d m := by
  induction cs generalizing j with
  | nil => simp [chunkPuts] at hc
  | cons a cs ih =>
    rw [chunkPuts] at hc
    rcases List.mem_cons.mp hc with h | h
    · exact ⟨j, Nat.le_refl _, by rw [h]⟩
    · obtain ⟨m, hm, hk⟩ := ih (j + 1) h
      exact ⟨m, by omega, hk⟩

theorem view_chunk_from {σ : Type} (B : Bucket σ)
    (view : σ → String → Option (List Byte)) (hB : LawfulStore B view)
    (last : List (String × List Byte)) (hlast : ∀ c ∈ last, ∀ m, c.1 ≠ Sprintf05d m)
    (chunks : List (List Byte)) :
    ∀ (j : Nat) (s : σ) (i : Nat) (c : List Byte), chunks[i]? = some c →
      view (applyPuts B (chunkPuts j chunks ++ last) s) (Sprintf05d (j + i)) = some c := by
  induction chunks with
  | nil => intro j s i c h; simp at h
  | cons a cs ih =>
    intro j s i c h
    show view (applyPuts B (chunkPuts (j + 1) cs ++ last) (B.Put (Sprintf05d j) a s).2)
      (Sprintf05d (j + i)) = some c
    cases i with
    | zero =>
      simp only [List.getElem?_cons_zero, Option.some.injEq] at h
      subst h
      rw [view_applyPuts_of_not_mem B view hB _ _ _ _, hB.put_view]
      · simp
      · intro c hc
        rcases List.mem_append.mp hc with h1 | h1
        · obtain ⟨m, hm, hk⟩ := chunkPuts_keys _ _ _ h1
          rw [hk]
          intro heq
          have := Sprintf05d_injective _ _ heq
          omega
        · exact hlast c h1 _
    | succ i =>
      simp only [List.getElem?_cons_succ] at h
      have := ih (j + 1) (B.Put (Sprintf05d j) a s).2 i c h
      rw [show j + 1 + i = j + (i + 1) by omega] at this
      exact this

theorem view_after_writer {σ : Type} (B : Bucket σ)
    (view : σ → String → Option (List Byte)) (hB : LawfulStore B view)
    (chunks : List (List Byte)) (metajson : List Byte) (s0 : σ) :
    view (applyPuts B (chunkPuts 0 chunks ++ [("meta", metajson)]) s0) "meta" = some metajson ∧
    ∀ (i : Nat) (c : List Byte), chunks[i]? = some c →
      view (applyPuts B (chunkPuts 0 chunks ++ [("meta", metajson)]) s0) (Sprintf05d i)
        = some c := by
  constructor
  · rw [applyPuts_append]
    show view (B.Put "meta" metajson _).2 "meta" = some metajson
    rw [hB.put_view]
    simp
  · intro i c h
    have := view_chunk_from B view hB [("meta", metajson)]
      (by
        intro c hc m
        rw [List.mem_singleton.mp hc]
        exact fun h => Sprintf05d_ne_meta m h.symm)
      chunks 0 s0 i c h
    rw [Nat.zero_add] at this
    exact this

/-! ## Reader: reading the chunks back -/

theorem Reader.Read_buffered {σ : Type} (B : Bucket σ) (L : Lib) (r : Reader) (s : σ)
    (q : List Byte) (h : r.n < r.buf.length) :
    Reader.Read B L r s q =
      (.ret ((copy q (r.buf.drop r.n)).1, (copy q (r.buf.drop r.n)).2, none),
        { r with n := r.n + (copy q (r.buf.drop r.n)).2,
                 total := r.total.add (copy q (r.buf.drop r.n)).2 }, s) := by
  unfold Reader.Read
  rw [if_neg (Nat.ne_of_lt h)]
  simp only
  rw [if_pos (Nat.le_of_lt h)]

theorem Reader.Read_eof {σ : Type} (B : Bucket σ) (L : Lib) (r : Reader) (s : σ)
    (q : List Byte) (hn : r.n = r.buf.length) (hb : r.bn = r.boxes.length) :
    Reader.Read B L r s q =
      (.ret (q, 0, some GoError.EOF), { r with total := r.total.add 0 }, s) := by
  unfold Reader.Read Reader.fill
  rw [if_pos hn, if_pos hb]

theorem Reader.Read_next {σ : Type} (B : Bucket σ) (L : Lib) (r : Reader) (s : σ)
    (q data : List Byte) (hn : r.n = r.buf.length)
    (hbox : r.boxes[r.bn]? = some (L.Sum256 data))
    (hget : (B.Get (Sprintf05d r.bn) s).1 = (data, none)) :
    Reader.Read B L r s q =
      (.ret ((copy q data).1, (copy q data).2, none),
        { r with buf := data, n := (copy q data).2, bn := r.bn + 1,
                 total := r.total.add (copy q data).2 }, (B.Get (Sprintf05d r.bn) s).2) := by
  have hlt : r.bn < r.boxes.length := by
    rcases Nat.lt_or_ge r.bn r.boxes.length with h1 | h1
    · exact h1
    · rw [List.getElem?_eq_none h1] at hbox
      simp at hbox
  have hg := prod_eq_of_fst _ _ hget
  unfold Reader.Read Reader.fill
  rw [if_pos hn, if_neg (Nat.ne_of_lt hlt), hg]
  simp only [hbox, ne_eq, not_true_eq_false, if_false, Nat.zero_le, if_true, List.drop_zero,
    Nat.zero_add]

theorem Reader.readUntilEOF_spec {σ : Type} (B : Bucket σ)
    (view : σ → String → Option (List Byte)) (hB : LawfulStore B view) (L : Lib)
    (chunks : List (List Byte)) (hne : ∀ c ∈ chunks, c ≠ [])
    (V : String → Option (List Byte))
    (hV : ∀ (i : Nat) (c : List Byte), chunks[i]? = some c → V (Sprintf05d i) = some c)
    (qs : List (List Byte)) :
    ∀ (r : Reader) (s : σ) (acc : List Byte),
      Reader.Serves L chunks r → view s = V → (∀ q ∈ qs, q ≠ []) →
      (Reader.remaining chunks r).length < qs.length →
      Reader.readUntilEOF B L qs r s acc = some (acc ++ Reader.remaining chunks r) := by
  induction qs with
  | nil => intro r s acc _ _ _ h; simp at h
  | cons q qs ih =>
    intro r s acc hr hs hq hlen
    have hqne : q ≠ [] := hq q (List.mem_cons_self _ _)
    have hqpos : 1 ≤ q.length := List.length_pos.mpr hqne
    have hq2 : ∀ q2 ∈ qs, q2 ≠ [] := fun q2 h2 => hq q2 (List.mem_cons_of_mem _ h2)
    have hnle := hr.n_le
    have hble := hr.bn_le
    unfold Reader.readUntilEOF
    by_cases hn : r.n = r.buf.length
    · by_cases hb : r.bn = chunks.length
      · rw [Reader.Read_eof B L r s q hn (by rw [hr.boxes, List.length_map, hb])]
        simp only [Reader.remaining, hn, hb, List.drop_length, List.flatten_nil, List.append_nil]
      · have hlt : r.bn < chunks.length := by omega
        have hc : chunks[r.bn]? = some chunks[r.bn] := List.getElem?_eq_getElem hlt
        have hcne : chunks[r.bn] ≠ [] := hne _ (List.getElem_mem _)
        have hcpos : 1 ≤ (chunks[r.bn]).length := List.length_pos.mpr hcne
        have hget : (B.Get (Sprintf05d r.bn) s).1 = (chunks[r.bn], none) :=
          hB.get_ok _ _ _ (by rw [hs]; exact hV _ _ hc)
        have hbox : r.boxes[r.bn]? = some (L.Sum256 chunks[r.bn]) := by
          rw [hr.boxes, List.getElem?_map, hc]
          rfl
        rw [Reader.Read_next B L r s q _ hn hbox hget]
        simp only
        have hrem : Reader.remaining chunks r
            = chunks[r.bn] ++ (chunks.drop (r.bn + 1)).flatten := by
          simp only [Reader.remaining, hn, List.drop_length, List.nil_append]
          rw [List.drop_eq_getElem_cons hlt, List.flatten_cons]
        have hserves : Reader.Serves L chunks
            { r with buf := chunks[r.bn], n := (copy q chunks[r.bn]).2, bn := r.bn + 1,
                     total := r.total.add (copy q chunks[r.bn]).2 } :=
          ⟨hr.boxes, by show r.bn + 1 ≤ chunks.length; omega,
            by show (copy q chunks[r.bn]).2 ≤ (chunks[r.bn]).length; rw [copy_snd]; omega⟩
        have hrem2 : Reader.remaining chunks
            { r with buf := chunks[r.bn], n := (copy q chunks[r.bn]).2, bn := r.bn + 1,
                     total := r.total.add (copy q chunks[r.bn]).2 }
            = (chunks[r.bn]).drop (min q.length (chunks[r.bn]).length)
                ++ (chunks.drop (r.bn + 1)).flatten := rfl
        rw [ih _ (B.Get (Sprintf05d r.bn) s).2 _ hserves (by rw [hB.get_view]; exact hs) hq2
          (by
            rw [hrem2]
            rw [hrem] at hlen
            simp only [List.length_append, List.length_drop, List.length_cons] at hlen ⊢
            omega)]
        rw [hrem2, hrem, copy_fst_take, List.append_assoc,
          ← List.append_assoc (List.take _ _), List.take_append_drop]
    · have hlt : r.n < r.buf.length := by omega
      rw [Reader.Read_buffered B L r s q hlt]
      simp only
      have hdl : (r.buf.drop r.n).length = r.buf.length - r.n := List.length_drop _ _
      have hserves : Reader.Serves L chunks
          { r with n := r.n + (copy q (r.buf.drop r.n)).2,
                   total := r.total.add (copy q (r.buf.drop r.n)).2 } :=
        ⟨hr.boxes, hr.bn_le,
          by show r.n + (copy q (r.buf.drop r.n)).2 ≤ r.buf.length; rw [copy_snd, hdl]; omega⟩
      have hrem2 : Reader.remaining chunks
          { r with n := r.n + (copy q (r.buf.drop r.n)).2,
                   total := r.total.add (copy q (r.buf.drop r.n)).2 }
          = r.buf.drop (r.n + min q.length (r.buf.drop r.n).length)
              ++ (chunks.drop r.bn).flatten := rfl
      have hrem : Reader.remaining chunks r = r.buf.drop r.n ++ (chunks.drop r.bn).flatten := rfl
      rw [ih _ s _ hserves hs hq2
        (by
          rw [hrem2]
          rw [hrem] at hlen
          simp only [List.length_append, List.length_drop, List.length_cons] at hlen ⊢
          omega)]
      rw [hrem2, hrem, copy_fst_take, List.append_assoc,
        ← List.append_assoc (List.take _ _), ← List.drop_drop, List.take_append_drop]

theorem NewReader_ok {σ : Type} (B : Bucket σ) (L : Lib) (s : σ) (metajson : List Byte)
    (m : Metadata) (hget : (B.Get "meta" s).1 = (metajson, none))
    (hjson : L.Unmarshal metajson = .ok m) :
    NewReader B L s =
      (.ok { buf := [], n := 0, boxes := m.Boxes, bn := 0, total := int64.zero },
        (B.Get "meta" s).2) := by
  have hg := prod_eq_of_fst _ _ hget
  unfold NewReader
  rw [hg]
  simp only [hjson]

/-- C1. Round trip. Over a store whose `Get` returns the last value `Put` under
a key, with `boxSize ≥ 1`: writing any slices `ps` (none, empty ones, totals
that are multiples of `boxSize` included) to a new writer and closing it
returns no error, and `NewReader` on the store left behind, followed by `Read`
calls until `io.EOF` with any non-empty caller buffers `qs` (more of them than
there are bytes), delivers exactly the concatenation of `ps`. The library is a
parameter: `json.Unmarshal` reads back a manifest of version 0 that
`json.Marshal` has written. -/
theorem Writer_Reader_roundtrip {σ : Type} (B : Bucket σ)
    (view : σ → String → Option (List Byte)) (hB : LawfulStore B view) (L : Lib)
    (hjson : ∀ boxes, L.Unmarshal (L.Marshal { Version := 0, Boxes := boxes })
      = .ok { Version := 0, Boxes := boxes })
    (fuel boxSize : Nat) (hbs : 1 ≤ boxSize) (s0 : σ) (ps : List (List Byte))
    (hfuel : ∀ p ∈ ps, p.length + 2 ≤ fuel)
    (qs : List (List Byte)) (hq : ∀ q ∈ qs, q ≠ []) (hqs : ps.flatten.length < qs.length) :
    ∃ (w : Writer) (s1 : σ),
      writeStream B L fuel boxSize s0 ps = some (none, w, s1) ∧
      readStream B L qs s1 = some ps.flatten := by
  obtain ⟨rs, w2, s2, hA, he⟩ :=
    Writer.writeAll_total B L boxSize s0 hB.put_ok hbs fuel ps (NewWriter boxSize) s0 []
      (NewWriter_holds L boxSize) rfl (fun _ => rfl) hfuel
  obtain ⟨stored, h1, h2, h3, h4, _⟩ :=
    Writer.writeAll_spec B L boxSize s0 fuel ps (NewWriter boxSize) s0 [] rs w2 s2
      (NewWriter_holds L boxSize) rfl (fun _ => rfl) hA he
  have hclose : Writer.Close B L w2 s2
      = (none, (Writer.Close B L w2 s2).2.1, (Writer.Close B L w2 s2).2.2) := by
    have := Writer.Close_never_fails B L hB.put_ok w2 s2 he
    rw [← this]
  obtain ⟨hflat, hrest⟩ := Writer.chunks_shape L boxSize w2 stored h1 h4
  obtain ⟨_, _, hall⟩ := hrest hbs
  have hdata : stored.flatten ++ w2.buf.take w2.n = ps.flatten := by
    rw [h3]
    simp [NewWriter]
  have hs1 := Writer.Close_spec B L boxSize s0 w2 s2 stored _ _ h1 h2 hclose
  generalize hchunks : stored ++ (if w2.n = 0 then [] else [w2.buf.take w2.n]) = chunks
    at hflat hall hs1
  generalize (Writer.Close B L w2 s2).2.2 = s1 at hclose hs1
  refine ⟨(Writer.Close B L w2 s2).2.1, s1, ?_, ?_⟩
  · unfold writeStream
    rw [hA]
    simp only
    rw [← hclose]
  · obtain ⟨hmeta, hchunk⟩ := view_after_writer B view hB chunks
      (L.Marshal { Version := 0, Boxes := chunks.map L.Sum256 }) s0
    rw [← hs1] at hmeta hchunk
    unfold readStream
    rw [NewReader_ok B L s1 _ _ (hB.get_ok _ _ _ hmeta) (hjson _)]
    simp only
    have hserves : Reader.Serves L chunks
        { buf := [], n := 0, boxes := chunks.map L.Sum256, bn := 0, total := int64.zero } :=
      ⟨rfl, Nat.zero_le _, Nat.le_refl _⟩
    have hrem : Reader.remaining chunks
        { buf := [], n := 0, boxes := chunks.map L.Sum256, bn := 0, total := int64.zero }
        = ps.flatten := by
      simp only [Reader.remaining, List.drop_zero, List.nil_append]
      rw [hflat, hdata]
    rw [Reader.readUntilEOF_spec B view hB L chunks
      (fun c hc hnil => by
        have := (hall c hc).1
        rw [hnil] at this
        simp at this)
      (view s1) hchunk qs _ _ [] hserves (hB.get_view _ _) hq (by rw [hrem]; exact hqs)]
    rw [hrem, List.nil_append]

theorem toyUnflat_flatten (boxes : List boxhash) :
    ∀ k, boxes.length ≤ k → toyUnflat k (boxes.map Subtype.val).flatten = boxes := by
  induction boxes with
  | nil =>
    intro k _
    cases k with
    | zero => rfl
    | succ k => simp [toyUnflat]
  | cons b bs ih =>
    intro k hk
    cases k with
    | zero => simp at hk
    | succ k =>
      have hb := b.property
      simp only [List.map_cons, List.flatten_cons, toyUnflat]
      have ht : List.take 32 (b.val ++ (bs.map Subtype.val).flatten) = b.val :=
        List.take_left' hb
      have hd : List.drop 32 (b.val ++ (bs.map Subtype.val).flatten)
          = (bs.map Subtype.val).flatten := List.drop_left' hb
      rw [dif_pos (by rw [ht]; exact hb), hd, ih k (by simpa using hk)]
      congr 1
      exact Subtype.ext ht

theorem toyLib_json (boxes : List boxhash) :
    toyLib.Unmarshal (toyLib.Marshal { Version := 0, Boxes := boxes })
      = .ok { Version := 0, Boxes := boxes } := by
  simp only [toyLib]
  rw [toyUnflat_flatten boxes _ ?_]
  have : ∀ bs : List boxhash, bs.length ≤ (bs.map Subtype.val).flatten.length := by
    intro bs
    induction bs with
    | nil => simp
    | cons b bs ih =>
      have hb := b.property
      simp only [List.map_cons, List.flatten_cons, List.length_append, List.length_cons, hb]
      omega
  exact this boxes

theorem Writer_Reader_roundtrip_witness :
    ∃ (w : Writer) (s1 : List (String × List Byte)),
      writeStream memBucket toyLib 6 2 [] [[1, 2, 3], [], [4]] = some (none, w, s1) ∧
      readStream memBucket toyLib [[0], [0, 0, 0], [0], [0, 0], [0]] s1
        = some [[1, 2, 3], [], [4]].flatten :=
  Writer_Reader_roundtrip memBucket (fun s k => s.lookup k) memBucket_lawful toyLib
    toyLib_json 6 2 (by decide) [] [[1, 2, 3], [], [4]] (by decide)
    [[0], [0, 0, 0], [0], [0, 0], [0]] (by decide) (by decide)

/-! ## Recovery decorator: one pass of the loop -/

theorem recoverableBucket.putLoop_first {σ : Type} (quote : String → String)
    (bucket : Bucket σ) (key : String) (data : List Byte)
    (stdin : List (String × Option GoError)) (s : σ) (out : List Event)
    (h1 : (bucket.Put key data s).1 = none) :
    recoverableBucket.putLoop quote bucket key data stdin s out =
      (none, putTimes bucket key data 1 s, { out := out, stdin := stdin }) := by
  have e1 := prod_eq_of_fst _ _ h1
  unfold recoverableBucket.putLoop
  rw [e1]
  rfl

theorem recoverableBucket.putLoop_second {σ : Type} (quote : String → String)
    (bucket : Bucket σ) (key : String) (data : List Byte)
    (stdin : List (String × Option GoError)) (s : σ) (out : List Event) (err : GoError)
    (h1 : (bucket.Put key data s).1 = some err)
    (h2 : (bucket.Put key data (putTimes bucket key data 1 s)).1 = none) :
    recoverableBucket.putLoop quote bucket key data stdin s out =
      (none, putTimes bucket key data 2 s,
        { out := out ++ recoverableBucket.retrying quote "Put" key err, stdin := stdin }) := by
  have e1 := prod_eq_of_fst _ _ h1
  have e2 := prod_eq_of_fst _ _ h2
  unfold recoverableBucket.putLoop
  rw [e1]
  simp only
  rw [show (bucket.Put key data s).2 = putTimes bucket key data 1 s from rfl, e2]
  rfl

theorem recoverableBucket.putLoop_eof {σ : Type} (quote : String → String)
    (bucket : Bucket σ) (key : String) (data : List Byte)
    (s : σ) (out : List Event) (err err2 : GoError)
    (h1 : (bucket.Put key data s).1 = some err)
    (h2 : (bucket.Put key data (putTimes bucket key data 1 s)).1 = some err2) :
    recoverableBucket.putLoop quote bucket key data [] s out =
      (some (GoError.putFailed key err2), putTimes bucket key data 2 s,
        { out := out ++ recoverableBucket.retrying quote "Put" key err
            ++ recoverableBucket.prompting quote "Put" key err2,
          stdin := [] }) := by
  have e1 := prod_eq_of_fst _ _ h1
  have e2 := prod_eq_of_fst _ _ h2
  unfold recoverableBucket.putLoop
  rw [e1]
  simp only
  rw [show (bucket.Put key data s).2 = putTimes bucket key data 1 s from rfl, e2]
  rfl

theorem recoverableBucket.putLoop_declined {σ : Type} (quote : String → String)
    (bucket : Bucket σ) (key : String) (data : List Byte)
    (line : String) (rerr : Option GoError) (rest : List (String × Option GoError))
    (s : σ) (out : List Event) (err err2 : GoError)
    (h1 : (bucket.Put key data s).1 = some err)
    (h2 : (bucket.Put key data (putTimes bucket key data 1 s)).1 = some err2)
    (hr : PromptLogger.Retry line rerr = false) :
    recoverableBucket.putLoop quote bucket key data ((line, rerr) :: rest) s out =
      (some (GoError.putFailed key err2), putTimes bucket key data 2 s,
        { out := out ++ recoverableBucket.retrying quote "Put" key err
            ++ recoverableBucket.prompting quote "Put" key err2,
          stdin := rest }) := by
  have e1 := prod_eq_of_fst _ _ h1
  have e2 := prod_eq_of_fst _ _ h2
  unfold recoverableBucket.putLoop
  rw [e1]
  simp only
  rw [show (bucket.Put key data s).2 = putTimes bucket key data 1 s from rfl, e2]
  simp only [hr]
  rfl

theorem recoverableBucket.putLoop_affirmed {σ : Type} (quote : String → String)
    (bucket : Bucket σ) (key : String) (data : List Byte)
    (line : String) (rerr : Option GoError) (rest : List (String × Option GoError))
    (s : σ) (out : List Event) (err err2 : GoError)
    (h1 : (bucket.Put key data s).1 = some err)
    (h2 : (bucket.Put key data (putTimes bucket key data 1 s)).1 = some err2)
    (hr : PromptLogger.Retry line rerr = true) :
    recoverableBucket.putLoop quote bucket key data ((line, rerr) :: rest) s out =
      recoverableBucket.putLoop quote bucket key data rest (putTimes bucket key data 2 s)
        (out ++ recoverableBucket.retrying quote "Put" key err
          ++ recoverableBucket.prompting quote "Put" key err2) := by
  have e1 := prod_eq_of_fst _ _ h1
  have e2 := prod_eq_of_fst _ _ h2
  conv_lhs => unfold recoverableBucket.putLoop
  rw [e1]
  simp only
  rw [show (bucket.Put key data s).2 = putTimes bucket key data 1 s from rfl, e2]
  simp only [hr, if_true]
  rfl

theorem recoverableBucket.getLoop_first {σ : Type} (quote : String → String)
    (bucket : Bucket σ) (key : String)
    (stdin : List (String × Option GoError)) (s : σ) (out : List Event) (data : List Byte)
    (h1 : (bucket.Get key s).1 = (data, none)) :
    recoverableBucket.getLoop quote bucket key stdin s out =
      ((data, none), getTimes bucket key 1 s, { out := out, stdin := stdin }) := by
  have e1 := prod_eq_of_fst _ _ h1
  unfold recoverableBucket.getLoop
  rw [e1]
  rfl

theorem recoverableBucket.getLoop_surface {σ : Type} (quote : String → String)
    (bucket : Bucket σ) (key : String)
    (stdin : List (String × Option GoError)) (s : σ) (out : List Event) (d : List Byte)
    (err : GoError)
    (h1 : (bucket.Get key s).1 = (d, some err)) (hc : isRecoverable err = false) :
    recoverableBucket.getLoop quote bucket key stdin s out =
      (([], some err), getTimes bucket key 1 s, { out := out, stdin := stdin }) := by
  have e1 := prod_eq_of_fst _ _ h1
  unfold recoverableBucket.getLoop
  rw [e1]
  simp only [hc]
  rfl

theorem recoverableBucket.getLoop_second {σ : Type} (quote : String → String)
    (bucket : Bucket σ) (key : String)
    (stdin : List (String × Option GoError)) (s : σ) (out : List Event) (d data : List Byte)
    (err : GoError)
    (h1 : (bucket.Get key s).1 = (d, some err)) (hc : isRecoverable err = true)
    (h2 : (bucket.Get key (getTimes bucket key 1 s)).1 = (data, none)) :
    recoverableBucket.getLoop quote bucket key stdin s out =
      ((data, none), getTimes bucket key 2 s,
        { out := out ++ recoverableBucket.retrying quote "Get" key err, stdin := stdin }) := by
  have e1 := prod_eq_of_fst _ _ h1
  have e2 := prod_eq_of_fst _ _ h2
  unfold recoverableBucket.getLoop
  rw [e1]
  simp only [hc]
  rw [show (bucket.Get key s).2 = getTimes bucket key 1 s from rfl, e2]
  rfl

theorem recoverableBucket.getLoop_eof {σ : Type} (quote : String → String)
    (bucket : Bucket σ) (key : String)
    (s : σ) (out : List Event) (d d2 : List Byte) (err err2 : GoError)
    (h1 : (bucket.Get key s).1 = (d, some err)) (hc : isRecoverable err = true)
    (h2 : (bucket.Get key (getTimes bucket key 1 s)).1 = (d2, some err2)) :
    recoverableBucket.getLoop quote bucket key [] s out =
      (([], some (GoError.getFailed key err2)), getTimes bucket key 2 s,
        { out := out ++ recoverableBucket.retrying quote "Get" key err
            ++ recoverableBucket.prompting quote "Get" key err2,
          stdin := [] }) := by
  have e1 := prod_eq_of_fst _ _ h1
  have e2 := prod_eq_of_fst _ _ h2
  unfold recoverableBucket.getLoop
  rw [e1]
  simp only [hc]
  rw [show (bucket.Get key s).2 = getTimes bucket key 1 s from rfl, e2]
  rfl

theorem recoverableBucket.getLoop_declined {σ : Type} (quote : String → String)
    (bucket : Bucket σ) (key : String)
    (line : String) (rerr : Option GoError) (rest : List (String × Option GoError))
    (s : σ) (out : List Event) (d d2 : List Byte) (err err2 : GoError)
    (h1 : (bucket.Get key s).1 = (d, some err)) (hc : isRecoverable err = true)
    (h2 : (bucket.Get key (getTimes bucket key 1 s)).1 = (d2, some err2))
    (hr : PromptLogger.Retry line rerr = false) :
    recoverableBucket.getLoop quote bucket key ((line, rerr) :: rest) s out =
      (([], some (GoError.getFailed key err2)), getTimes bucket key 2 s,
        { out := out ++ recoverableBucket.retrying quote "Get" key err
            ++ recoverableBucket.prompting quote "Get" key err2,
          stdin := rest }) := by
  have e1 := prod_eq_of_fst _ _ h1
  have e2 := prod_eq_of_fst _ _ h2
  unfold recoverableBucket.getLoop
  rw [e1]
  simp only [hc]
  rw [show (bucket.Get key s).2 = getTimes bucket key 1 s from rfl, e2]
  simp only [hr]
  rfl

theorem recoverableBucket.getLoop_affirmed {σ : Type} (quote : String → String)
    (bucket : Bucket σ) (key : String)
    (line : String) (rerr : Option GoError) (rest : List (String × Option GoError))
    (s : σ) (out : List Event) (d d2 : List Byte) (err err2 : GoError)
    (h1 : (bucket.Get key s).1 = (d, some err)) (hc : isRecoverable err = true)
    (h2 : (bucket.Get key (getTimes bucket key 1 s)).1 = (d2, some err2))
    (hr : PromptLogger.Retry line rerr = true) :
    recoverableBucket.getLoop quote bucket key ((line, rerr) :: rest) s out =
      recoverableBucket.getLoop quote bucket key rest (getTimes bucket key 2 s)
        (out ++ recoverableBucket.retrying quote "Get" key err
          ++ recoverableBucket.prompting quote "Get" key err2) := by
  have e1 := prod_eq_of_fst _ _ h1
  have e2 := prod_eq_of_fst _ _ h2
  conv_lhs => unfold recoverableBucket.getLoop
  rw [e1]
  simp only [hc]
  rw [show (bucket.Get key s).2 = getTimes bucket key 1 s from rfl, e2]
  simp only [hr, if_true]
  rfl

theorem isRecoverable_false_of (err : GoError)
    (hc : IsNotExist err = true ∨ err = GoError.ErrAuth) : isRecoverable err = false := by
  rcases hc with h | h
  · simp [isRecoverable, h]
  · subst h
    decide

theorem recoverableBucket.Put_eq {σ : Type} (quote : String → String) (bucket : Bucket σ)
    (key : String) (data : List Byte) (s : σ × Console) (e : Option GoError) (s1 : σ)
    (c : Console)
    (h : recoverableBucket.putLoop quote bucket key data s.2.stdin s.1 s.2.out = (e, s1, c)) :
    recoverableBucket.Put quote bucket key data s = (e, (s1, c)) := by
  unfold recoverableBucket.Put
  rw [h]

theorem recoverableBucket.Get_eq {σ : Type} (quote : String → String) (bucket : Bucket σ)
    (key : String) (s : σ × Console) (r : List Byte × Option GoError) (s1 : σ) (c : Console)
    (h : recoverableBucket.getLoop quote bucket key s.2.stdin s.1 s.2.out = (r, s1, c)) :
    recoverableBucket.Get quote bucket key s = (r, (s1, c)) := by
  unfold recoverableBucket.Get
  rw [h]

/-- C15. If the first inner `Get` of `recoverableBucket.Get` fails with an error
that is a not-found error (`IsNotExist`) or is `ErrAuth`, then `Get` returns no
data and that same error, the wrapped bucket is in the state after exactly one
`Get`, and the console is as before: nothing logged, no wait, no prompt, no
line read. Hence a not-found error of a store comes out of the recovery
decorator around the encryption decorator around that store unchanged. -/
theorem recoverableBucket_Get_not_found {σ : Type} (quote : String → String)
    (bucket : Bucket σ) (key : String) (sb : Secretbox) (privateKey : Key) :
    (∀ (s : σ × Console) (d : List Byte) (err : GoError),
      (bucket.Get key s.1).1 = (d, some err) →
      (IsNotExist err = true ∨ err = GoError.ErrAuth) →
      recoverableBucket.Get quote bucket key s =
        (([], some err), (getTimes bucket key 1 s.1, s.2))) ∧
    (∀ (t : (σ × Stream' Nonce) × Console) (d : List Byte) (err : GoError),
      (bucket.Get key t.1.1).1 = (d, some err) → IsNotExist err = true →
      (recoverableBucket.Get quote (NewEncryptedBucket sb bucket privateKey) key t).1 =
        ([], some err) ∧
      (recoverableBucket.Get quote (NewEncryptedBucket sb bucket privateKey) key t).2.2 = t.2 ∧
      (recoverableBucket.Get quote (NewEncryptedBucket sb bucket privateKey) key t).2.1.1 =
        getTimes bucket key 1 t.1.1) := by
  constructor
  · intro s d err h1 hc
    exact recoverableBucket.Get_eq quote bucket key s _ _ _
      (recoverableBucket.getLoop_surface quote bucket key s.2.stdin s.1 s.2.out d err h1
        (isRecoverable_false_of err hc))
  · intro t d err h1 hc
    have henc : ((NewEncryptedBucket sb bucket privateKey).Get key t.1).1 = ([], some err) := by
      show (encryptedBucket.Get sb bucket privateKey key t.1).1 = ([], some err)
      rw [encryptedBucket.Get_err sb bucket privateKey key t.1 d err h1]
    have hst : ((NewEncryptedBucket sb bucket privateKey).Get key t.1).2.1
        = getTimes bucket key 1 t.1.1 := by
      show (encryptedBucket.Get sb bucket privateKey key t.1).2.1 = _
      rw [encryptedBucket.Get_err sb bucket privateKey key t.1 d err h1]
      rfl
    have := recoverableBucket.Get_eq quote (NewEncryptedBucket sb bucket privateKey) key t _ _ _
      (recoverableBucket.getLoop_surface quote (NewEncryptedBucket sb bucket privateKey) key
        t.2.stdin t.1 t.2.out [] err henc (isRecoverable_false_of err (Or.inl hc)))
    rw [this]
    exact ⟨rfl, rfl, hst⟩

theorem recoverableBucket_Get_not_found_witness :
    recoverableBucket.Get toyQuote memBucket "nonexistent"
        ([], { out := [], stdin := [("y\n", none)] }) =
      (([], some (GoError.osError true "file does not exist")),
        (getTimes memBucket "nonexistent" 1 [], { out := [], stdin := [("y\n", none)] })) ∧
    (recoverableBucket.Get toyQuote (NewEncryptedBucket toySecretbox memBucket toyKey)
        "nonexistent" (([], Stream'.const toyNonce), { out := [], stdin := [] })).1 =
      ([], some (GoError.osError true "file does not exist")) :=
  ⟨(recoverableBucket_Get_not_found toyQuote memBucket "nonexistent" toySecretbox toyKey).1
      ([], { out := [], stdin := [("y\n", none)] }) []
      (GoError.osError true "file does not exist") (by decide) (by decide),
   ((recoverableBucket_Get_not_found toyQuote memBucket "nonexistent" toySecretbox toyKey).2
      (([], Stream'.const toyNonce), { out := [], stdin := [] }) []
      (GoError.osError true "file does not exist") (by decide) (by decide)).1⟩

/-- C16, as the claim states it, fails: when the inner `Put` fails with a
not-found error and then succeeds, `recoverableBucket.Put` logs, waits, makes a
second attempt and returns `nil`; when the inner `Put` fails twice with
`ErrAuth`, the operator is prompted. -/
theorem recoverableBucket_Put_retries_not_found :
    recoverableBucket.Put toyQuote scriptedBucket "k" [1]
        ({ script := [some (GoError.osError true "not found")], calls := 0 },
          { out := [], stdin := [] }) =
      (none, ({ script := [], calls := 2 },
        { out := [Event.log "Put(\"k\") failed: not found\n... Retrying in 5 seconds.",
            Event.sleep 5],
          stdin := [] })) ∧
    (recoverableBucket.Put toyQuote scriptedBucket "k" [1]
        ({ script := [some GoError.ErrAuth, some GoError.ErrAuth], calls := 0 },
          { out := [], stdin := [] })).2.2.out =
      [Event.log "Put(\"k\") failed: integrity check failure\n... Retrying in 5 seconds.",
        Event.sleep 5, Event.log "Put(\"k\") failed: integrity check failure",
        Event.stderr "--> Retry? [Y/n]: "] := by
  decide

/-- C16, amended. `recoverableBucket.Put` does not classify the error. When the
inner `Put` fails with any error `err`, not-found errors and `ErrAuth`
included, `Put` logs the failure, waits 5 seconds and makes a second attempt.
If that succeeds `Put` returns `nil`. If it fails with `err2`, `Put` logs that
and prompts the operator: at the end of input or on a declining line it
returns the error `Put(key): err2`, and on any other line it starts over. -/
theorem recoverableBucket_Put_any_error {σ : Type} (quote : String → String)
    (bucket : Bucket σ) (key : String) (data : List Byte) (s : σ × Console) (err : GoError)
    (h1 : (bucket.Put key data s.1).1 = some err) :
    ((bucket.Put key data (putTimes bucket key data 1 s.1)).1 = none →
      recoverableBucket.Put quote bucket key data s =
        (none, (putTimes bucket key data 2 s.1,
          { out := s.2.out ++ recoverableBucket.retrying quote "Put" key err,
            stdin := s.2.stdin }))) ∧
    (∀ err2, (bucket.Put key data (putTimes bucket key data 1 s.1)).1 = some err2 →
      (s.2.stdin = [] →
        recoverableBucket.Put quote bucket key data s =
          (some (GoError.putFailed key err2), (putTimes bucket key data 2 s.1,
            { out := s.2.out ++ recoverableBucket.retrying quote "Put" key err
                ++ recoverableBucket.prompting quote "Put" key err2,
              stdin := [] }))) ∧
      (∀ line rerr rest, s.2.stdin = (line, rerr) :: rest →
        PromptLogger.Retry line rerr = false →
        recoverableBucket.Put quote bucket key data s =
          (some (GoError.putFailed key err2), (putTimes bucket key data 2 s.1,
            { out := s.2.out ++ recoverableBucket.retrying quote "Put" key err
                ++ recoverableBucket.prompting quote "Put" key err2,
              stdin := rest }))) ∧
      (∀ line rerr rest, s.2.stdin = (line, rerr) :: rest →
        PromptLogger.Retry line rerr = true →
        recoverableBucket.Put quote bucket key data s =
          recoverableBucket.Put quote bucket key data
            (putTimes bucket key data 2 s.1,
              { out := s.2.out ++ recoverableBucket.retrying quote "Put" key err
                  ++ recoverableBucket.prompting quote "Put" key err2,
                stdin := rest }))) := by
  refine ⟨?_, ?_⟩
  · intro h2
    exact recoverableBucket.Put_eq quote bucket key data s _ _ _
      (recoverableBucket.putLoop_second quote bucket key data _ _ _ err h1 h2)
  · intro err2 h2
    refine ⟨?_, ?_, ?_⟩
    · intro hs
      apply recoverableBucket.Put_eq
      rw [hs]
      exact recoverableBucket.putLoop_eof quote bucket key data _ _ err err2 h1 h2
    · intro line rerr rest hs hr
      apply recoverableBucket.Put_eq
      rw [hs]
      exact recoverableBucket.putLoop_declined quote bucket key data line rerr rest _ _ err
        err2 h1 h2 hr
    · intro line rerr rest hs hr
      unfold recoverableBucket.Put
      simp only [hs]
      rw [recoverableBucket.putLoop_affirmed quote bucket key data line rerr rest _ _ err
        err2 h1 h2 hr]

theorem recoverableBucket_Put_any_error_witness :
    recoverableBucket.Put toyQuote scriptedBucket "k" [1]
        ({ script := [some GoError.ErrAuth], calls := 0 }, { out := [], stdin := [] }) =
      (none, (putTimes scriptedBucket "k" [1] 2 { script := [some GoError.ErrAuth], calls := 0 },
        { out := [] ++ recoverableBucket.retrying toyQuote "Put" "k" GoError.ErrAuth,
          stdin := [] })) :=
  (recoverableBucket_Put_any_error toyQuote scriptedBucket "k" [1]
    ({ script := [some GoError.ErrAuth], calls := 0 }, { out := [], stdin := [] })
    GoError.ErrAuth (by decide)).1 (by decide)

/-- C17, as the claim states it, fails: with an inner bucket that fails twice
with a transient error and then succeeds, `recoverableBucket.Put` returns an
error when the operator declines, and `recoverableBucket.Get` succeeds only
after a prompt that the operator affirms, with three inner attempts. -/
theorem recoverableBucket_fails_twice_prompts :
    (recoverableBucket.Put toyQuote scriptedBucket "k" [1]
        ({ script := [some (GoError.other "timeout"), some (GoError.other "timeout")],
           calls := 0 },
          { out := [], stdin := [("n\n", none)] })).1 =
      some (GoError.putFailed "k" (GoError.other "timeout")) ∧
    recoverableBucket.Get toyQuote scriptedBucket "k"
        ({ script := [some (GoError.other "timeout"), some (GoError.other "timeout")],
           calls := 0 },
          { out := [], stdin := [("y\n", none)] }) =
      (([42], none), ({ script := [], calls := 3 },
        { out := [Event.log "Get(\"k\") failed: timeout\n... Retrying in 5 seconds.",
            Event.sleep 5, Event.log "Get(\"k\") failed: timeout",
            Event.stderr "--> Retry? [Y/n]: "],
          stdin := [] })) := by
  decide

/-- C17, amended. For `recoverableBucket.Put` and `Get` with a transient
(recoverable) error: an inner bucket that fails once and then succeeds yields
success with exactly one automatic retry (one line logged, one wait of 5
seconds, two inner attempts) and no operator prompt. An inner bucket that fails
twice and then succeeds makes the decorator prompt the operator after the
second failure: on an affirming line the third attempt yields success, on a
declining line the caller gets the wrapped error of the second failure. -/
theorem recoverableBucket_fails_once {σ : Type} (quote : String → String)
    (bucket : Bucket σ) (key : String) (data : List Byte) (s : σ × Console) :
    (∀ err, (bucket.Put key data s.1).1 = some err →
      (bucket.Put key data (putTimes bucket key data 1 s.1)).1 = none →
      recoverableBucket.Put quote bucket key data s =
        (none, (putTimes bucket key data 2 s.1,
          { out := s.2.out ++ recoverableBucket.retrying quote "Put" key err,
            stdin := s.2.stdin }))) ∧
    (∀ d err got, (bucket.Get key s.1).1 = (d, some err) → isRecoverable err = true →
      (bucket.Get key (getTimes bucket key 1 s.1)).1 = (got, none) →
      recoverableBucket.Get quote bucket key s =
        ((got, none), (getTimes bucket key 2 s.1,
          { out := s.2.out ++ recoverableBucket.retrying quote "Get" key err,
            stdin := s.2.stdin }))) ∧
    (∀ err err2 line rerr rest, (bucket.Put key data s.1).1 = some err →
      (bucket.Put key data (putTimes bucket key data 1 s.1)).1 = some err2 →
      (bucket.Put key data (putTimes bucket key data 2 s.1)).1 = none →
      s.2.stdin = (line, rerr) :: rest →
      recoverableBucket.Put quote bucket key data s =
        if PromptLogger.Retry line rerr then
          (none, (putTimes bucket key data 3 s.1,
            { out := s.2.out ++ recoverableBucket.retrying quote "Put" key err
                ++ recoverableBucket.prompting quote "Put" key err2,
              stdin := rest }))
        else
          (some (GoError.putFailed key err2), (putTimes bucket key data 2 s.1,
            { out := s.2.out ++ recoverableBucket.retrying quote "Put" key err
                ++ recoverableBucket.prompting quote "Put" key err2,
              stdin := rest }))) ∧
    (∀ d d2 err err2 got line rerr rest, (bucket.Get key s.1).1 = (d, some err) →
      isRecoverable err = true →
      (bucket.Get key (getTimes bucket key 1 s.1)).1 = (d2, some err2) →
      (bucket.Get key (getTimes bucket key 2 s.1)).1 = (got, none) →
      s.2.stdin = (line, rerr) :: rest →
      recoverableBucket.Get quote bucket key s =
        if PromptLogger.Retry line rerr then
          ((got, none), (getTimes bucket key 3 s.1,
            { out := s.2.out ++ recoverableBucket.retrying quote "Get" key err
                ++ recoverableBucket.prompting quote "Get" key err2,
              stdin := rest }))
        else
          (([], some (GoError.getFailed key err2)), (getTimes bucket key 2 s.1,
            { out := s.2.out ++ recoverableBucket.retrying quote "Get" key err
                ++ recoverableBucket.prompting quote "Get" key err2,
              stdin := rest }))) := by
  refine ⟨?_, ?_, ?_, ?_⟩
  · intro err h1 h2
    exact recoverableBucket.Put_eq quote bucket key data s _ _ _
      (recoverableBucket.putLoop_second quote bucket key data _ _ _ err h1 h2)
  · intro d err got h1 hc h2
    exact recoverableBucket.Get_eq quote bucket key s _ _ _
      (recoverableBucket.getLoop_second quote bucket key _ _ _ d got err h1 hc h2)
  · intro err err2 line rerr rest h1 h2 h3 hs
    apply recoverableBucket.Put_eq
    rw [hs]
    cases hr : PromptLogger.Retry line rerr with
    | true =>
      rw [recoverableBucket.putLoop_affirmed quote bucket key data line rerr rest _ _ err
        err2 h1 h2 hr]
      rw [recoverableBucket.putLoop_first quote bucket key data rest _ _ h3]
      rfl
    | false =>
      rw [recoverableBucket.putLoop_declined quote bucket key data line rerr rest _ _ err
        err2 h1 h2 hr]
      rfl
  · intro d d2 err err2 got line rerr rest h1 hc h2 h3 hs
    apply recoverableBucket.Get_eq
    rw [hs]
    cases hr : PromptLogger.Retry line rerr with
    | true =>
      rw [recoverableBucket.getLoop_affirmed quote bucket key line rerr rest _ _ d d2 err
        err2 h1 hc h2 hr]
      rw [recoverableBucket.getLoop_first quote bucket key rest _ _ got h3]
      rfl
    | false =>
      rw [recoverableBucket.getLoop_declined quote bucket key line rerr rest _ _ d d2 err
        err2 h1 hc h2 hr]
      rfl

theorem recoverableBucket_fails_once_witness :
    recoverableBucket.Put toyQuote scriptedBucket "k" [1]
        ({ script := [some (GoError.other "timeout")], calls := 0 },
          { out := [], stdin := [("n\n", none)] }) =
      (none, (putTimes scriptedBucket "k" [1] 2
          { script := [some (GoError.other "timeout")], calls := 0 },
        { out := [] ++ recoverableBucket.retrying toyQuote "Put" "k" (GoError.other "timeout"),
          stdin := [("n\n", none)] })) ∧
    recoverableBucket.Get toyQuote scriptedBucket "k"
        ({ script := [some (GoError.other "timeout")], calls := 0 },
          { out := [], stdin := [("n\n", none)] }) =
      (([42], none), (getTimes scriptedBucket "k" 2
          { script := [some (GoError.other "timeout")], calls := 0 },
        { out := [] ++ recoverableBucket.retrying toyQuote "Get" "k" (GoError.other "timeout"),
          stdin := [("n\n", none)] })) :=
  ⟨(recoverableBucket_fails_once toyQuote scriptedBucket "k" [1]
      ({ script := [some (GoError.other "timeout")], calls := 0 },
        { out := [], stdin := [("n\n", none)] })).1
      (GoError.other "timeout") (by decide) (by decide),
   (recoverableBucket_fails_once toyQuote scriptedBucket "k" [1]
      ({ script := [some (GoError.other "timeout")], calls := 0 },
        { out := [], stdin := [("n\n", none)] })).2.1
      [] (GoError.other "timeout") [42] (by decide) (by decide) (by decide)⟩

/-- C18, as the claim states it, fails: when the first inner `Get` fails with a
transient error and the automatic retry with a not-found error,
`recoverableBucket.Get` prompts the operator, and on the affirming line makes a
third attempt. -/
theorem recoverableBucket_Get_prompts_not_found :
    recoverableBucket.Get toyQuote scriptedBucket "k"
        ({ script := [some (GoError.other "timeout"), some (GoError.osError true "not found")],
           calls := 0 },
          { out := [], stdin := [("y\n", none)] }) =
      (([42], none), ({ script := [], calls := 3 },
        { out := [Event.log "Get(\"k\") failed: timeout\n... Retrying in 5 seconds.",
            Event.sleep 5, Event.log "Get(\"k\") failed: not found",
            Event.stderr "--> Retry? [Y/n]: "],
          stdin := [] })) ∧
    isRecoverable (GoError.osError true "not found") = false := by
  decide

/-- C18, amended. `recoverableBucket.Get` classifies only the error of the first
attempt of a cycle. If the first inner attempt fails with a recoverable error
and the automatic retry then fails with any error `err2`, a non-recoverable one
included, `Get` logs that failure and prompts the operator. At the end of
input or on a declining line it returns no data and the error
`Get(key): err2`, after exactly two inner attempts; on any other line it
starts another cycle. -/
theorem recoverableBucket_Get_second_failure {σ : Type} (quote : String → String)
    (bucket : Bucket σ) (key : String) (s : σ × Console) (d d2 : List Byte)
    (err err2 : GoError)
    (h1 : (bucket.Get key s.1).1 = (d, some err)) (hc : isRecoverable err = true)
    (h2 : (bucket.Get key (getTimes bucket key 1 s.1)).1 = (d2, some err2)) :
    (s.2.stdin = [] →
      recoverableBucket.Get quote bucket key s =
        (([], some (GoError.getFailed key err2)), (getTimes bucket key 2 s.1,
          { out := s.2.out ++ recoverableBucket.retrying quote "Get" key err
              ++ recoverableBucket.prompting quote "Get" key err2,
            stdin := [] }))) ∧
    (∀ line rerr rest, s.2.stdin = (line, rerr) :: rest →
      PromptLogger.Retry line rerr = false →
      recoverableBucket.Get quote bucket key s =
        (([], some (GoError.getFailed key err2)), (getTimes bucket key 2 s.1,
          { out := s.2.out ++ recoverableBucket.retrying quote "Get" key err
              ++ recoverableBucket.prompting quote "Get" key err2,
            stdin := rest }))) ∧
    (∀ line rerr rest, s.2.stdin = (line, rerr) :: rest →
      PromptLogger.Retry line rerr = true →
      recoverableBucket.Get quote bucket key s =
        recoverableBucket.Get quote bucket key
          (getTimes bucket key 2 s.1,
            { out := s.2.out ++ recoverableBucket.retrying quote "Get" key err
                ++ recoverableBucket.prompting quote "Get" key err2,
              stdin := rest })) := by
  refine ⟨?_, ?_, ?_⟩
  · intro hs
    apply recoverableBucket.Get_eq
    rw [hs]
    exact recoverableBucket.getLoop_eof quote bucket key _ _ d d2 err err2 h1 hc h2
  · intro line rerr rest hs hr
    apply recoverableBucket.Get_eq
    rw [hs]
    exact recoverableBucket.getLoop_declined quote bucket key line rerr rest _ _ d d2 err
      err2 h1 hc h2 hr
  · intro line rerr rest hs hr
    unfold recoverableBucket.Get
    simp only [hs]
    rw [recoverableBucket.getLoop_affirmed quote bucket key line rerr rest _ _ d d2 err
      err2 h1 hc h2 hr]

theorem recoverableBucket_Get_second_failure_witness :
    recoverableBucket.Get toyQuote scriptedBucket "k"
        ({ script := [some (GoError.other "timeout"), some GoError.ErrAuth], calls := 0 },
          { out := [], stdin := [("No\n", none)] }) =
      (([], some (GoError.getFailed "k" GoError.ErrAuth)),
        (getTimes scriptedBucket "k" 2
          { script := [some (GoError.other "timeout"), some GoError.ErrAuth], calls := 0 },
        { out := [] ++ recoverableBucket.retrying toyQuote "Get" "k" (GoError.other "timeout")
            ++ recoverableBucket.prompting toyQuote "Get" "k" GoError.ErrAuth,
          stdin := [] })) :=
  (recoverableBucket_Get_second_failure toyQuote scriptedBucket "k"
    ({ script := [some (GoError.other "timeout"), some GoError.ErrAuth], calls := 0 },
      { out := [], stdin := [("No\n", none)] }) [] []
    (GoError.other "timeout") GoError.ErrAuth (by decide) (by decide) (by decide)).2.1
    "No\n" none [] rfl (by decide)

/-- C19, as the claim states it, fails: on a blank line (just a newline), and
on an answer that is no affirmation, `PromptLogger.Retry` returns true. -/
theorem PromptLogger_Retry_blank_line :
    PromptLogger.Retry "\n" none = true ∧ PromptLogger.Retry "maybe not\n" none = true := by
  decide

/-- C19, amended. `PromptLogger.Retry` returns false (stop retrying) exactly
when reading the line fails (a read error or the end of input) or the line
begins with `n` or `N`; on every other line, the blank line (just a newline)
included, it returns true, yes being the default answer of its prompt
`[Y/n]`. -/
theorem PromptLogger_Retry_false_iff (line : String) (rerr : Option GoError) :
    (PromptLogger.Retry line rerr = false ↔
      (rerr ≠ none ∨ line = "" ∨ line.get 0 = 'n' ∨ line.get 0 = 'N')) ∧
    (∀ err, PromptLogger.Retry line (some err) = false) ∧
    PromptLogger.Retry "" rerr = false ∧
    PromptLogger.Retry "n\n" rerr = false ∧
    PromptLogger.Retry "No\n" rerr = false ∧
    PromptLogger.Retry "\n" none = true ∧
    PromptLogger.Retry "y\n" none = true ∧
    PromptLogger.Retry "Y\n" none = true := by
  refine ⟨?_, ?_, ?_, ?_, ?_, by decide, by decide, by decide⟩
  · unfold PromptLogger.Retry
    by_cases h : rerr ≠ none ∨ line = "" ∨ line.get 0 = 'n' ∨ line.get 0 = 'N'
    · rw [if_pos h]
      exact ⟨fun _ => h, fun _ => rfl⟩
    · rw [if_neg h]
      exact ⟨fun hf => (by cases hf), fun hf => absurd hf h⟩
  · intro err
    simp [PromptLogger.Retry]
  · simp [PromptLogger.Retry]
  · unfold PromptLogger.Retry
    rw [if_pos (Or.inr (Or.inr (Or.inl (by decide))))]
  · unfold PromptLogger.Retry
    rw [if_pos (Or.inr (Or.inr (Or.inr (by decide))))]

/-! ## Recovery decorator: the operator affirms `k` times, then declines -/

theorem putTimes_add {σ : Type} (bucket : Bucket σ) (key : String) (data : List Byte)
    (m n : Nat) (s : σ) :
    putTimes bucket key data n (putTimes bucket key data m s) = putTimes bucket key data (m + n) s := by
  induction m generalizing s with
  | zero => simp [putTimes]
  | succ m ih =>
    rw [show m + 1 + n = (m + n) + 1 by omega]
    exact ih _

theorem getTimes_add {σ : Type} (bucket : Bucket σ) (key : String)
    (m n : Nat) (s : σ) :
    getTimes bucket key n (getTimes bucket key m s) = getTimes bucket key (m + n) s := by
  induction m generalizing s with
  | zero => simp [getTimes]
  | succ m ih =>
    rw [show m + 1 + n = (m + n) + 1 by omega]
    exact ih _

theorem count_prompt_retrying (quote : String → String) (op key : String) (err : GoError) :
    (recoverableBucket.retrying quote op key err).count (Event.stderr "--> Retry? [Y/n]: ") = 0 ∧
    (recoverableBucket.retrying quote op key err).count (Event.sleep 5) = 1 := by
  simp [recoverableBucket.retrying, List.count_cons]

theorem count_prompt_prompting (quote : String → String) (op key : String) (err : GoError) :
    (recoverableBucket.prompting quote op key err).count (Event.stderr "--> Retry? [Y/n]: ") = 1 ∧
    (recoverableBucket.prompting quote op key err).count (Event.sleep 5) = 0 := by
  simp [recoverableBucket.prompting, List.count_cons]

theorem recoverableBucket.putLoop_cycles {σ : Type} (quote : String → String)
    (bucket : Bucket σ) (key : String) (data : List Byte)
    (line : String) (rerr : Option GoError) (rest : List (String × Option GoError))
    (hno : PromptLogger.Retry line rerr = false)
    (yes : List (String × Option GoError)) :
    ∀ (s : σ) (out : List Event),
      (∀ a ∈ yes, PromptLogger.Retry a.1 a.2 = true) →
      (∀ i, i < 2 * (yes.length + 1) →
        ∃ e, (bucket.Put key data (putTimes bucket key data i s)).1 = some e) →
      ∃ (e : GoError) (c : Console),
        (bucket.Put key data (putTimes bucket key data (2 * yes.length + 1) s)).1 = some e ∧
        recoverableBucket.putLoop quote bucket key data (yes ++ (line, rerr) :: rest) s out =
          (some (GoError.putFailed key e),
            putTimes bucket key data (2 * (yes.length + 1)) s, c) ∧
        c.stdin = rest ∧
        c.out.count (Event.stderr "--> Retry? [Y/n]: ") =
          out.count (Event.stderr "--> Retry? [Y/n]: ") + (yes.length + 1) ∧
        c.out.count (Event.sleep 5) = out.count (Event.sleep 5) + (yes.length + 1) := by
  induction yes with
  | nil =>
    intro s out _ hfail
    obtain ⟨e1, h1⟩ := hfail 0 (by simp)
    obtain ⟨e2, h2⟩ := hfail 1 (by simp)
    refine ⟨e2, { out := out ++ recoverableBucket.retrying quote "Put" key e1
        ++ recoverableBucket.prompting quote "Put" key e2, stdin := rest }, h2, ?_, rfl, ?_, ?_⟩
    · exact recoverableBucket.putLoop_declined quote bucket key data line rerr rest s out
        e1 e2 h1 h2 hno
    · simp only [List.count_append, (count_prompt_retrying quote "Put" key e1).1,
        (count_prompt_prompting quote "Put" key e2).1, List.length_nil]
    · simp only [List.count_append, (count_prompt_retrying quote "Put" key e1).2,
        (count_prompt_prompting quote "Put" key e2).2, List.length_nil]
  | cons a ys ih =>
    intro s out hyes hfail
    obtain ⟨e1, h1⟩ := hfail 0 (by simp)
    obtain ⟨e2, h2⟩ := hfail 1 (by simp only [List.length_cons]; omega)
    have ha : PromptLogger.Retry a.1 a.2 = true := hyes a (List.mem_cons_self _ _)
    obtain ⟨e, c, g1, g2, g3, g4, g5⟩ := ih (putTimes bucket key data 2 s)
      (out ++ recoverableBucket.retrying quote "Put" key e1
        ++ recoverableBucket.prompting quote "Put" key e2)
      (fun b hb => hyes b (List.mem_cons_of_mem _ hb))
      (fun i hi => by
        rw [putTimes_add]
        exact hfail (2 + i) (by simp only [List.length_cons]; omega))
    rw [putTimes_add] at g1 g2
    refine ⟨e, c, ?_, ?_, g3, ?_, ?_⟩
    · rw [show 2 * (a :: ys).length + 1 = 2 + (2 * ys.length + 1) by
        simp only [List.length_cons]; omega]
      exact g1
    · rw [List.cons_append,
        recoverableBucket.putLoop_affirmed quote bucket key data a.1 a.2 _ s out e1 e2 h1 h2 ha,
        g2]
      rw [show 2 + 2 * (ys.length + 1) = 2 * ((a :: ys).length + 1) by
        simp only [List.length_cons]; omega]
    · rw [g4]
      simp only [List.count_append, (count_prompt_retrying quote "Put" key e1).1,
        (count_prompt_prompting quote "Put" key e2).1, List.length_cons]
      omega
    · rw [g5]
      simp only [List.count_append, (count_prompt_retrying quote "Put" key e1).2,
        (count_prompt_prompting quote "Put" key e2).2, List.length_cons]
      omega

theorem recoverableBucket.getLoop_cycles {σ : Type} (quote : String → String)
    (bucket : Bucket σ) (key : String)
    (line : String) (rerr : Option GoError) (rest : List (String × Option GoError))
    (hno : PromptLogger.Retry line rerr = false)
    (yes : List (String × Option GoError)) :
    ∀ (s : σ) (out : List Event),
      (∀ a ∈ yes, PromptLogger.Retry a.1 a.2 = true) →
      (∀ i, i < 2 * (yes.length + 1) →
        ∃ d e, (bucket.Get key (getTimes bucket key i s)).1 = (d, some e) ∧
          isRecoverable e = true) →
      ∃ (d : List Byte) (e : GoError) (c : Console),
        (bucket.Get key (getTimes bucket key (2 * yes.length + 1) s)).1 = (d, some e) ∧
        recoverableBucket.getLoop quote bucket key (yes ++ (line, rerr) :: rest) s out =
          (([], some (GoError.getFailed key e)),
            getTimes bucket key (2 * (yes.length + 1)) s, c) ∧
        c.stdin = rest ∧
        c.out.count (Event.stderr "--> Retry? [Y/n]: ") =
          out.count (Event.stderr "--> Retry? [Y/n]: ") + (yes.length + 1) ∧
        c.out.count (Event.sleep 5) = out.count (Event.sleep 5) + (yes.length + 1) := by
  induction yes with
  | nil =>
    intro s out _ hfail
    obtain ⟨d1, e1, h1, hc⟩ := hfail 0 (by simp)
    obtain ⟨d2, e2, h2, _⟩ := hfail 1 (by simp)
    refine ⟨d2, e2, { out := out ++ recoverableBucket.retrying quote "Get" key e1
        ++ recoverableBucket.prompting quote "Get" key e2, stdin := rest }, h2, ?_, rfl, ?_, ?_⟩
    · exact recoverableBucket.getLoop_declined quote bucket key line rerr rest s out
        d1 d2 e1 e2 h1 hc h2 hno
    · simp only [List.count_append, (count_prompt_retrying quote "Get" key e1).1,
        (count_prompt_prompting quote "Get" key e2).1, List.length_nil]
    · simp only [List.count_append, (count_prompt_retrying quote "Get" key e1).2,
        (count_prompt_prompting quote "Get" key e2).2, List.length_nil]
  | cons a ys ih =>
    intro s out hyes hfail
    obtain ⟨d1, e1, h1, hc⟩ := hfail 0 (by simp)
    obtain ⟨d2, e2, h2, _⟩ := hfail 1 (by simp only [List.length_cons]; omega)
    have ha : PromptLogger.Retry a.1 a.2 = true := hyes a (List.mem_cons_self _ _)
    obtain ⟨d, e, c, g1, g2, g3, g4, g5⟩ := ih (getTimes bucket key 2 s)
      (out ++ recoverableBucket.retrying quote "Get" key e1
        ++ recoverableBucket.prompting quote "Get" key e2)
      (fun b hb => hyes b (List.mem_cons_of_mem _ hb))
      (fun i hi => by
        rw [getTimes_add]
        exact hfail (2 + i) (by simp only [List.length_cons]; omega))
    rw [getTimes_add] at g1 g2
    refine ⟨d, e, c, ?_, ?_, g3, ?_, ?_⟩
    · rw [show 2 * (a :: ys).length + 1 = 2 + (2 * ys.length + 1) by
        simp only [List.length_cons]; omega]
      exact g1
    · rw [List.cons_append,
        recoverableBucket.getLoop_affirmed quote bucket key a.1 a.2 _ s out d1 d2 e1 e2 h1 hc
          h2 ha,
        g2]
      rw [show 2 + 2 * (ys.length + 1) = 2 * ((a :: ys).length + 1) by
        simp only [List.length_cons]; omega]
    · rw [g4]
      simp only [List.count_append, (count_prompt_retrying quote "Get" key e1).1,
        (count_prompt_prompting quote "Get" key e2).1, List.length_cons]
      omega
    · rw [g5]
      simp only [List.count_append, (count_prompt_retrying quote "Get" key e1).2,
        (count_prompt_prompting quote "Get" key e2).2, List.length_cons]
      omega

/-- C20. Let every inner attempt fail (for `Get`: with a recoverable error),
and let the operator's lines be `k` affirming ones followed by a declining one.
Then `recoverableBucket.Put` makes exactly `2 * (k + 1)` inner attempts, prompts
`k + 1` times (and waits `k + 1` times), reads exactly those `k + 1` lines, and
returns the error whose message is `Put(` quoted key `): ` followed by the
message of the last inner failure. The same holds for `Get`, with `Get(`. -/
theorem recoverableBucket_affirm_k_times {σ : Type} (quote : String → String)
    (bucket : Bucket σ) (key : String) (data : List Byte)
    (yes : List (String × Option GoError)) (line : String) (rerr : Option GoError)
    (rest : List (String × Option GoError))
    (hyes : ∀ a ∈ yes, PromptLogger.Retry a.1 a.2 = true)
    (hno : PromptLogger.Retry line rerr = false) (s : σ) (out : List Event) :
    ((∀ i, i < 2 * (yes.length + 1) →
        ∃ e, (bucket.Put key data (putTimes bucket key data i s)).1 = some e) →
      ∃ (e : GoError) (c : Console),
        (bucket.Put key data (putTimes bucket key data (2 * yes.length + 1) s)).1 = some e ∧
        recoverableBucket.Put quote bucket key data
            (s, { out := out, stdin := yes ++ (line, rerr) :: rest }) =
          (some (GoError.putFailed key e),
            (putTimes bucket key data (2 * (yes.length + 1)) s, c)) ∧
        (GoError.putFailed key e).Error quote = "Put(" ++ quote key ++ "): " ++ e.Error quote ∧
        c.stdin = rest ∧
        c.out.count (Event.stderr "--> Retry? [Y/n]: ") =
          out.count (Event.stderr "--> Retry? [Y/n]: ") + (yes.length + 1) ∧
        c.out.count (Event.sleep 5) = out.count (Event.sleep 5) + (yes.length + 1)) ∧
    ((∀ i, i < 2 * (yes.length + 1) →
        ∃ d e, (bucket.Get key (getTimes bucket key i s)).1 = (d, some e) ∧
          isRecoverable e = true) →
      ∃ (d : List Byte) (e : GoError) (c : Console),
        (bucket.Get key (getTimes bucket key (2 * yes.length + 1) s)).1 = (d, some e) ∧
        recoverableBucket.Get quote bucket key
            (s, { out := out, stdin := yes ++ (line, rerr) :: rest }) =
          (([], some (GoError.getFailed key e)),
            (getTimes bucket key (2 * (yes.length + 1)) s, c)) ∧
        (GoError.getFailed key e).Error quote = "Get(" ++ quote key ++ "): " ++ e.Error quote ∧
        c.stdin = rest ∧
        c.out.count (Event.stderr "--> Retry? [Y/n]: ") =
          out.count (Event.stderr "--> Retry? [Y/n]: ") + (yes.length + 1) ∧
        c.out.count (Event.sleep 5) = out.count (Event.sleep 5) + (yes.length + 1)) := by
  constructor
  · intro hfail
    obtain ⟨e, c, g1, g2, g3, g4, g5⟩ :=
      recoverableBucket.putLoop_cycles quote bucket key data line rerr rest hno yes s out
        hyes hfail
    exact ⟨e, c, g1, recoverableBucket.Put_eq quote bucket key data _ _ _ _ g2, rfl, g3, g4, g5⟩
  · intro hfail
    obtain ⟨d, e, c, g1, g2, g3, g4, g5⟩ :=
      recoverableBucket.getLoop_cycles quote bucket key line rerr rest hno yes s out
        hyes hfail
    exact ⟨d, e, c, g1, recoverableBucket.Get_eq quote bucket key _ _ _ _ g2, rfl, g3, g4, g5⟩

theorem recoverableBucket_affirm_k_times_witness :
    (∃ (e : GoError) (c : Console),
      (scriptedBucket.Put "k" [1] (putTimes scriptedBucket "k" [1] (2 * 1 + 1)
        { script := List.replicate 4 (some (GoError.other "timeout")), calls := 0 })).1
          = some e ∧
      recoverableBucket.Put toyQuote scriptedBucket "k" [1]
          ({ script := List.replicate 4 (some (GoError.other "timeout")), calls := 0 },
            { out := [], stdin := [("y\n", none)] ++ ("n\n", none) :: [] }) =
        (some (GoError.putFailed "k" e),
          (putTimes scriptedBucket "k" [1] (2 * (1 + 1))
            { script := List.replicate 4 (some (GoError.other "timeout")), calls := 0 }, c)) ∧
      (GoError.putFailed "k" e).Error toyQuote = "Put(" ++ toyQuote "k" ++ "): "
        ++ e.Error toyQuote ∧
      c.stdin = [] ∧
      c.out.count (Event.stderr "--> Retry? [Y/n]: ") =
        ([] : List Event).count (Event.stderr "--> Retry? [Y/n]: ") + (1 + 1) ∧
      c.out.count (Event.sleep 5) = ([] : List Event).count (Event.sleep 5) + (1 + 1)) ∧
    (∃ (d : List Byte) (e : GoError) (c : Console),
      (scriptedBucket.Get "k" (getTimes scriptedBucket "k" (2 * 1 + 1)
        { script := List.replicate 4 (some (GoError.other "timeout")), calls := 0 })).1
          = (d, some e) ∧
      recoverableBucket.Get toyQuote scriptedBucket "k"
          ({ script := List.replicate 4 (some (GoError.other "timeout")), calls := 0 },
            { out := [], stdin := [("y\n", none)] ++ ("n\n", none) :: [] }) =
        (([], some (GoError.getFailed "k" e)),
          (getTimes scriptedBucket "k" (2 * (1 + 1))
            { script := List.replicate 4 (some (GoError.other "timeout")), calls := 0 }, c)) ∧
      (GoError.getFailed "k" e).Error toyQuote = "Get(" ++ toyQuote "k" ++ "): "
        ++ e.Error toyQuote ∧
      c.stdin = [] ∧
      c.out.count (Event.stderr "--> Retry? [Y/n]: ") =
        ([] : List Event).count (Event.stderr "--> Retry? [Y/n]: ") + (1 + 1) ∧
      c.out.count (Event.sleep 5) = ([] : List Event).count (Event.sleep 5) + (1 + 1)) :=
  ⟨(recoverableBucket_affirm_k_times toyQuote scriptedBucket "k" [1] [("y\n", none)] "n\n" none
      [] (by decide) (by decide)
      { script := List.replicate 4 (some (GoError.other "timeout")), calls := 0 } []).1
      (by
        intro i hi
        simp only [List.length_singleton] at hi
        interval_cases i <;> exact ⟨_, rfl⟩),
   (recoverableBucket_affirm_k_times toyQuote scriptedBucket "k" [1] [("y\n", none)] "n\n" none
      [] (by decide) (by decide)
      { script := List.replicate 4 (some (GoError.other "timeout")), calls := 0 } []).2
      (by
        intro i hi
        simp only [List.length_singleton] at hi
        interval_cases i <;> exact ⟨_, _, rfl, by decide⟩)⟩

/-! ## Writer: after `Close`, and `Size` -/

theorem Writer.Close_closed {σ : Type} (B : Bucket σ) (L : Lib) (w : Writer) (s : σ)
    (w1 : Writer) (s1 : σ) (h : Writer.Close B L w s = (none, w1, s1)) :
    w1.err = some GoError.alreadyClosed ∧
    s1 = (B.Put "meta"
        (L.Marshal { Version := Version, Boxes := (Writer.flush B L w s).2.1.boxes })
        (Writer.flush B L w s).2.2).2 := by
  unfold Writer.Close at h
  cases he : w.err with
  | some e =>
    rw [he] at h
    simp at h
  | none =>
    rw [he] at h
    simp only at h
    rcases hfl : Writer.flush B L w s with ⟨e1, w2, s2⟩
    rw [hfl] at h
    cases e1 with
    | some e =>
      simp at h
    | none =>
      simp only at h
      rcases hput : B.Put "meta" (L.Marshal { Version := Version, Boxes := w2.boxes }) s2
        with ⟨e2, s3⟩
      rw [hput] at h
      cases e2 with
      | some e => simp at h
      | none =>
        simp only [Prod.mk.injEq, true_and] at h
        obtain ⟨hw, hs⟩ := h
        subst hw hs
        exact ⟨rfl, rfl⟩

/-- C11. After `Close` has returned `nil` (having put the manifest under
`"meta"`, once), every call of every later sequence of `Write` and `Close`
calls, a `Write` of the empty slice included, returns `n = 0` and the error
"already closed", and leaves the writer and the store as they were: no store
operation is made, so the manifest is written exactly once. -/
theorem Writer_closed_stays_closed {σ : Type} (B : Bucket σ) (L : Lib) (fuel : Nat)
    (w : Writer) (s : σ) (w1 : Writer) (s1 : σ)
    (h : Writer.Close B L w s = (none, w1, s1)) (cs : List WriterCall) :
    s1 = (B.Put "meta"
      (L.Marshal { Version := Version, Boxes := (Writer.flush B L w s).2.1.boxes })
      (Writer.flush B L w s).2.2).2 ∧
    Writer.calls B L fuel cs w1 s1 =
      some (cs.map (fun _ => (0, some GoError.alreadyClosed)), w1, s1) ∧
    Writer.Write B L fuel w1 s1 [] = some (0, some GoError.alreadyClosed, w1, s1) ∧
    (∀ p, Writer.Write B L fuel w1 s1 p = some (0, some GoError.alreadyClosed, w1, s1)) ∧
    Writer.Close B L w1 s1 = (some GoError.alreadyClosed, w1, s1) := by
  obtain ⟨he, hs⟩ := Writer.Close_closed B L w s w1 s1 h
  have hW : ∀ p, Writer.Write B L fuel w1 s1 p
      = some (0, some GoError.alreadyClosed, w1, s1) := by
    intro p
    simp [Writer.Write, he]
  refine ⟨hs, Writer.calls_sticky B L fuel cs w1 s1 _ he, hW [], hW, ?_⟩
  simp [Writer.Close, he]

theorem Writer_closed_stays_closed_witness :
    [("meta", toyLib.Marshal { Version := 0, Boxes := [] })] =
      (logBucket.Put "meta"
        (toyLib.Marshal
          { Version := Version,
            Boxes := (Writer.flush logBucket toyLib (NewWriter 2) []).2.1.boxes })
        (Writer.flush logBucket toyLib (NewWriter 2) []).2.2).2 ∧
    Writer.calls logBucket toyLib 5 [.Close, .Write [], .Write [7]]
        { NewWriter 2 with err := some GoError.alreadyClosed }
        [("meta", toyLib.Marshal { Version := 0, Boxes := [] })] =
      some (([.Close, .Write [], .Write [7]] : List WriterCall).map
          (fun _ => (0, some GoError.alreadyClosed)),
        { NewWriter 2 with err := some GoError.alreadyClosed },
        [("meta", toyLib.Marshal { Version := 0, Boxes := [] })]) :=
  ⟨(Writer_closed_stays_closed logBucket toyLib 5 (NewWriter 2) []
      { NewWriter 2 with err := some GoError.alreadyClosed }
      [("meta", toyLib.Marshal { Version := 0, Boxes := [] })] (by decide)
      [.Close, .Write [], .Write [7]]).1,
   (Writer_closed_stays_closed logBucket toyLib 5 (NewWriter 2) []
      { NewWriter 2 with err := some GoError.alreadyClosed }
      [("meta", toyLib.Marshal { Version := 0, Boxes := [] })] (by decide)
      [.Close, .Write [], .Write [7]]).2.1⟩

theorem int64.add_add (a : int64) (n m : Nat) : (a.add n).add m = a.add (n + m) := by
  apply Subtype.ext
  simp only [int64.add]
  push_cast
  omega

theorem int64.zero_add_val (n : Nat) (h : n < 2 ^ 63) : ((int64.zero.add n).val : Int) = n := by
  have h2 : (n : Int) < 9223372036854775808 := by
    have : (2 : Nat) ^ 63 = 9223372036854775808 := by norm_num
    omega
  simp only [int64.add, int64.zero]
  omega

theorem Writer.flush_total {σ : Type} (B : Bucket σ) (L : Lib) (w : Writer) (s : σ) :
    (Writer.flush B L w s).2.1.total = w.total := by
  unfold Writer.flush
  split
  · rfl
  · split <;> rfl

theorem Writer.writeLoop_total {σ : Type} (B : Bucket σ) (L : Lib) (fuel : Nat) :
    ∀ (w : Writer) (s : σ) (p : List Byte) (n n1 : Nat) (e : Option GoError) (w1 : Writer)
      (s1 : σ), Writer.writeLoop B L fuel w s p n = some (n1, e, w1, s1) →
      w1.total = w.total := by
  induction fuel with
  | zero => intro w s p n n1 e w1 s1 h; simp [Writer.writeLoop] at h
  | succ fuel ih =>
    intro w s p n n1 e w1 s1 h
    unfold Writer.writeLoop at h
    split at h
    · have hft := Writer.flush_total B L (w.fillBuf p).1 s
      split at h
      · rename_i err w2 s2 hfl
        rw [hfl] at hft
        simp only [Option.some.injEq, Prod.mk.injEq] at h
        obtain ⟨_, _, hw, _⟩ := h
        rw [← hw]
        exact hft
      · rename_i w2 s2 hfl
        rw [hfl] at hft
        have := ih _ _ _ _ _ _ _ _ h
        rw [this]
        exact hft
    · simp only [Option.some.injEq, Prod.mk.injEq] at h
      obtain ⟨_, _, hw, _⟩ := h
      rw [← hw]
      rfl

theorem Writer.Write_size {σ : Type} (B : Bucket σ) (L : Lib) (fuel : Nat) (w : Writer) (s : σ)
    (p : List Byte) (n : Nat) (e : Option GoError) (w1 : Writer) (s1 : σ)
    (h : Writer.Write B L fuel w s p = some (n, e, w1, s1)) : w1.total = w.total.add n := by
  unfold Writer.Write at h
  split at h
  · simp only [Option.some.injEq, Prod.mk.injEq] at h
    obtain ⟨hn, _, hw, _⟩ := h
    rw [← hw, ← hn, int64.add_zero]
  · split at h
    · simp at h
    · rename_i n2 e2 w2 s2 hl
      simp only [Option.some.injEq, Prod.mk.injEq] at h
      obtain ⟨hn, _, hw, _⟩ := h
      rw [← hw, ← hn]
      show w2.total.add n2 = w.total.add n2
      rw [Writer.writeLoop_total B L fuel _ _ _ _ _ _ _ _ hl]

theorem Writer.Close_total {σ : Type} (B : Bucket σ) (L : Lib) (w : Writer) (s : σ) :
    (Writer.Close B L w s).2.1.total = w.total := by
  have hft := Writer.flush_total B L w s
  unfold Writer.Close
  split
  · rfl
  · split
    · rename_i hfl
      rw [hfl] at hft
      exact hft
    · rename_i hfl
      rw [hfl] at hft
      split <;> exact hft

theorem Writer.calls_size {σ : Type} (B : Bucket σ) (L : Lib) (fuel : Nat)
    (cs : List WriterCall) :
    ∀ (w : Writer) (s : σ) (rs : List (Nat × Option GoError)) (w1 : Writer) (s1 : σ),
      Writer.calls B L fuel cs w s = some (rs, w1, s1) →
      w1.total = w.total.add (rs.map Prod.fst).sum := by
  induction cs with
  | nil =>
    intro w s rs w1 s1 h
    simp only [Writer.calls, Option.some.injEq, Prod.mk.injEq] at h
    obtain ⟨rfl, rfl, _⟩ := h
    simp [int64.add_zero]
  | cons c cs ih =>
    intro w s rs w1 s1 h
    unfold Writer.calls at h
    split at h
    · simp at h
    · rename_i n e w2 s2 hc
      split at h
      · simp at h
      · rename_i rs3 w3 s3 hA
        simp only [Option.some.injEq, Prod.mk.injEq] at h
        obtain ⟨rfl, rfl, _⟩ := h
        have h2 : w2.total = w.total.add n := by
          cases c with
          | Write p => exact Writer.Write_size B L fuel w s p n e w2 s2 hc
          | Close =>
            simp only [Writer.call, Option.some.injEq, Prod.mk.injEq] at hc
            obtain ⟨hn, _, hw, _⟩ := hc
            rw [← hw, ← hn, int64.add_zero]
            exact Writer.Close_total B L w s
        rw [ih w2 s2 rs3 w3 s3 hA, h2, int64.add_add]
        simp

theorem Writer.writeAll_eq_calls {σ : Type} (B : Bucket σ) (L : Lib) (fuel : Nat)
    (ps : List (List Byte)) (w : Writer) (s : σ) :
    Writer.writeAll B L fuel w s ps = Writer.calls B L fuel (ps.map WriterCall.Write) w s := by
  induction ps generalizing w s with
  | nil => rfl
  | cons p ps ih =>
    simp only [Writer.writeAll, List.map_cons, Writer.calls, Writer.call]
    cases Writer.Write B L fuel w s p with
    | none => rfl
    | some r =>
      obtain ⟨n, e, w1, s1⟩ := r
      simp only [ih]

/-- C12. On a new writer, after any sequence of `Write` and `Close` calls,
`Size()` is the sum of the values `n` that the `Write` calls have returned, as
an `int64`: the sum itself whenever it is below `2^63`. With `boxSize ≥ 1`
over a store whose `Put` never fails, every `Write(p)` returns `(len(p), nil)`,
so `Size()` is then the number of bytes passed to `Write`. -/
theorem Writer_Size_is_sum {σ : Type} (B : Bucket σ) (L : Lib) (fuel boxSize : Nat) (s0 : σ) :
    (∀ cs rs w s1, Writer.calls B L fuel cs (NewWriter boxSize) s0 = some (rs, w, s1) →
      w.Size = int64.zero.add (rs.map Prod.fst).sum ∧
      ((rs.map Prod.fst).sum < 2 ^ 63 → (w.Size.val : Int) = (rs.map Prod.fst).sum)) ∧
    ((∀ k v s, (B.Put k v s).1 = none) → 1 ≤ boxSize →
      ∀ ps : List (List Byte), (∀ p ∈ ps, p.length + 2 ≤ fuel) →
      ∃ w s1,
        Writer.writeAll B L fuel (NewWriter boxSize) s0 ps =
          some (ps.map (fun p => (p.length, none)), w, s1) ∧
        w.Size = int64.zero.add (ps.map List.length).sum ∧
        ((ps.map List.length).sum < 2 ^ 63 →
          (w.Size.val : Int) = (ps.map List.length).sum)) := by
  constructor
  · intro cs rs w s1 h
    have hsz : w.Size = int64.zero.add (rs.map Prod.fst).sum :=
      Writer.calls_size B L fuel cs (NewWriter boxSize) s0 rs w s1 h
    refine ⟨hsz, fun hlt => ?_⟩
    rw [hsz]
    exact int64.zero_add_val _ hlt
  · intro hok hbs ps hfuel
    obtain ⟨rs, w, s1, hA, he⟩ :=
      Writer.writeAll_total B L boxSize s0 hok hbs fuel ps (NewWriter boxSize) s0 []
        (NewWriter_holds L boxSize) rfl (fun _ => rfl) hfuel
    obtain ⟨_, _, _, _, _, hrs⟩ :=
      Writer.writeAll_spec B L boxSize s0 fuel ps (NewWriter boxSize) s0 [] rs w s1
        (NewWriter_holds L boxSize) rfl (fun _ => rfl) hA he
    subst hrs
    have hsz : w.Size = int64.zero.add (ps.map List.length).sum := by
      have := Writer.calls_size B L fuel (ps.map WriterCall.Write) (NewWriter boxSize) s0 _ w s1
        (by rw [← Writer.writeAll_eq_calls]; exact hA)
      rw [List.map_map] at this
      exact this
    refine ⟨w, s1, hA, hsz, fun hlt => ?_⟩
    rw [hsz]
    exact int64.zero_add_val _ hlt

theorem Writer_Size_is_sum_witness :
    (Writer.Size
        { err := none, boxes := [toySum [1, 2]], buf := [3, 2], n := 1,
          total := int64.zero.add 3 }
        = int64.zero.add ([((3 : Nat), (none : Option GoError)), (0, none)].map Prod.fst).sum ∧
      (([((3 : Nat), (none : Option GoError)), (0, none)].map Prod.fst).sum < 2 ^ 63 →
        ((Writer.Size
            { err := none, boxes := [toySum [1, 2]], buf := [3, 2], n := 1,
              total := int64.zero.add 3 }).val : Int) =
          ([((3 : Nat), (none : Option GoError)), (0, none)].map Prod.fst).sum)) ∧
    (∃ w s1,
      Writer.writeAll logBucket toyLib 5 (NewWriter 2) [] [[1, 2, 3], []] =
        some ([[1, 2, 3], []].map (fun p => (p.length, none)), w, s1) ∧
      w.Size = int64.zero.add ([[1, 2, 3], ([] : List Byte)].map List.length).sum ∧
      (([[1, 2, 3], ([] : List Byte)].map List.length).sum < 2 ^ 63 →
        (w.Size.val : Int) = ([[1, 2, 3], ([] : List Byte)].map List.length).sum)) :=
  ⟨(Writer_Size_is_sum logBucket toyLib 5 2 []).1 [.Write [1, 2, 3], .Write []]
      [(3, none), (0, none)]
      { err := none, boxes := [toySum [1, 2]], buf := [3, 2], n := 1,
        total := int64.zero.add 3 }
      [("00000", [1, 2])] (by decide),
   (Writer_Size_is_sum logBucket toyLib 5 2 []).2 logBucket_never_fails (by decide)
      [[1, 2, 3], []] (by decide)⟩

/-! ## Sequence keys: width -/

theorem toDigitsCore_value_lt (fuel : Nat) :
    ∀ (n : Nat) (ds : List Char), n < fuel →
      ds.length < (Nat.toDigitsCore 10 fuel n ds).length ∧
      n < 10 ^ ((Nat.toDigitsCore 10 fuel n ds).length - ds.length) := by
  induction fuel with
  | zero => intro n ds h; omega
  | succ fuel ih =>
    intro n ds h
    unfold Nat.toDigitsCore
    simp only
    split
    · rename_i h0
      simp only [List.length_cons]
      refine ⟨by omega, ?_⟩
      rw [show ds.length + 1 - ds.length = 1 by omega]
      omega
    · rename_i h0
      obtain ⟨h1, h2⟩ := ih (n / 10) (Nat.digitChar (n % 10) :: ds) (by omega)
      simp only [List.length_cons] at h1 h2
      refine ⟨by omega, ?_⟩
      have hexp : (Nat.toDigitsCore 10 fuel (n / 10) (Nat.digitChar (n % 10) :: ds)).length
          - ds.length
          = ((Nat.toDigitsCore 10 fuel (n / 10) (Nat.digitChar (n % 10) :: ds)).length
            - (ds.length + 1)) + 1 := by omega
      rw [hexp, Nat.pow_succ]
      omega

theorem Sprintf05d_length (i : Nat) :
    (Sprintf05d i).length = max 5 (Nat.toDigits 10 i).length := by
  simp only [Sprintf05d, String.length, List.length_append, List.length_replicate]
  omega

/-- C13, as the claim states it, fails: the sequence key of the chunk index
100000 is `"100000"`, of 6 characters. -/
theorem Sprintf05d_six_characters :
    Sprintf05d 100000 = "100000" ∧ ¬ ((Sprintf05d 100000).length = 5) := by
  decide

/-- C13, amended. For every chunk index `i`, `Writer.flush` puts chunk `i` (the
chunk put when `i` chunks have been put) and `Reader.fill` fetches chunk `i`
under the same key: the decimal digits of `i`, padded on the left with zeros to
at least 5 characters. The key has exactly 5 characters for `i < 100000`; from
100000 on it is the digits alone, more than 5 characters. -/
theorem sequence_key_of_chunk {σ : Type} (B : Bucket σ) (L : Lib) (i : Nat) :
    (∀ (w : Writer) (s : σ), w.boxes.length = i → w.n ≠ 0 →
      (Writer.flush B L w s).2.2 = (B.Put (Sprintf05d i) (w.buf.take w.n) s).2 ∧
      ((Writer.flush B L w s).1 = none → (Writer.flush B L w s).2.1.boxes.length = i + 1)) ∧
    (∀ (r : Reader) (s : σ), r.bn = i → r.bn ≠ r.boxes.length →
      (Reader.fill B L r s).2.2 = (B.Get (Sprintf05d i) s).2 ∧
      ((Reader.fill B L r s).1 = .ret none →
        (Reader.fill B L r s).2.1.bn = i + 1 ∧
        (Reader.fill B L r s).2.1.buf = (B.Get (Sprintf05d i) s).1.1)) ∧
    (Sprintf05d i).data =
      List.replicate (5 - (Nat.toDigits 10 i).length) '0' ++ Nat.toDigits 10 i ∧
    digitsVal 0 (Nat.toDigits 10 i) = i ∧
    5 ≤ (Sprintf05d i).length ∧
    (i < 100000 → (Sprintf05d i).length = 5) ∧
    (100000 ≤ i → (Sprintf05d i).data = Nat.toDigits 10 i ∧ 5 < (Sprintf05d i).length) := by
  refine ⟨?_, ?_, rfl, ?_, ?_, ?_, ?_⟩
  · intro w s hi hn
    subst hi
    unfold Writer.flush
    rw [if_neg hn]
    rcases B.Put (Sprintf05d w.boxes.length) (w.buf.take w.n) s with ⟨e, s1⟩
    cases e with
    | some err => exact ⟨rfl, fun h => by simp at h⟩
    | none => exact ⟨rfl, fun _ => by simp⟩
  · intro r s hi hb
    subst hi
    unfold Reader.fill
    rw [if_neg hb]
    rcases B.Get (Sprintf05d r.bn) s with ⟨⟨data, e⟩, s1⟩
    cases e with
    | some err => exact ⟨rfl, fun h => by simp at h⟩
    | none =>
      simp only
      cases r.boxes[r.bn]? with
      | none => exact ⟨rfl, fun h => by simp at h⟩
      | some h =>
        simp only
        split
        · exact ⟨rfl, fun h => by simp at h⟩
        · exact ⟨rfl, fun _ => ⟨rfl, rfl⟩⟩
  · rw [Nat.toDigits, digitsVal_toDigitsCore _ _ _ (Nat.lt_succ_self i)]
    rfl
  · rw [Sprintf05d_length]
    omega
  · intro hi
    have := Nat.toDigitsCore_length 10 (by decide) (i + 1) i 5 (by norm_num; exact hi)
      (by decide)
    rw [Sprintf05d_length]
    have hd : (Nat.toDigits 10 i).length = (Nat.toDigitsCore 10 (i + 1) i []).length := rfl
    omega
  · intro hi
    obtain ⟨_, h2⟩ := toDigitsCore_value_lt (i + 1) i [] (Nat.lt_succ_self i)
    have hd : (Nat.toDigits 10 i).length = (Nat.toDigitsCore 10 (i + 1) i []).length := rfl
    have hlen : 5 < (Nat.toDigits 10 i).length := by
      by_contra hle
      have hle2 : (Nat.toDigitsCore 10 (i + 1) i []).length ≤ 5 := by omega
      have : 10 ^ ((Nat.toDigitsCore 10 (i + 1) i []).length - ([] : List Char).length)
          ≤ 10 ^ 5 := Nat.pow_le_pow_right (by decide) (by simp; exact hle2)
      have h5 : (10 : Nat) ^ 5 = 100000 := by norm_num
      omega
    refine ⟨?_, by rw [Sprintf05d_length]; omega⟩
    simp only [Sprintf05d]
    rw [show 5 - (Nat.toDigits 10 i).length = 0 by omega]
    rfl

theorem sequence_key_of_chunk_witness :
    ((Writer.flush logBucket toyLib
        { err := none, boxes := [toySum [1, 2]], buf := [3, 2], n := 1, total := int64.zero }
        [("00000", [1, 2])]).2.2 =
      (logBucket.Put (Sprintf05d 1) [3] [("00000", [1, 2])]).2) ∧
    (Sprintf05d 1).length = 5 ∧
    5 < (Sprintf05d 123456).length :=
  ⟨((sequence_key_of_chunk logBucket toyLib 1).1
      { err := none, boxes := [toySum [1, 2]], buf := [3, 2], n := 1, total := int64.zero }
      [("00000", [1, 2])] rfl (by decide)).1,
   (sequence_key_of_chunk logBucket toyLib 1).2.2.2.2.2.1 (by decide),
   ((sequence_key_of_chunk logBucket toyLib 123456).2.2.2.2.2.2 (by decide)).2⟩

/-! ## The manifest as JSON -/

/-- C14, as the claim states it, fails: with `json.Marshal` as package
`encoding/json` defines it, a writer that has put one chunk stores under
`"meta"` an object whose `Boxes` holds, for the chunk, a JSON array of 32
numbers, not a string; a writer that has put no chunk stores `null` for
`Boxes`. -/
theorem Writer_Close_meta_json_numbers :
    (writeStream logBucket toyJsonLib 5 2 [] [[1, 2]]).map (fun r => r.2.2) =
      some [("00000", [1, 2]),
        ("meta", ("\x7b\"Version\":0,\"Boxes\":[[1,2" ++ String.join (List.replicate 30 ",0")
            ++ "]]\x7d").data.map
          (fun c => c.toNat.toUInt8))] ∧
    (writeStream logBucket toyJsonLib 5 2 [] []).map (fun r => r.2.2) =
      some [("meta", ("\x7b\"Version\":0,\"Boxes\":null\x7d").data.map (fun c => c.toNat.toUInt8))] := by
  decide

/-- C14, amended. With `json.Marshal` as package `encoding/json` defines it on
`Metadata`, the bytes a successful `Close` stores under `"meta"` are the text
of the JSON object with the members `"Version":0` and `"Boxes"`, in which
`Boxes` is `null` when no chunk was put, and otherwise a JSON array with, for
every chunk in order, the JSON array of the 32 byte values of its SHA-256 as
decimal numbers. -/
theorem Writer_Close_meta_json {σ : Type} (B : Bucket σ) (L : Lib)
    (hL : L.Marshal = jsonMarshal) (fuel boxSize : Nat)
    (s0 : σ) (ps : List (List Byte)) (w : Writer) (s1 : σ)
    (h : writeStream B L fuel boxSize s0 ps = some (none, w, s1)) :
    ∃ chunks : List (List Byte),
      chunks.flatten = ps.flatten ∧
      s1 = applyPuts B
        (chunkPuts 0 chunks ++
          [("meta",
            ("\x7b\"Version\":0,\"Boxes\":"
              ++ (if chunks.isEmpty then "null"
                  else "[" ++ ",".intercalate (chunks.map (fun c =>
                    "[" ++ ",".intercalate ((L.Sum256 c).val.map (fun b => Nat.repr b.toNat))
                      ++ "]")) ++ "]")
              ++ "\x7d").data.map (fun c => c.toNat.toUInt8))]) s0 := by
  unfold writeStream at h
  split at h
  · simp at h
  · rename_i rs w2 s2 hA
    simp only [Option.some.injEq] at h
    have he : w2.err = none := by
      cases hw2 : w2.err with
      | none => rfl
      | some e =>
        rw [Writer.Close, hw2] at h
        simp at h
    obtain ⟨stored, h1, h2, h3, h4, _⟩ :=
      Writer.writeAll_spec B L boxSize s0 fuel ps (NewWriter boxSize) s0 [] rs w2 s2
        (NewWriter_holds L boxSize) rfl (fun _ => rfl) hA he
    have hshape := (Writer.chunks_shape L boxSize w2 stored h1 h4).1
    have hs1 := Writer.Close_spec B L boxSize s0 w2 s2 stored w s1 h1 h2 h
    generalize stored ++ (if w2.n = 0 then [] else [w2.buf.take w2.n]) = chunks
      at hshape hs1
    refine ⟨chunks, ?_, ?_⟩
    · rw [hshape, h3]
      simp [NewWriter]
    · rw [hs1, hL]
      have hjson : jsonMarshal { Version := 0, Boxes := chunks.map L.Sum256 } =
          ("\x7b\"Version\":0,\"Boxes\":"
            ++ (if chunks.isEmpty then "null"
                else "[" ++ ",".intercalate (chunks.map (fun c =>
                  "[" ++ ",".intercalate ((L.Sum256 c).val.map (fun b => Nat.repr b.toNat))
                    ++ "]")) ++ "]")
            ++ "\x7d").data.map (fun c => c.toNat.toUInt8) := by
        unfold jsonMarshal jsonMetadata
        have hv : ("\x7b\"Version\":" ++ (if (0 : Int) < 0 then "-" else "")
            ++ Nat.repr (0 : Int).natAbs ++ ",\"Boxes\":") = "\x7b\"Version\":0,\"Boxes\":" := by
          decide
        have hb : (chunks.map L.Sum256).isEmpty = chunks.isEmpty := by
          cases chunks <;> rfl
        simp only [hv, hb, List.map_map]
        rfl
      rw [hjson]

theorem Writer_Close_meta_json_witness :
    ∃ chunks : List (List Byte),
      chunks.flatten = [[1, 2, 3]].flatten ∧
      [("00000", [1, 2]), ("00001", [3]),
          ("meta", jsonMarshal { Version := 0, Boxes := [toySum [1, 2], toySum [3]] })] =
        applyPuts logBucket
          (chunkPuts 0 chunks ++
            [("meta",
              ("\x7b\"Version\":0,\"Boxes\":"
                ++ (if chunks.isEmpty then "null"
                    else "[" ++ ",".intercalate (chunks.map (fun c =>
                      "[" ++ ",".intercalate
                        ((toyJsonLib.Sum256 c).val.map (fun b => Nat.repr b.toNat))
                        ++ "]")) ++ "]")
                ++ "\x7d").data.map (fun c => c.toNat.toUInt8))]) [] :=
  Writer_Close_meta_json logBucket toyJsonLib rfl 5 2 [] [[1, 2, 3]]
    { err := some GoError.alreadyClosed, boxes := [toySum [1, 2], toySum [3]], buf := [3, 2],
      n := 0, total := int64.zero.add 3 }
    [("00000", [1, 2]), ("00001", [3]),
      ("meta", jsonMarshal { Version := 0, Boxes := [toySum [1, 2], toySum [3]] })]
    rfl

/-! ## Classification of errors -/

/-- C21. `isRecoverable(err)` is false exactly when `err` is `ErrAuth` or
`IsNotExist(err)` holds. For an `*s3.ServiceError`, `IsNotExist` holds exactly
when its `Code` is `"NoSuchKey"`; for every other error it is what
`os.IsNotExist` answers. -/
theorem isRecoverable_false_iff (err : GoError) :
    (isRecoverable err = false ↔ (err = GoError.ErrAuth ∨ IsNotExist err = true)) ∧
    (∀ Code Message, IsNotExist (GoError.serviceError Code Message) = true ↔
      Code = "NoSuchKey") ∧
    ((∀ Code Message, err ≠ GoError.serviceError Code Message) →
      IsNotExist err = osIsNotExist err) := by
  refine ⟨?_, ?_, ?_⟩
  · unfold isRecoverable
    by_cases h1 : IsNotExist err = true
    · simp [h1]
    · by_cases h2 : err = GoError.ErrAuth
      · simp [h1, h2]
      · simp [h1, h2]
  · intro Code Message
    simp [IsNotExist]
  · intro h
    cases err with
    | serviceError Code Message => exact absurd rfl (h Code Message)
    | _ => rfl

theorem isRecoverable_false_iff_witness :
    IsNotExist (GoError.osError true "no such file") =
      osIsNotExist (GoError.osError true "no such file") :=
  (isRecoverable_false_iff (GoError.osError true "no such file")).2.2
    (fun _ _ h => by cases h)

/-! ## The remote backend: keys under a prefix -/

theorem strings.HasPrefix_append (p k : String) : strings.HasPrefix (p ++ k) p = true := by
  simp [strings.HasPrefix, List.isPrefixOf_iff_prefix]

theorem strings.TrimPrefix_append (p k : String) : strings.TrimPrefix (p ++ k) p = k := by
  simp [strings.TrimPrefix, strings.HasPrefix_append]

theorem strings.HasSuffix_append (s suffix : String) :
    strings.HasSuffix (s ++ suffix) suffix = true := by
  simp [strings.HasSuffix, List.isSuffixOf_iff_suffix]

theorem strings.TrimSuffix_append (s suffix : String) :
    strings.TrimSuffix (s ++ suffix) suffix = s := by
  simp [strings.TrimSuffix, strings.HasSuffix_append]

/-- C23. Nesting on the remote backend: for every `s3Bucket` `b`, every child
name `c` that does not end in `/` and every key `k`,
`b.Descend(c).Abs(k) = b.Abs(c + "/" + k)`; `Put` and `Get` of `k` through the
child are the calls of `Put` and `Get` of `c/k` through the parent, and both are
the call of the `*s3.Bucket` at the key `prefix + c + "/" + k`. So on a service
whose `Get` returns what a successful `Put` stored under the key, a successful
`Put` of `v` at `k` through the child followed by a `Get` of `c/k` through the
parent returns `v`, and so does a `Put` through the parent followed by a `Get`
through the child. -/
theorem s3Bucket_Descend_Abs {ρ : Type} (b : s3Bucket ρ) (c k : String) (data : List Byte)
    (r : ρ) (hc : strings.HasSuffix c "/" = false) :
    (b.Descend c).Abs k = b.Abs (c ++ "/" ++ k) ∧
    (b.Descend c).Put k data r = b.Put (c ++ "/" ++ k) data r ∧
    (b.Descend c).Get k r = b.Get (c ++ "/" ++ k) r ∧
    (b.Descend c).Put k data r = b.bucket.Put (b.prefix_ ++ (c ++ "/" ++ k)) data r ∧
    (b.Descend c).Get k r = b.bucket.Get (b.prefix_ ++ (c ++ "/" ++ k)) r ∧
    b.Put (c ++ "/" ++ k) data r = b.bucket.Put (b.prefix_ ++ (c ++ "/" ++ k)) data r ∧
    b.Get (c ++ "/" ++ k) r = b.bucket.Get (b.prefix_ ++ (c ++ "/" ++ k)) r ∧
    ((∀ key v r0, (b.bucket.Put key v r0).1 = none →
        (b.bucket.Get key (b.bucket.Put key v r0).2).1 = (v, none)) →
      ((b.Descend c).Put k data r).1 = none →
      (b.Get (c ++ "/" ++ k) ((b.Descend c).Put k data r).2).1 = (data, none) ∧
      ((b.Descend c).Get k (b.Put (c ++ "/" ++ k) data r).2).1 = (data, none)) := by
  have habs : (b.Descend c).Abs k = b.Abs (c ++ "/" ++ k) := by
    simp [s3Bucket.Descend, s3Bucket.Abs, hc, String.append_assoc]
  have hput : ∀ r0, (b.Descend c).Put k data r0 = b.Put (c ++ "/" ++ k) data r0 := by
    intro r0
    show (b.Descend c).bucket.Put ((b.Descend c).Abs k) data r0 = _
    rw [habs]; rfl
  have hget : ∀ r0, (b.Descend c).Get k r0 = b.Get (c ++ "/" ++ k) r0 := by
    intro r0
    show (b.Descend c).bucket.Get ((b.Descend c).Abs k) r0 = _
    rw [habs]; rfl
  refine ⟨habs, hput r, hget r, ?_, ?_, rfl, rfl, ?_⟩
  · rw [hput]; rfl
  · rw [hget]; rfl
  · intro hlaw hok
    rw [hput] at hok
    rw [hput, hget]
    exact ⟨hlaw _ _ _ hok, hlaw _ _ _ hok⟩

theorem s3Bucket_Descend_Abs_witness :
    ((NewS3Bucket toyS3).Descend "photos").Abs "k" = (NewS3Bucket toyS3).Abs ("photos" ++ "/" ++ "k") ∧
    ((NewS3Bucket toyS3).Descend "photos").Put "k" [1] [] =
      (NewS3Bucket toyS3).Put ("photos" ++ "/" ++ "k") [1] [] ∧
    ((NewS3Bucket toyS3).Descend "photos").Get "k" [] =
      (NewS3Bucket toyS3).Get ("photos" ++ "/" ++ "k") [] ∧
    ((NewS3Bucket toyS3).Descend "photos").Put "k" [1] [] =
      toyS3.Put ("" ++ ("photos" ++ "/" ++ "k")) [1] [] ∧
    ((NewS3Bucket toyS3).Get ("photos" ++ "/" ++ "k")
      (((NewS3Bucket toyS3).Descend "photos").Put "k" [1] []).2).1 = ([1], none) :=
  have h := s3Bucket_Descend_Abs (NewS3Bucket toyS3) "photos" "k" [1] [] (by decide)
  ⟨h.1, h.2.1, h.2.2.1, h.2.2.2.1,
    (h.2.2.2.2.2.2.2 (fun key v r0 _ => by simp [NewS3Bucket, toyS3, List.lookup]) rfl).1⟩

/-- C27. `s3Bucket.List` returns an error exactly when the listing call fails or
the service reports the result as truncated. When it returns no error, the keys
are the listed content keys with the bucket prefix trimmed and the children are
the listed common prefixes with the trailing `/` and then the bucket prefix
trimmed, in the order of the listing; trimming takes `prefix + k` to `k` and
`prefix + c + "/"` to `c`. -/
theorem s3Bucket_List_result {ρ : Type} (quote : String → String) (b : s3Bucket ρ) (r : ρ) :
    ((s3Bucket.List quote b r).1.2.2 ≠ none ↔
      ((∃ err, (b.bucket.List b.prefix_ "/" r).1 = .error err) ∨
        (∃ list, (b.bucket.List b.prefix_ "/" r).1 = .ok list ∧ list.IsTruncated = true))) ∧
    (∀ list, (b.bucket.List b.prefix_ "/" r).1 = .ok list → list.IsTruncated = false →
      (s3Bucket.List quote b r).1 =
        (list.Contents.map (fun k => strings.TrimPrefix k b.prefix_),
          list.CommonPrefixes.map
            (fun d => strings.TrimPrefix (strings.TrimSuffix d "/") b.prefix_),
          none)) ∧
    (∀ k, strings.TrimPrefix (b.prefix_ ++ k) b.prefix_ = k) ∧
    (∀ c, strings.TrimPrefix (strings.TrimSuffix (b.prefix_ ++ c ++ "/") "/") b.prefix_ = c) := by
  refine ⟨?_, ?_, fun k => strings.TrimPrefix_append _ _, fun c => ?_⟩
  · unfold s3Bucket.List
    rcases h : b.bucket.List b.prefix_ "/" r with ⟨res, r1⟩
    cases res with
    | error err => simp
    | ok list => cases ht : list.IsTruncated <;> simp [ht]
  · intro list h ht
    unfold s3Bucket.List
    rcases h2 : b.bucket.List b.prefix_ "/" r with ⟨res, r1⟩
    rw [h2] at h
    simp only at h
    subst h
    simp [ht]
  · rw [strings.TrimSuffix_append, strings.TrimPrefix_append]

theorem s3Bucket_List_result_witness :
    (s3Bucket.List toyQuote ((NewS3Bucket toyS3).Descend "a") [("a/x", [1]), ("b", [2])]).1 =
      (["x"], [], none) :=
  (s3Bucket_List_result toyQuote ((NewS3Bucket toyS3).Descend "a")
    [("a/x", [1]), ("b", [2])]).2.1 _ rfl rfl

/-! ## The decorators leave keys and structure alone -/

theorem recoverableBucket.putLoop_calls {σ : Type} (quote : String → String)
    (bucket : Bucket σ) (key : String) (data : List Byte)
    (stdin : List (String × Option GoError)) (s : σ) (out : List Event) :
    ∃ n, 1 ≤ n ∧
      (recoverableBucket.putLoop quote bucket key data stdin s out).2.1 =
        putTimes bucket key data n s := by
  induction stdin generalizing s out with
  | nil =>
    rcases h1 : (bucket.Put key data s).1 with _ | err
    · exact ⟨1, le_refl _, by rw [recoverableBucket.putLoop_first quote bucket key data _ s out h1]⟩
    · rcases h2 : (bucket.Put key data (putTimes bucket key data 1 s)).1 with _ | err2
      · exact ⟨2, by omega,
          by rw [recoverableBucket.putLoop_second quote bucket key data _ s out err h1 h2]⟩
      · exact ⟨2, by omega,
          by rw [recoverableBucket.putLoop_eof quote bucket key data s out err err2 h1 h2]⟩
  | cons a rest ih =>
    obtain ⟨line, rerr⟩ := a
    rcases h1 : (bucket.Put key data s).1 with _ | err
    · exact ⟨1, le_refl _, by rw [recoverableBucket.putLoop_first quote bucket key data _ s out h1]⟩
    · rcases h2 : (bucket.Put key data (putTimes bucket key data 1 s)).1 with _ | err2
      · exact ⟨2, by omega,
          by rw [recoverableBucket.putLoop_second quote bucket key data _ s out err h1 h2]⟩
      · cases hr : PromptLogger.Retry line rerr
        · exact ⟨2, by omega,
            by rw [recoverableBucket.putLoop_declined quote bucket key data line rerr rest s out
              err err2 h1 h2 hr]⟩
        · rw [recoverableBucket.putLoop_affirmed quote bucket key data line rerr rest s out
            err err2 h1 h2 hr]
          obtain ⟨n, hn, hst⟩ := ih (putTimes bucket key data 2 s)
            (out ++ recoverableBucket.retrying quote "Put" key err
              ++ recoverableBucket.prompting quote "Put" key err2)
          exact ⟨2 + n, by omega, by rw [hst, putTimes_add]⟩

theorem recoverableBucket.getLoop_calls {σ : Type} (quote : String → String)
    (bucket : Bucket σ) (key : String)
    (stdin : List (String × Option GoError)) (s : σ) (out : List Event) :
    ∃ n, 1 ≤ n ∧
      (recoverableBucket.getLoop quote bucket key stdin s out).2.1 =
        getTimes bucket key n s := by
  induction stdin generalizing s out with
  | nil =>
    rcases h1 : (bucket.Get key s).1 with ⟨d, _ | err⟩
    · exact ⟨1, le_refl _, by rw [recoverableBucket.getLoop_first quote bucket key _ s out d h1]⟩
    · cases hc : isRecoverable err
      · exact ⟨1, le_refl _,
          by rw [recoverableBucket.getLoop_surface quote bucket key _ s out d err h1 hc]⟩
      · rcases h2 : (bucket.Get key (getTimes bucket key 1 s)).1 with ⟨d2, _ | err2⟩
        · exact ⟨2, by omega,
            by rw [recoverableBucket.getLoop_second quote bucket key _ s out d d2 err h1 hc h2]⟩
        · exact ⟨2, by omega,
            by rw [recoverableBucket.getLoop_eof quote bucket key s out d d2 err err2 h1 hc h2]⟩
  | cons a rest ih =>
    obtain ⟨line, rerr⟩ := a
    rcases h1 : (bucket.Get key s).1 with ⟨d, _ | err⟩
    · exact ⟨1, le_refl _, by rw [recoverableBucket.getLoop_first quote bucket key _ s out d h1]⟩
    · cases hc : isRecoverable err
      · exact ⟨1, le_refl _,
          by rw [recoverableBucket.getLoop_surface quote bucket key _ s out d err h1 hc]⟩
      · rcases h2 : (bucket.Get key (getTimes bucket key 1 s)).1 with ⟨d2, _ | err2⟩
        · exact ⟨2, by omega,
            by rw [recoverableBucket.getLoop_second quote bucket key _ s out d d2 err h1 hc h2]⟩
        · cases hr : PromptLogger.Retry line rerr
          · exact ⟨2, by omega,
              by rw [recoverableBucket.getLoop_declined quote bucket key line rerr rest s out
                d d2 err err2 h1 hc h2 hr]⟩
          · rw [recoverableBucket.getLoop_affirmed quote bucket key line rerr rest s out
              d d2 err err2 h1 hc h2 hr]
            obtain ⟨n, hn, hst⟩ := ih (getTimes bucket key 2 s)
              (out ++ recoverableBucket.retrying quote "Get" key err
                ++ recoverableBucket.prompting quote "Get" key err2)
            exact ⟨2 + n, by omega, by rw [hst, getTimes_add]⟩

theorem encryptedBucket.Get_state {σ : Type} (sb : Secretbox) (bucket : Bucket σ)
    (privateKey : Key) (key : String) (s : σ × Stream' Nonce) :
    (encryptedBucket.Get sb bucket privateKey key s).2 = ((bucket.Get key s.1).2, s.2) := by
  unfold encryptedBucket.Get
  rcases bucket.Get key s.1 with ⟨⟨box, _ | err⟩, s1⟩
  · simp only
    split
    · rfl
    · split <;> rfl
  · rfl

/-- C22. Both decorators pass `Abs`, `List` and `Destroy` through: the result
is the result of one call of the wrapped bucket, and the rest of the state is
untouched. `Descend(child)` calls the wrapped bucket's `Descend(child)` once and
returns its error, or the same decorator (same secret key, same logger) around
the bucket it returned. `Put` and `Get` call the wrapped bucket with the key
they were given: the encrypting decorator once, the recovering decorator one or
more times. -/
theorem decorators_pass_through {β σ : Type} (sb : Secretbox) (quote : String → String)
    (I : BucketKind β σ) (e : encryptedBucket β) (b : recoverableBucket β)
    (key child : String) (data : List Byte) (s : σ × Stream' Nonce) (t : σ × Console) :
    ((encryptedBucket.kind sb I).Abs e key = I.Abs e.bucket key ∧
      (encryptedBucket.kind sb I).List e s =
        ((I.List e.bucket s.1).1, ((I.List e.bucket s.1).2, s.2)) ∧
      (encryptedBucket.kind sb I).Destroy e s =
        ((I.Destroy e.bucket s.1).1, ((I.Destroy e.bucket s.1).2, s.2)) ∧
      (encryptedBucket.kind sb I).Descend e child s =
        ((I.Descend e.bucket child s.1).1.map
            (fun bb => { bucket := bb, privateKey := e.privateKey }),
          ((I.Descend e.bucket child s.1).2, s.2)) ∧
      (∃ box, ((encryptedBucket.kind sb I).bucket e).Put key data s =
        (((I.bucket e.bucket).Put key box s.1).1,
          (((I.bucket e.bucket).Put key box s.1).2, s.2.tail))) ∧
      (((encryptedBucket.kind sb I).bucket e).Get key s).2 =
        (((I.bucket e.bucket).Get key s.1).2, s.2)) ∧
    ((recoverableBucket.kind quote I).Abs b key = I.Abs b.bucket key ∧
      (recoverableBucket.kind quote I).List b t =
        ((I.List b.bucket t.1).1, ((I.List b.bucket t.1).2, t.2)) ∧
      (recoverableBucket.kind quote I).Destroy b t =
        ((I.Destroy b.bucket t.1).1, ((I.Destroy b.bucket t.1).2, t.2)) ∧
      (recoverableBucket.kind quote I).Descend b child t =
        ((I.Descend b.bucket child t.1).1.map (fun bb => { bucket := bb, log := b.log }),
          ((I.Descend b.bucket child t.1).2, t.2)) ∧
      (∃ n, 1 ≤ n ∧ (((recoverableBucket.kind quote I).bucket b).Put key data t).2.1 =
        putTimes (I.bucket b.bucket) key data n t.1) ∧
      (∃ n, 1 ≤ n ∧ (((recoverableBucket.kind quote I).bucket b).Get key t).2.1 =
        getTimes (I.bucket b.bucket) key n t.1)) := by
  refine ⟨⟨rfl, rfl, rfl, ?_, ⟨_, rfl⟩, ?_⟩, ⟨rfl, rfl, rfl, ?_, ?_, ?_⟩⟩
  · show encryptedBucket.Descend I e child s = _
    unfold encryptedBucket.Descend
    rcases I.Descend e.bucket child s.1 with ⟨_ | _, s1⟩ <;> rfl
  · exact encryptedBucket.Get_state sb _ _ key s
  · show recoverableBucket.Descend I b child t = _
    unfold recoverableBucket.Descend
    rcases I.Descend b.bucket child t.1 with ⟨_ | _, s1⟩ <;> rfl
  · exact recoverableBucket.putLoop_calls quote _ key data t.2.stdin t.1 t.2.out
  · exact recoverableBucket.getLoop_calls quote _ key t.2.stdin t.1 t.2.out

/-! ## Request signing: percent-encoding and the canonical query string -/

theorem lessEq_refl (a : List Char) : lessEq a a = true := by
  induction a with
  | nil => rfl
  | cons x xs ih => simp [lessEq, ih]

theorem lessEq_total (a b : List Char) : lessEq a b = true ∨ lessEq b a = true := by
  induction a generalizing b with
  | nil => left; rfl
  | cons x xs ih =>
    cases b with
    | nil => right; rfl
    | cons y ys =>
      rcases Nat.lt_trichotomy x.toNat y.toNat with h | h | h
      · left; simp [lessEq, h]
      · rcases ih ys with h2 | h2
        · left; simp [lessEq, h, h2]
        · right; simp [lessEq, h, h2]
      · right; simp [lessEq, h]

theorem Char.eq_of_toNat_eq (x y : Char) (h : x.toNat = y.toNat) : x = y := by
  apply Char.ext
  apply UInt32.ext
  exact h

theorem lessEq_antisymm (a b : List Char) (h1 : lessEq a b = true) (h2 : lessEq b a = true) :
    a = b := by
  induction a generalizing b with
  | nil =>
    cases b with
    | nil => rfl
    | cons y ys => simp [lessEq] at h2
  | cons x xs ih =>
    cases b with
    | nil => simp [lessEq] at h1
    | cons y ys =>
      rcases Nat.lt_trichotomy x.toNat y.toNat with h | h | h
      · have : ¬ y.toNat < x.toNat := by omega
        simp [lessEq, h, this] at h2
      · simp only [lessEq, h, lt_irrefl, if_false] at h1 h2
        rw [Char.eq_of_toNat_eq x y h, ih ys h1 h2]
      · have : ¬ x.toNat < y.toNat := by omega
        simp [lessEq, h, this] at h1

theorem lessEq_trans (a b c : List Char) (h1 : lessEq a b = true) (h2 : lessEq b c = true) :
    lessEq a c = true := by
  induction a generalizing b c with
  | nil => rfl
  | cons x xs ih =>
    cases b with
    | nil => simp [lessEq] at h1
    | cons y ys =>
      cases c with
      | nil => simp [lessEq] at h2
      | cons z zs =>
        simp only [lessEq] at h1 h2 ⊢
        by_cases hxy : x.toNat < y.toNat
        · by_cases hyz : y.toNat < z.toNat
          · have : x.toNat < z.toNat := by omega
            simp [this]
          · by_cases hzy : z.toNat < y.toNat
            · simp [hyz, hzy] at h2
            · have : x.toNat < z.toNat := by omega
              simp [this]
        · by_cases hyx : y.toNat < x.toNat
          · simp [hxy, hyx] at h1
          · simp only [hxy, hyx, if_false] at h1
            by_cases hyz : y.toNat < z.toNat
            · have : x.toNat < z.toNat := by omega
              simp [this]
            · by_cases hzy : z.toNat < y.toNat
              · simp [hyz, hzy] at h2
              · simp only [hyz, hzy, if_false] at h2
                have e1 : ¬ x.toNat < z.toNat := by omega
                have e2 : ¬ z.toNat < x.toNat := by omega
                simp only [e1, e2, if_false]
                exact ih ys zs h1 h2

theorem sortStrings_sorted (qs : List String) :
    (sortStrings qs).Sorted (fun a b => lessEq a.data b.data = true) := by
  haveI : IsTotal String (fun a b => lessEq a.data b.data = true) :=
    ⟨fun a b => lessEq_total a.data b.data⟩
  haveI : IsTrans String (fun a b => lessEq a.data b.data = true) :=
    ⟨fun a b c => lessEq_trans a.data b.data c.data⟩
  exact List.sorted_insertionSort _ qs

theorem sortStrings_perm (qs : List String) : (sortStrings qs).Perm qs :=
  List.perm_insertionSort _ qs

theorem sortStrings_congr (qs qs2 : List String) (h : qs.Perm qs2) :
    sortStrings qs = sortStrings qs2 := by
  haveI : IsAntisymm String (fun a b => lessEq a.data b.data = true) :=
    ⟨fun a b h1 h2 => String.ext (lessEq_antisymm a.data b.data h1 h2)⟩
  exact List.eq_of_perm_of_sorted
    (((sortStrings_perm qs).trans h).trans (sortStrings_perm qs2).symm)
    (sortStrings_sorted qs) (sortStrings_sorted qs2)

theorem canonicalQueryString_pairs (m : Values) :
    canonicalQueryString m =
      "&".intercalate (sortStrings
        (m.pairs.map (fun p => uriEncode p.1 true ++ "=" ++ uriEncode p.2 true))) := by
  unfold canonicalQueryString Values.pairs
  congr 2
  induction m with
  | nil => rfl
  | cons kv m ih => simp [List.flatMap_cons, ih]

theorem percentX_length (c : Byte) :
    (percentX c).length = if c.toNat < 16 then 2 else 3 := by
  have hn : c.toNat < 256 := c.val.isLt
  have h : ∀ n : Nat, n < 256 →
      ((Nat.toDigits 16 n).map Char.toUpper).length = if n < 16 then 1 else 2 := by
    intro n hn
    interval_cases n <;> rfl
  unfold percentX
  rw [List.length_cons, h _ hn]
  split <;> rfl

/-- C28 fails on the code. A byte that `uriEncode` does not copy is replaced by
`%` and the hexadecimal digits of its value without padding: three characters
for a byte from 16 on, two characters for a byte below 16. The line feed
becomes `%A`, for both values of `encodeSlash`. -/
theorem uriEncode_percent_digits (encodeSlash : Bool) :
    uriEncode "\n" encodeSlash = "%A" ∧ (uriEncode "\n" encodeSlash).length = 2 ∧
    (∀ c : Byte, uriUnreserved encodeSlash c = false →
      (uriEncodeBytes encodeSlash [c]).length = if c.toNat < 16 then 2 else 3) := by
  refine ⟨by cases encodeSlash <;> decide, by cases encodeSlash <;> decide, ?_⟩
  intro c hc
  simp only [uriEncodeBytes, hc, Bool.false_eq_true, if_false, List.append_nil]
  exact percentX_length c

theorem uriEncode_percent_digits_witness : (uriEncodeBytes true [9]).length = 2 :=
  (uriEncode_percent_digits true).2.2 9 (by decide)

/-- Sorting the parameters as the strings `name=value` sorts them by name when
no name is a proper prefix of another. Without that condition it does not: of
the parameters `a=y` and `a1=x` the string `a1=x` comes first, since `=` is
above the digits. -/
theorem canonicalQueryString_prefix_names :
    canonicalQueryString [("a", ["y"]), ("a1", ["x"])] = "a1=x&a=y" ∧
    lessEq (uriEncode "a" true).data (uriEncode "a1" true).data = true ∧
    lessEq (uriEncode "a1" true).data (uriEncode "a" true).data = false := by
  decide

theorem lessEq_cons_self (x : Char) (xs ys : List Char) :
    lessEq (x :: xs) (x :: ys) = lessEq xs ys := by
  simp [lessEq]

/-- The order of two strings `name=value` is the order of the names, and of the
values for equal names, when neither name is a proper prefix of the other. -/
theorem lessEq_name_value (n1 : List Char) :
    ∀ (n2 v1 v2 : List Char), (n1 <+: n2 → n1 = n2) → (n2 <+: n1 → n1 = n2) →
      lessEq (n1 ++ '=' :: v1) (n2 ++ '=' :: v2) = true →
      (n1 ≠ n2 ∧ lessEq n1 n2 = true) ∨ (n1 = n2 ∧ lessEq v1 v2 = true) := by
  induction n1 with
  | nil =>
    intro n2 v1 v2 h12 _ h
    have hn : [] = n2 := h12 (List.nil_prefix)
    subst hn
    right
    refine ⟨rfl, ?_⟩
    simpa [lessEq_cons_self] using h
  | cons x xs ih =>
    intro n2 v1 v2 h12 h21 h
    cases n2 with
    | nil => exact absurd (h21 (List.nil_prefix)) (by simp)
    | cons y ys =>
      simp only [List.cons_append] at h
      unfold lessEq at h
      by_cases hlt : x.toNat < y.toNat
      · left
        refine ⟨?_, ?_⟩
        · intro he
          simp only [List.cons.injEq] at he
          rw [he.1] at hlt
          exact absurd hlt (Nat.lt_irrefl _)
        · unfold lessEq
          rw [if_pos hlt]
      · rw [if_neg hlt] at h
        by_cases hgt : y.toNat < x.toNat
        · rw [if_pos hgt] at h
          cases h
        · rw [if_neg hgt] at h
          have hxy : x = y := Char.eq_of_toNat_eq x y (by omega)
          subst hxy
          have h12b : xs <+: ys → xs = ys := by
            intro hp
            have := h12 ((List.cons_prefix_cons).2 ⟨rfl, hp⟩)
            simpa using this
          have h21b : ys <+: xs → xs = ys := by
            intro hp
            have := h21 ((List.cons_prefix_cons).2 ⟨rfl, hp⟩)
            simpa using this
          rcases ih ys v1 v2 h12b h21b h with ⟨hne, hle⟩ | ⟨he, hle⟩
          · left
            refine ⟨?_, ?_⟩
            · intro he
              simp only [List.cons.injEq, true_and] at he
              exact hne he
            · rw [lessEq_cons_self]; exact hle
          · right
            exact ⟨by rw [he], hle⟩

/-- C29. Take a set of query parameters of which no percent-encoded name is a
proper prefix of another, as for every set the package builds (`prefix` and
`delimiter`, `prefix` alone, `delete`) and for the queries of the tests of
sign_test.go. Then the canonical query string lists the encoded parameters in
ascending byte order of their names, and those with the same name in ascending
order of their values: it is the pairs of an encoded name and an encoded
value, so ordered, each written `name=value`, joined with `&`. For the sets the
package builds it is `delimiter=..&prefix=..`, `prefix=..` and `delete=`. -/
theorem canonicalQueryString_name_order (m : Values)
    (hfree : ∀ a ∈ m.pairs, ∀ b ∈ m.pairs,
      (uriEncode a.1 true).data.isPrefixOf (uriEncode b.1 true).data = true →
        uriEncode a.1 true = uriEncode b.1 true) :
    (∃ ps : List (String × String),
      ps.Perm (m.pairs.map (fun p => (uriEncode p.1 true, uriEncode p.2 true))) ∧
      ps.Sorted (fun a b =>
        (a.1 ≠ b.1 ∧ lessEq a.1.data b.1.data = true) ∨
        (a.1 = b.1 ∧ lessEq a.2.data b.2.data = true)) ∧
      canonicalQueryString m = "&".intercalate (ps.map (fun p => p.1 ++ "=" ++ p.2))) ∧
    (∀ p d : String,
      canonicalQueryString [("prefix", [p]), ("delimiter", [d])] =
        "delimiter=" ++ uriEncode d true ++ "&" ++ ("prefix=" ++ uriEncode p true) ∧
      canonicalQueryString [("delimiter", [d]), ("prefix", [p])] =
        "delimiter=" ++ uriEncode d true ++ "&" ++ ("prefix=" ++ uriEncode p true) ∧
      canonicalQueryString [("prefix", [p])] = "prefix=" ++ uriEncode p true) ∧
    canonicalQueryString [("delete", [""])] = "delete=" ∧
    (∀ t ∈ signTests, ∀ a ∈ Values.pairs t.Request.Query, ∀ b ∈ Values.pairs t.Request.Query,
      (uriEncode a.1 true).data.isPrefixOf (uriEncode b.1 true).data = true →
        uriEncode a.1 true = uriEncode b.1 true) := by
  refine ⟨?_, ?_, by decide, by decide⟩
  · haveI : IsTotal (String × String)
        (fun a b => lessEq (a.1 ++ "=" ++ a.2).data (b.1 ++ "=" ++ b.2).data = true) :=
      ⟨fun a b => lessEq_total _ _⟩
    haveI : IsTrans (String × String)
        (fun a b => lessEq (a.1 ++ "=" ++ a.2).data (b.1 ++ "=" ++ b.2).data = true) :=
      ⟨fun a b c => lessEq_trans _ _ _⟩
    haveI : IsAntisymm String (fun a b => lessEq a.data b.data = true) :=
      ⟨fun a b h1 h2 => String.ext (lessEq_antisymm a.data b.data h1 h2)⟩
    have hperm := List.perm_insertionSort
      (fun a b : String × String =>
        lessEq (a.1 ++ "=" ++ a.2).data (b.1 ++ "=" ++ b.2).data = true)
      (m.pairs.map (fun p => (uriEncode p.1 true, uriEncode p.2 true)))
    have hsorted := List.sorted_insertionSort
      (fun a b : String × String =>
        lessEq (a.1 ++ "=" ++ a.2).data (b.1 ++ "=" ++ b.2).data = true)
      (m.pairs.map (fun p => (uriEncode p.1 true, uriEncode p.2 true)))
    refine ⟨_, hperm, ?_, ?_⟩
    · refine List.Pairwise.imp_of_mem ?_ hsorted
      intro a b ha hb hab
      obtain ⟨pa, hpa, rfl⟩ := List.mem_map.1 (hperm.subset ha)
      obtain ⟨pb, hpb, rfl⟩ := List.mem_map.1 (hperm.subset hb)
      have h12 := hfree pa hpa pb hpb
      have h21 := hfree pb hpb pa hpa
      simp only [String.data_append] at hab
      have hkey := lessEq_name_value (uriEncode pa.1 true).data (uriEncode pb.1 true).data
        (uriEncode pa.2 true).data (uriEncode pb.2 true).data
        (fun hp => congrArg String.data (h12 (List.isPrefixOf_iff_prefix.2 hp)))
        (fun hp => (congrArg String.data (h21 (List.isPrefixOf_iff_prefix.2 hp))).symm)
        (by simpa using hab)
      rcases hkey with ⟨hne, hle⟩ | ⟨he, hle⟩
      · left
        exact ⟨fun he => hne (congrArg String.data he), hle⟩
      · right
        exact ⟨String.ext he, hle⟩
    · rw [canonicalQueryString_pairs]
      congr 1
      refine List.eq_of_perm_of_sorted ?_ (sortStrings_sorted _) ?_
      · refine (sortStrings_perm _).trans ?_
        have := (hperm.map (fun p : String × String => p.1 ++ "=" ++ p.2)).symm
        rw [List.map_map] at this
        exact this
      · exact List.pairwise_map.2 hsorted
  · intro p d
    have h1 : lessEq ("prefix=" ++ uriEncode p true).data ("delimiter=" ++ uriEncode d true).data
        = false := by
      simp only [String.data_append]
      rfl
    have h2 : lessEq ("delimiter=" ++ uriEncode d true).data ("prefix=" ++ uriEncode p true).data
        = true := by
      simp only [String.data_append]
      rfl
    have hp : uriEncode "prefix" true ++ "=" = "prefix=" := by decide
    have hd : uriEncode "delimiter" true ++ "=" = "delimiter=" := by decide
    have hs : ∀ a b : String, sortStrings [a, b] =
        if lessEq a.data b.data = true then [a, b] else [b, a] := by
      intro a b
      simp [sortStrings, List.insertionSort, List.orderedInsert]
    have hi : ∀ a b : String, "&".intercalate [a, b] = a ++ "&" ++ b := fun a b => rfl
    refine ⟨?_, ?_, ?_⟩
    · show "&".intercalate (sortStrings [uriEncode "prefix" true ++ "=" ++ uriEncode p true,
        uriEncode "delimiter" true ++ "=" ++ uriEncode d true]) = _
      rw [hp, hd, hs, if_neg (by rw [h1]; simp), hi]
    · show "&".intercalate (sortStrings [uriEncode "delimiter" true ++ "=" ++ uriEncode d true,
        uriEncode "prefix" true ++ "=" ++ uriEncode p true]) = _
      rw [hp, hd, hs, if_pos h2, hi]
    · show "&".intercalate (sortStrings [uriEncode "prefix" true ++ "=" ++ uriEncode p true]) = _
      rw [hp]
      rfl

theorem canonicalQueryString_name_order_witness :
    ∃ ps : List (String × String),
      ps.Perm ((Values.pairs [("prefix", ["a b"]), ("delimiter", ["/"])]).map
        (fun p => (uriEncode p.1 true, uriEncode p.2 true))) ∧
      ps.Sorted (fun a b =>
        (a.1 ≠ b.1 ∧ lessEq a.1.data b.1.data = true) ∨
        (a.1 = b.1 ∧ lessEq a.2.data b.2.data = true)) ∧
      canonicalQueryString [("prefix", ["a b"]), ("delimiter", ["/"])] =
        "&".intercalate (ps.map (fun p => p.1 ++ "=" ++ p.2)) :=
  (canonicalQueryString_name_order [("prefix", ["a b"]), ("delimiter", ["/"])] (by decide)).1

/-- C30. The output of `canonicalQueryString` is the list of the strings
`uriEncode(name, true) + "=" + uriEncode(value, true)`, one for each pair of a
name and one of its values, put in ascending order and joined with `&`; it is
empty when there are no parameters, and two sets of parameters with the same
pairs, in whatever order, give the same output. -/
theorem canonicalQueryString_sorted_pairs (m : Values) :
    (∃ qs : List String,
      qs.Perm (m.pairs.map (fun p => uriEncode p.1 true ++ "=" ++ uriEncode p.2 true)) ∧
      qs.Sorted (fun a b => lessEq a.data b.data = true) ∧
      canonicalQueryString m = "&".intercalate qs) ∧
    (∀ m2 : Values, m.pairs.Perm m2.pairs →
      canonicalQueryString m2 = canonicalQueryString m) ∧
    canonicalQueryString [] = "" := by
  refine ⟨⟨_, sortStrings_perm _, sortStrings_sorted _, canonicalQueryString_pairs m⟩, ?_, rfl⟩
  intro m2 h
  rw [canonicalQueryString_pairs, canonicalQueryString_pairs]
  rw [sortStrings_congr _ _ (h.map _)]

theorem canonicalQueryString_sorted_pairs_witness :
    canonicalQueryString [("foo", ["a", "b"]), ("bar", ["c"])] =
      canonicalQueryString [("bar", ["c"]), ("foo", ["b", "a"])] :=
  (canonicalQueryString_sorted_pairs [("bar", ["c"]), ("foo", ["b", "a"])]).2.1
    [("foo", ["a", "b"]), ("bar", ["c"])] (by decide)

/-! ## The filesystem backend: `Destroy` -/

theorem fileBucket.Destroy_refuses {φ : Type} (os : OS φ) (quote : String → String)
    (b : fileBucket) (fs : φ) (abs : String)
    (habs : filepath.Abs os b.root fs = (abs, none)) (hdir : filepath.Dir abs = "/") :
    fileBucket.Destroy os quote b fs =
      (some (GoError.other ("refusing to destroy top-level directory " ++ quote abs)), fs) := by
  unfold fileBucket.Destroy
  rw [habs]
  simp only [hdir, if_true]

theorem fileBucket.Destroy_removes {φ : Type} (os : OS φ) (quote : String → String)
    (b : fileBucket) (fs : φ) (abs : String)
    (habs : filepath.Abs os b.root fs = (abs, none)) (hdir : filepath.Dir abs ≠ "/") :
    (fileBucket.Destroy os quote b fs).2 = (os.RemoveAll b.root fs).2 ∧
    ((fileBucket.Destroy os quote b fs).1 = none ↔ (os.RemoveAll b.root fs).1 = none) := by
  unfold fileBucket.Destroy
  rw [habs]
  simp only [hdir, if_false]
  rcases os.RemoveAll b.root fs with ⟨_ | err, fs1⟩ <;> simp

/-- C26. When the absolute path of the root resolves and its parent directory
is `/`, `fileBucket.Destroy` returns an error and leaves the file system as it
was; this is so for the roots `/` and `/data`. When the parent directory is not
`/`, it calls `os.RemoveAll` on the root, and returns nil if and only if that
call does. -/
theorem fileBucket_Destroy_guard {φ : Type} (os : OS φ) (quote : String → String)
    (b : fileBucket) (fs : φ) (abs : String)
    (habs : filepath.Abs os b.root fs = (abs, none)) :
    (filepath.Dir abs = "/" →
      (fileBucket.Destroy os quote b fs).1 ≠ none ∧ (fileBucket.Destroy os quote b fs).2 = fs) ∧
    (filepath.Dir abs ≠ "/" →
      (fileBucket.Destroy os quote b fs).2 = (os.RemoveAll b.root fs).2 ∧
      ((fileBucket.Destroy os quote b fs).1 = none ↔ (os.RemoveAll b.root fs).1 = none)) ∧
    (filepath.Abs os "/" fs = ("/", none) ∧ filepath.Dir "/" = "/") ∧
    (filepath.Abs os "/data" fs = ("/data", none) ∧ filepath.Dir "/data" = "/") := by
  refine ⟨fun hdir => ?_, fileBucket.Destroy_removes os quote b fs abs habs,
    ⟨rfl, by decide⟩, ⟨rfl, by decide⟩⟩
  rw [fileBucket.Destroy_refuses os quote b fs abs habs hdir]
  exact ⟨by simp, rfl⟩

theorem fileBucket_Destroy_guard_witness :
    (fileBucket.Destroy toyOS toyQuote { root := "/data" } [("/data", true)]).1 ≠ none ∧
    (fileBucket.Destroy toyOS toyQuote { root := "/data" } [("/data", true)]).2 =
      [("/data", true)] :=
  (fileBucket_Destroy_guard toyOS toyQuote { root := "/data" } [("/data", true)] "/data"
    rfl).1 (by decide)

/-- C25, as the claim states it, fails: for the root `/data`, a top-level
directory that does not exist, `Destroy` returns an error. -/
theorem fileBucket_Destroy_top_level :
    (toyOS.ReadDir "/data" []).1 =
      ([], some (GoError.osError true "no such file or directory")) ∧
    (fileBucket.Destroy toyOS toyQuote { root := "/data" } []).1 =
      some (GoError.other "refusing to destroy top-level directory \"/data\"") := by
  decide

/-- C25, amended. When the absolute path of the root resolves and its parent
directory is not `/`, and `os.RemoveAll` succeeds on the root (as it does on a
directory that is empty or does not exist), `Destroy` returns nil; when the root
does not exist afterwards, which is what a successful removal leaves, a `List`
right after it returns no keys, no children and no error. -/
theorem fileBucket_Destroy_then_List {φ : Type} (os : OS φ) (quote : String → String)
    (b : fileBucket) (fs : φ) (abs : String)
    (habs : filepath.Abs os b.root fs = (abs, none)) (hdir : filepath.Dir abs ≠ "/")
    (hrm : (os.RemoveAll b.root fs).1 = none)
    (hgone : ∃ err, (os.ReadDir b.root (os.RemoveAll b.root fs).2).1.2 = some err ∧
      osIsNotExist err = true) :
    (fileBucket.Destroy os quote b fs).1 = none ∧
    (fileBucket.List os b (fileBucket.Destroy os quote b fs).2).1 = ([], [], none) := by
  obtain ⟨hst, hres⟩ := fileBucket.Destroy_removes os quote b fs abs habs hdir
  refine ⟨hres.2 hrm, ?_⟩
  rw [hst]
  obtain ⟨err, he, hne⟩ := hgone
  unfold fileBucket.List
  rcases hrd : os.ReadDir b.root (os.RemoveAll b.root fs).2 with ⟨⟨list, e⟩, fs2⟩
  rw [hrd] at he
  simp only at he
  subst he
  simp [hne]

theorem fileBucket_Destroy_then_List_witness :
    (fileBucket.Destroy toyOS toyQuote { root := "data" } [("/home/u/data", true)]).1 = none ∧
    (fileBucket.List toyOS { root := "data" }
      (fileBucket.Destroy toyOS toyQuote { root := "data" } [("/home/u/data", true)]).2).1 =
        ([], [], none) :=
  fileBucket_Destroy_then_List toyOS toyQuote { root := "data" } [("/home/u/data", true)]
    "/home/u/data" (by decide) (by decide) (by decide)
    ⟨GoError.osError true "no such file or directory", by decide, by decide⟩

/-! ## The filesystem backend: paths of a child bucket -/

theorem filepath.splitSlash_ne_nil (p : List Char) : filepath.splitSlash p ≠ [] := by
  cases p with
  | nil => simp [filepath.splitSlash]
  | cons c cs =>
    unfold filepath.splitSlash
    split
    · simp
    · split <;> simp

theorem filepath.splitSlash_append (a b : List Char) :
    filepath.splitSlash (a ++ '/' :: b) = filepath.splitSlash a ++ filepath.splitSlash b := by
  induction a with
  | nil => simp [filepath.splitSlash]
  | cons c cs ih =>
    by_cases hc : c = '/'
    · simp [filepath.splitSlash, hc, ih]
    · rcases hs : filepath.splitSlash cs with _ | ⟨e, es⟩
      · exact absurd hs (filepath.splitSlash_ne_nil cs)
      · simp [filepath.splitSlash, hc, ih, hs]

theorem filepath.elements_append (a b : List Char) :
    filepath.elements (a ++ '/' :: b) = filepath.elements a ++ filepath.elements b := by
  simp [filepath.elements, filepath.splitSlash_append]

theorem filepath.splitSlash_of_no_slash (e : List Char) (h : '/' ∉ e) :
    filepath.splitSlash e = [e] := by
  induction e with
  | nil => rfl
  | cons c cs ih =>
    have hc : c ≠ '/' := fun hc => h (by simp [hc])
    have hcs : '/' ∉ cs := fun hcs => h (by simp [hcs])
    simp [filepath.splitSlash, hc, ih hcs]

theorem filepath.splitSlash_no_slash (p : List Char) :
    ∀ e ∈ filepath.splitSlash p, '/' ∉ e := by
  induction p with
  | nil => simp [filepath.splitSlash]
  | cons c cs ih =>
    by_cases hc : c = '/'
    · intro e he
      simp only [filepath.splitSlash, hc, if_true, List.mem_cons] at he
      rcases he with rfl | he
      · simp
      · exact ih e he
    · rcases hs : filepath.splitSlash cs with _ | ⟨e0, es⟩
      · exact absurd hs (filepath.splitSlash_ne_nil cs)
      · intro e he
        rw [hs] at ih
        simp only [filepath.splitSlash, hc, if_false, hs, List.mem_cons] at he
        rcases he with rfl | he
        · intro hmem
          rcases List.mem_cons.1 hmem with h | h
          · exact hc h.symm
          · exact ih e0 (by simp) h
        · exact ih e (by simp [he])

theorem filepath.elements_isElement (p : List Char) :
    ∀ e ∈ filepath.elements p, filepath.IsElement e := by
  intro e he
  simp only [filepath.elements, List.mem_filter] at he
  refine ⟨?_, filepath.splitSlash_no_slash p e he.1⟩
  intro h
  simp [h] at he

theorem filepath.elements_of_isElement (e : List Char) (h : filepath.IsElement e) :
    filepath.elements e = [e] := by
  cases e with
  | nil => exact absurd rfl h.1
  | cons c cs => simp [filepath.elements, filepath.splitSlash_of_no_slash _ h.2]

theorem filepath.elements_joinSlash (es : List (List Char))
    (h : ∀ e ∈ es, filepath.IsElement e) :
    filepath.elements (filepath.joinSlash es) = es := by
  induction es with
  | nil => rfl
  | cons e es ih =>
    cases es with
    | nil => exact filepath.elements_of_isElement e (h e (by simp))
    | cons e2 es =>
      rw [filepath.joinSlash, filepath.elements_append,
        filepath.elements_of_isElement e (h e (by simp)),
        ih (fun x hx => h x (by simp [hx]))]
      rfl

theorem filepath.rooted_joinSlash (es : List (List Char))
    (h : ∀ e ∈ es, filepath.IsElement e) : filepath.rooted (filepath.joinSlash es) = false := by
  cases es with
  | nil => rfl
  | cons e es =>
    obtain ⟨hne, hns⟩ := h e (by simp)
    cases e with
    | nil => exact absurd rfl hne
    | cons c cs =>
      have hc : c ≠ '/' := fun hc => hns (by simp [hc])
      cases es with
      | nil => simp [filepath.joinSlash, filepath.rooted, hc]
      | cons e2 es => simp [filepath.joinSlash, filepath.rooted, hc]

theorem filepath.rooted_append (a b : List Char) (ha : a ≠ []) :
    filepath.rooted (a ++ b) = filepath.rooted a := by
  cases a with
  | nil => exact absurd rfl ha
  | cons c cs => rfl

theorem filepath.cleanChars_eq (p : List Char) (hp : p ≠ []) :
    filepath.cleanChars p =
      filepath.render (filepath.rooted p)
        ((filepath.elements p).foldl (filepath.cleanStep (filepath.rooted p)) []) := by
  unfold filepath.cleanChars filepath.render
  simp only [hp, if_false]
  cases filepath.rooted p <;> simp

theorem filepath.cleanStep_mem (r : Bool) (out : List (List Char)) (e x : List Char)
    (hx : x ∈ filepath.cleanStep r out e) : x ∈ out ∨ x = e := by
  unfold filepath.cleanStep at hx
  split at hx
  · exact Or.inl hx
  · split at hx
    · split at hx
      · split at hx
        · exact Or.inl hx
        · rcases List.mem_cons.1 hx with h | h
          · exact Or.inr h
          · exact Or.inl h
      · split at hx
        · split at hx
          · exact Or.inl hx
          · rcases List.mem_cons.1 hx with h | h
            · exact Or.inr h
            · exact Or.inl h
        · exact Or.inl (List.mem_cons_of_mem _ hx)
    · rcases List.mem_cons.1 hx with h | h
      · exact Or.inr h
      · exact Or.inl h

theorem filepath.cleanStep_ne_dot (r : Bool) (out : List (List Char)) (e : List Char)
    (h : ['.'] ∉ out) : ['.'] ∉ filepath.cleanStep r out e := by
  intro hx
  rcases filepath.cleanStep_mem r out e _ hx with h1 | h1
  · exact h h1
  · subst h1
    simp [filepath.cleanStep] at hx
    exact h hx

theorem filepath.foldl_mem (r : Bool) (es : List (List Char)) (out : List (List Char))
    (x : List Char) (hx : x ∈ es.foldl (filepath.cleanStep r) out) : x ∈ out ∨ x ∈ es := by
  induction es generalizing out with
  | nil => exact Or.inl hx
  | cons e es ih =>
    rcases ih _ hx with h | h
    · rcases filepath.cleanStep_mem r out e x h with h2 | h2
      · exact Or.inl h2
      · exact Or.inr (by simp [h2])
    · exact Or.inr (List.mem_cons_of_mem _ h)

theorem filepath.foldl_ne_dot (r : Bool) (es : List (List Char)) (out : List (List Char))
    (h : ['.'] ∉ out) : ['.'] ∉ es.foldl (filepath.cleanStep r) out := by
  induction es generalizing out with
  | nil => exact h
  | cons e es ih => exact ih _ (filepath.cleanStep_ne_dot r out e h)

theorem filepath.cleanStep_push (r : Bool) (out : List (List Char)) (e : List Char)
    (h1 : e ≠ ['.']) (h2 : e ≠ ['.', '.']) : filepath.cleanStep r out e = e :: out := by
  simp [filepath.cleanStep, h1, h2]

theorem filepath.cleanStep_pop (r : Bool) (out : List (List Char)) (top : List Char)
    (h : top ≠ ['.', '.']) :
    filepath.cleanStep r (top :: out) ['.', '.'] = out := by
  simp [filepath.cleanStep, h]

theorem filepath.foldl_reverse_same (r : Bool) (es : List (List Char)) :
    ((es.foldl (filepath.cleanStep r) []).reverse).foldl (filepath.cleanStep r) [] =
      es.foldl (filepath.cleanStep r) [] := by
  induction es using List.reverseRecOn with
  | nil => rfl
  | append_singleton es e ih =>
    rw [List.foldl_append, List.foldl_cons, List.foldl_nil]
    have hdot : ['.'] ∉ es.foldl (filepath.cleanStep r) [] :=
      filepath.foldl_ne_dot r es [] (by simp)
    generalize es.foldl (filepath.cleanStep r) [] = T at ih hdot ⊢
    by_cases h1 : e = ['.']
    · simpa [filepath.cleanStep, h1] using ih
    · by_cases h2 : e = ['.', '.']
      · subst h2
        cases T with
        | nil => cases r <;> rfl
        | cons top rest =>
          by_cases ht : top = ['.', '.']
          · cases r
            · have : filepath.cleanStep false (top :: rest) ['.', '.'] =
                  ['.', '.'] :: top :: rest := by simp [filepath.cleanStep, ht]
              rw [this, List.reverse_cons, List.foldl_append, ih]
              exact this
            · have : filepath.cleanStep true (top :: rest) ['.', '.'] = top :: rest := by
                simp [filepath.cleanStep, ht]
              rw [this, ih]
          · rw [filepath.cleanStep_pop r rest top ht]
            have htd : top ≠ ['.'] := fun h => hdot (by simp [h])
            rw [List.reverse_cons, List.foldl_append, List.foldl_cons, List.foldl_nil,
              filepath.cleanStep_push r _ top htd ht] at ih
            exact (List.cons.inj ih).2
      · rw [filepath.cleanStep_push r T e h1 h2, List.reverse_cons, List.foldl_append, ih]
        simp [filepath.cleanStep_push r T e h1 h2]

theorem filepath.foldl_reverse_relative (r : Bool) (out : List (List Char))
    (es : List (List Char)) :
    ((es.foldl (filepath.cleanStep false) []).reverse).foldl (filepath.cleanStep r) out =
      es.foldl (filepath.cleanStep r) out := by
  induction es using List.reverseRecOn with
  | nil => rfl
  | append_singleton es e ih =>
    rw [List.foldl_append, List.foldl_append, List.foldl_cons, List.foldl_nil,
      List.foldl_cons, List.foldl_nil, ← ih]
    have hdot : ['.'] ∉ es.foldl (filepath.cleanStep false) [] :=
      filepath.foldl_ne_dot false es [] (by simp)
    generalize es.foldl (filepath.cleanStep false) [] = T at hdot ⊢
    by_cases h1 : e = ['.']
    · simp [filepath.cleanStep, h1]
    · by_cases h2 : e = ['.', '.']
      · subst h2
        cases T with
        | nil => rfl
        | cons top rest =>
          by_cases ht : top = ['.', '.']
          · have : filepath.cleanStep false (top :: rest) ['.', '.'] =
                ['.', '.'] :: top :: rest := by simp [filepath.cleanStep, ht]
            rw [this, List.reverse_cons, List.foldl_append]
            simp only [List.foldl_cons, List.foldl_nil]
          · rw [filepath.cleanStep_pop false rest top ht]
            have htd : top ≠ ['.'] := fun h => hdot (by simp [h])
            rw [List.reverse_cons, List.foldl_append, List.foldl_cons, List.foldl_nil,
              filepath.cleanStep_push r _ top htd ht, filepath.cleanStep_pop r _ top ht]
      · rw [filepath.cleanStep_push false T e h1 h2, List.reverse_cons, List.foldl_append]
        rfl

theorem filepath.cleanChars_ne_nil (p : List Char) : filepath.cleanChars p ≠ [] := by
  unfold filepath.cleanChars
  split
  · simp
  · split
    · simp
    · split
      · simp
      · rename_i hne
        intro h
        have hel : ∀ e ∈ ((filepath.elements p).foldl (filepath.cleanStep false) []).reverse,
            filepath.IsElement e := by
          intro e he
          rcases filepath.foldl_mem false _ [] e (List.mem_reverse.1 he) with h1 | h1
          · simp at h1
          · exact filepath.elements_isElement p e h1
        have h2 := filepath.elements_joinSlash _ hel
        rw [h] at h2
        exact hne (List.reverse_eq_nil_iff.1 h2.symm)

theorem filepath.stack_isElement (r : Bool) (p : List Char) :
    ∀ e ∈ ((filepath.elements p).foldl (filepath.cleanStep r) []).reverse,
      filepath.IsElement e := by
  intro e he
  rcases filepath.foldl_mem r _ [] e (List.mem_reverse.1 he) with h1 | h1
  · simp at h1
  · exact filepath.elements_isElement p e h1

theorem filepath.rooted_cleanChars (p : List Char) (hp : p ≠ []) :
    filepath.rooted (filepath.cleanChars p) = filepath.rooted p := by
  rw [filepath.cleanChars_eq p hp]
  unfold filepath.render
  cases hr : filepath.rooted p
  · simp only [Bool.false_eq_true, if_false]
    split
    · rfl
    · exact filepath.rooted_joinSlash _ (filepath.stack_isElement false p)
  · rfl

theorem filepath.elements_cleanChars (r : Bool) (out : List (List Char)) (p : List Char) :
    (filepath.elements (filepath.cleanChars p)).foldl (filepath.cleanStep r) out =
      (((filepath.elements p).foldl (filepath.cleanStep (filepath.rooted p)) []).reverse).foldl
        (filepath.cleanStep r) out := by
  by_cases hp : p = []
  · subst hp
    rfl
  · rw [filepath.cleanChars_eq p hp]
    unfold filepath.render
    cases hr : filepath.rooted p
    · simp only [Bool.false_eq_true, if_false]
      split
      · rename_i hnil
        rw [hnil]
        rfl
      · rw [filepath.elements_joinSlash _ (filepath.stack_isElement false p)]
    · simp only [if_true]
      have : ('/' :: filepath.joinSlash
          ((filepath.elements p).foldl (filepath.cleanStep true) []).reverse) =
          [] ++ '/' :: filepath.joinSlash
            ((filepath.elements p).foldl (filepath.cleanStep true) []).reverse := rfl
      rw [this, filepath.elements_append,
        filepath.elements_joinSlash _ (filepath.stack_isElement true p)]
      rfl

theorem filepath.cleanChars_idem (y : List Char) (hy : y ≠ []) :
    filepath.cleanChars (filepath.cleanChars y) = filepath.cleanChars y := by
  rw [filepath.cleanChars_eq _ (filepath.cleanChars_ne_nil y), filepath.rooted_cleanChars y hy,
    filepath.elements_cleanChars, filepath.foldl_reverse_same, ← filepath.cleanChars_eq y hy]

theorem filepath.cleanChars_clean_left (x k : List Char) (hx : x ≠ []) :
    filepath.cleanChars (filepath.cleanChars x ++ '/' :: k) =
      filepath.cleanChars (x ++ '/' :: k) := by
  rw [filepath.cleanChars_eq _ (by simp), filepath.cleanChars_eq (x ++ '/' :: k) (by simp),
    filepath.rooted_append _ _ (filepath.cleanChars_ne_nil x), filepath.rooted_append _ _ hx,
    filepath.rooted_cleanChars x hx, filepath.elements_append, filepath.elements_append,
    List.foldl_append, List.foldl_append, filepath.elements_cleanChars,
    filepath.foldl_reverse_same]

theorem filepath.cleanChars_clean_right (root y : List Char) (hroot : root ≠ [])
    (hy : filepath.rooted y = false) :
    filepath.cleanChars (root ++ '/' :: filepath.cleanChars y) =
      filepath.cleanChars (root ++ '/' :: y) := by
  rw [filepath.cleanChars_eq _ (by simp), filepath.cleanChars_eq (root ++ '/' :: y) (by simp),
    filepath.rooted_append _ _ hroot, filepath.rooted_append _ _ hroot,
    filepath.elements_append, filepath.elements_append,
    List.foldl_append, List.foldl_append, filepath.elements_cleanChars, hy,
    filepath.foldl_reverse_relative]

theorem filepath.Join_data (a b : String) :
    (filepath.Join a b).data =
      if a.data ≠ [] then filepath.cleanChars (a.data ++ '/' :: b.data)
      else if b.data ≠ [] then filepath.cleanChars b.data
      else [] := by
  have ha : a ≠ "" ↔ a.data ≠ [] := by
    constructor
    · intro h hd; exact h (String.ext hd)
    · intro h hd; exact h (by rw [hd])
  have hb : b ≠ "" ↔ b.data ≠ [] := by
    constructor
    · intro h hd; exact h (String.ext hd)
    · intro h hd; exact h (by rw [hd])
  unfold filepath.Join
  by_cases h1 : a.data ≠ []
  · rw [if_pos (ha.2 h1), if_pos h1]
    simp [filepath.Clean]
  · rw [if_neg (fun h => h1 (ha.1 h)), if_neg h1]
    by_cases h2 : b.data ≠ []
    · rw [if_pos (hb.2 h2), if_pos h2]
      rfl
    · rw [if_neg (fun h => h2 (hb.1 h)), if_neg h2]

theorem filepath.Join_assoc (root c k : String) (hc : c ≠ "")
    (hrel : filepath.rooted c.data = false) :
    filepath.Join (filepath.Join root c) k = filepath.Join root (filepath.Join c k) := by
  have hcd : c.data ≠ [] := fun hd => hc (String.ext hd)
  apply String.ext
  rw [filepath.Join_data, filepath.Join_data root (filepath.Join c k), filepath.Join_data root c,
    filepath.Join_data c k]
  by_cases hr : root.data = []
  · have hr2 : ¬ (root.data ≠ []) := fun h => h hr
    simp only [if_neg hr2, if_pos hcd, if_pos (filepath.cleanChars_ne_nil _)]
    rw [filepath.cleanChars_clean_left _ _ hcd, filepath.cleanChars_idem _ (by simp)]
  · have hr2 : root.data ≠ [] := hr
    simp only [if_pos hr2, if_pos hcd, if_pos (filepath.cleanChars_ne_nil _)]
    rw [filepath.cleanChars_clean_left _ _ (by simp),
      filepath.cleanChars_clean_right _ _ hr
        (by rw [filepath.rooted_append _ _ hcd]; exact hrel)]
    simp

/-- C24, as the claim states it, fails: with the child name `/..`, the child
bucket of the root `a` takes the key `y` to the path `y`, and the root bucket
takes `filepath.Join("/..", "y")` to `a/y`. -/
theorem fileBucket_Descend_rooted_child :
    (fileBucket.Descend { root := "a" } "/..").Abs "y" = "y" ∧
    fileBucket.Abs { root := "a" } (filepath.Join "/.." "y") = "a/y" := by
  decide

/-- C24, amended. Nesting on the filesystem backend: for every `fileBucket`
`b`, every child name `c` that is not empty and does not begin with `/`, and
every key `k`, `b.Descend(c).Abs(k) = b.Abs(filepath.Join(c, k))`; `Put` and
`Get` of `k` on the child are `Put` and `Get` of `filepath.Join(c, k)` on the
parent. -/
theorem fileBucket_Descend_Abs {φ : Type} (os : OS φ) (b : fileBucket) (c k : String)
    (data : List Byte) (fs : φ) (hc : c ≠ "") (hrel : filepath.rooted c.data = false) :
    (b.Descend c).Abs k = b.Abs (filepath.Join c k) ∧
    fileBucket.Put os (b.Descend c) k data fs = fileBucket.Put os b (filepath.Join c k) data fs ∧
    fileBucket.Get os (b.Descend c) k fs = fileBucket.Get os b (filepath.Join c k) fs := by
  have habs : (b.Descend c).Abs k = b.Abs (filepath.Join c k) :=
    filepath.Join_assoc b.root c k hc hrel
  refine ⟨habs, ?_, ?_⟩
  · unfold fileBucket.Put
    rw [habs]
  · unfold fileBucket.Get
    rw [habs]

theorem fileBucket_Descend_Abs_witness :
    (fileBucket.Descend { root := "a" } "../c").Abs "k" =
      fileBucket.Abs { root := "a" } (filepath.Join "../c" "k") ∧
    fileBucket.Put toyOS (fileBucket.Descend { root := "a" } "../c") "k" [1] [] =
      fileBucket.Put toyOS { root := "a" } (filepath.Join "../c" "k") [1] [] ∧
    fileBucket.Get toyOS (fileBucket.Descend { root := "a" } "../c") "k" [] =
      fileBucket.Get toyOS { root := "a" } (filepath.Join "../c" "k") [] :=
  fileBucket_Descend_Abs toyOS { root := "a" } "../c" "k" [1] [] (by decide) (by decide)

/-! ## Percent-encoding is not injective -/

/-- C40 fails on the code. The byte 1 followed by the digit `0`, and the single
byte 16, are different inputs with the same encoding `%10`, for both values of
`encodeSlash`: the hexadecimal digits of a byte are written without padding. -/
theorem uriEncode_not_injective (encodeSlash : Bool) :
    uriEncode "\x010" encodeSlash = "%10" ∧ uriEncode "\x10" encodeSlash = "%10" ∧
    ("\x010" : String) ≠ "\x10" := by
  cases encodeSlash <;> decide

/-! ## Sequence keys -/

/-- C39. The sequence keys of two different chunk indices differ, whatever their
size, and no sequence key is the key `meta` of the manifest; so the keys of the
`Put` calls that store the chunks `cs` and the manifest are pairwise
different. -/
theorem sequence_keys_distinct (i j : Nat) (cs : List (List Byte)) (metajson : List Byte) :
    (i ≠ j → Sprintf05d i ≠ Sprintf05d j) ∧ Sprintf05d i ≠ "meta" ∧
    ((chunkPuts i cs ++ [("meta", metajson)]).map (fun c => c.1)).Nodup := by
  refine ⟨fun h e => h (Sprintf05d_injective i j e), Sprintf05d_ne_meta i, ?_⟩
  rw [List.map_append, List.nodup_append]
  refine ⟨?_, by simp, ?_⟩
  · induction cs generalizing i with
    | nil => simp [chunkPuts]
    | cons c cs ih =>
      rw [chunkPuts, List.map_cons, List.nodup_cons]
      refine ⟨?_, ih (i + 1)⟩
      intro hmem
      obtain ⟨c2, hc2, hk⟩ := List.mem_map.1 hmem
      obtain ⟨m, hm, hkey⟩ := chunkPuts_keys (i + 1) cs c2 hc2
      have : m = i := Sprintf05d_injective m i (by rw [← hkey, hk])
      omega
  · intro k hk hmeta
    obtain ⟨c2, hc2, hk2⟩ := List.mem_map.1 hk
    obtain ⟨m, _, hkey⟩ := chunkPuts_keys i cs c2 hc2
    simp only [List.map_cons, List.map_nil, List.mem_singleton] at hmeta
    exact Sprintf05d_ne_meta m (by rw [← hkey, hk2, hmeta])

theorem sequence_keys_distinct_witness : Sprintf05d 99999 ≠ Sprintf05d 100000 :=
  (sequence_keys_distinct 99999 100000 [] []).1 (by decide)

/-! ## The reader after a failed `Read` -/

/-- C38 fails on the code. Over a store that holds the manifest of two chunks
and the first chunk, of three bytes, a reader from `NewReader` returns the three
bytes on the first `Read`, the not-found error of the second chunk on the
second `Read`, and panics on the third: the failed `Get` has replaced the
buffer by an empty one while the read offset is still 3. The same happens when
the second chunk is there with one byte and a wrong hash. -/
theorem Reader_Read_panics_after_error :
    ((NewReader memBucket toyLib
        [("meta", (toySum [1, 2, 3]).val ++ (toySum [4]).val), ("00000", [1, 2, 3])]).1.toOption.map
      (fun r => Reader.readCalls memBucket toyLib [[0, 0, 0], [0, 0, 0], [0, 0, 0]] r
        [("meta", (toySum [1, 2, 3]).val ++ (toySum [4]).val), ("00000", [1, 2, 3])])) =
      some [.ret ([1, 2, 3], 3, none),
        .ret ([0, 0, 0], 0, some (GoError.osError true "file does not exist")), .panic] ∧
    ((NewReader memBucket toyLib
        [("meta", (toySum [1, 2, 3]).val ++ (toySum [4]).val), ("00000", [1, 2, 3]),
          ("00001", [9])]).1.toOption.map
      (fun r => Reader.readCalls memBucket toyLib [[0, 0, 0], [0, 0, 0], [0, 0, 0]] r
        [("meta", (toySum [1, 2, 3]).val ++ (toySum [4]).val), ("00000", [1, 2, 3]),
          ("00001", [9])])) =
      some [.ret ([1, 2, 3], 3, none),
        .ret ([0, 0, 0], 0, some (GoError.hashMismatch "00001")), .panic] := by
  constructor <;> rfl

/-! ## How full the writer's buffer gets, and how many chunks a `Write` puts -/

theorem Writer.flush_count {σ : Type} (B : Bucket σ) (L : Lib) (w : Writer) (s : σ) (c : Nat) :
    (Writer.flush (countingBucket B) L w (s, c)).2.2.2 ≤ c + 1 := by
  have h : ((countingBucket B).Put (Sprintf05d w.boxes.length) (w.buf.take w.n) (s, c)).2.2 =
      c + 1 := rfl
  unfold Writer.flush
  split
  · exact Nat.le_succ c
  · split
    · rename_i hp
      rw [hp] at h
      exact Nat.le_of_eq h
    · rename_i hp
      rw [hp] at h
      exact Nat.le_of_eq h

theorem Writer.writeLoop_count {σ : Type} (B : Bucket σ) (L : Lib) (fuel : Nat) :
    ∀ (w : Writer) (s : σ) (c : Nat) (p : List Byte) (n n1 : Nat) (e : Option GoError)
      (w1 : Writer) (s1 : σ) (c1 : Nat),
      1 ≤ w.buf.length → w.n ≤ w.buf.length →
      Writer.writeLoop (countingBucket B) L fuel w (s, c) p n = some (n1, e, w1, (s1, c1)) →
      c1 ≤ c + (if p.length ≤ w.buf.length - w.n then 0
        else 1 + (p.length - (w.buf.length - w.n) - 1) / w.buf.length) := by
  induction fuel with
  | zero => intro w s c p n n1 e w1 s1 c1 _ _ h; simp [Writer.writeLoop] at h
  | succ fuel ih =>
    intro w s c p n n1 e w1 s1 c1 hpos hle h
    unfold Writer.writeLoop at h
    split at h
    · rename_i hgt
      rw [if_neg (by omega)]
      have hfs := Writer.fillBuf_snd w p
      have hc : min (w.buf.length - w.n) p.length = w.buf.length - w.n := by omega
      rw [hc] at hfs
      have hlen := Writer.fillBuf_length w p hle
      have hcount := Writer.flush_count B L (w.fillBuf p).1 s c
      rcases hfl : Writer.flush (countingBucket B) L (w.fillBuf p).1 (s, c) with ⟨e2, w2, s2, c2⟩
      rw [hfl] at hcount h
      simp only at hcount
      cases e2 with
      | some err =>
        simp only [Option.some.injEq, Prod.mk.injEq] at h
        have hc1 : c1 ≤ c + 1 := by omega
        exact Nat.le_trans hc1 (Nat.add_le_add_left (Nat.le_add_right 1 _) c)
      | none =>
        simp only at h
        have hbuf : w2.buf = (w.fillBuf p).1.buf := by
          have := Writer.flush_buf (countingBucket B) L (w.fillBuf p).1 (s, c)
          rw [hfl] at this
          exact this
        have hn0 : w2.n = 0 := by
          have := Writer.flush_n (countingBucket B) L (w.fillBuf p).1 (s, c) (by rw [hfl])
          rw [hfl] at this
          exact this
        have hb2 : ({ w2 with err := none } : Writer).buf.length = w.buf.length := by
          show w2.buf.length = _
          rw [hbuf, hlen]
        have hih := ih { w2 with err := none } s2 c2 (p.drop (w.fillBuf p).2)
          (n + (w.fillBuf p).2) n1 e w1 s1 c1 (by rw [hb2]; exact hpos)
          (by show w2.n ≤ _; omega) h
        rw [hb2, show ({ w2 with err := none } : Writer).n = 0 from hn0, List.length_drop, hfs,
          Nat.sub_zero] at hih
        by_cases hx : p.length - (w.buf.length - w.n) ≤ w.buf.length
        · rw [if_pos hx, Nat.add_zero] at hih
          have hc1 : c1 ≤ c + 1 := by omega
          exact Nat.le_trans hc1 (Nat.add_le_add_left (Nat.le_add_right 1 _) c)
        · rw [if_neg hx] at hih
          have hdiv : (p.length - (w.buf.length - w.n) - 1) / w.buf.length =
              (p.length - (w.buf.length - w.n) - w.buf.length - 1) / w.buf.length + 1 := by
            rw [← Nat.add_div_right _ (by omega : 0 < w.buf.length)]
            congr 1
            omega
          rw [hdiv]
          generalize (p.length - (w.buf.length - w.n) - w.buf.length - 1) / w.buf.length = q
            at hih
          omega
    · rename_i hgt
      rw [if_pos (by omega)]
      simp only [Option.some.injEq, Prod.mk.injEq] at h
      omega

theorem Writer.writeLoop_zero {σ : Type} (B : Bucket σ) (L : Lib) (fuel : Nat) :
    ∀ (w : Writer) (s : σ) (p : List Byte) (n : Nat), w.buf = [] → w.n = 0 → p ≠ [] →
      Writer.writeLoop B L fuel w s p n = none := by
  induction fuel with
  | zero => intro w s p n _ _ _; rfl
  | succ fuel ih =>
    intro w s p n hbuf hn hp
    have hlen : 0 < p.length := List.length_pos.2 hp
    have hfb : w.fillBuf p = (w, 0) := by
      cases w
      simp only at hbuf hn
      subst hbuf hn
      simp [Writer.fillBuf, copy]
    unfold Writer.writeLoop
    rw [if_pos (by rw [hbuf]; simpa using hlen), hfb]
    have hfl : Writer.flush B L w s = (none, w, s) := by
      unfold Writer.flush
      rw [if_pos hn]
    rw [hfl]
    simp only [List.drop_zero]
    exact ih _ _ _ _ hbuf hn hp

/-- C37. On a writer whose buffer has at least one byte (`boxSize ≥ 1`),
`Write(p)` returns for every `p`, with `len(p) + 2` units of fuel or more, and
it has made at most `ceil(len(p) / boxSize)` calls of `Put` when it returns.
With `boxSize = 0` a `Write` of a non-empty `p` on a new writer never returns:
the fuel runs out, however much there is. -/
theorem Writer_Write_terminates {σ : Type} (B : Bucket σ) (L : Lib) (w : Writer) (s : σ)
    (c : Nat) (p : List Byte) (fuel : Nat) (hpos : 1 ≤ w.buf.length)
    (hle : w.n ≤ w.buf.length) (hfuel : p.length + 2 ≤ fuel) :
    (∃ n err w1 s1 c1,
      Writer.Write (countingBucket B) L fuel w (s, c) p = some (n, err, w1, (s1, c1)) ∧
      c1 ≤ c + (p.length + w.buf.length - 1) / w.buf.length) ∧
    (p ≠ [] → ∀ fuel0 s0, Writer.Write B L fuel0 (NewWriter 0) s0 p = none) := by
  constructor
  · unfold Writer.Write
    cases he : w.err with
    | some err => exact ⟨0, some err, w, s, c, rfl, Nat.le_add_right _ _⟩
    | none =>
      obtain ⟨⟨n1, e1, w1, s1, c1⟩, hr⟩ :=
        Writer.writeLoop_terminates (countingBucket B) L fuel w (s, c) p 0 hpos hle
          (by split <;> omega)
      have hcount := Writer.writeLoop_count B L fuel w s c p 0 n1 e1 w1 s1 c1 hpos hle hr
      refine ⟨n1, e1, { w1 with total := w1.total.add n1 }, s1, c1, by simp only [hr], ?_⟩
      refine Nat.le_trans hcount (Nat.add_le_add_left ?_ c)
      split
      · exact Nat.zero_le _
      · rename_i hgt
        rw [Nat.add_comm 1, ← Nat.add_div_right _ (by omega : 0 < w.buf.length)]
        exact Nat.div_le_div_right (by omega)
  · intro hp fuel0 s0
    unfold Writer.Write
    simp only [NewWriter]
    rw [Writer.writeLoop_zero B L fuel0 _ s0 p 0 rfl rfl hp]

theorem Writer_Write_terminates_witness :
    ∃ n err w1 s1 c1,
      Writer.Write (countingBucket logBucket) toyLib 7 (NewWriter 2) ([], 0) [1, 2, 3, 4, 5] =
        some (n, err, w1, (s1, c1)) ∧
      c1 ≤ 0 + (([1, 2, 3, 4, 5] : List Byte).length + (NewWriter 2).buf.length - 1) /
        (NewWriter 2).buf.length :=
  (Writer_Write_terminates logBucket toyLib (NewWriter 2) [] 0 [1, 2, 3, 4, 5] 7
    (by decide) (by decide) (by decide)).1

/-- C35, as the claim states it, fails: after `Write` of two bytes on a new
writer with `boxSize = 2`, the buffer holds two bytes and no chunk has been
put to the store. -/
theorem Writer_Write_full_buffer :
    (Writer.Write logBucket toyLib 4 (NewWriter 2) [] [1, 2]).map
      (fun r => (r.1, r.2.1, r.2.2.1.n, r.2.2.1.boxes, r.2.2.2)) =
      some (2, none, 2, [], []) := by
  rfl

/-- C35, amended. After every `Write` that returns without error, the buffer
holds at most `boxSize` bytes, and at least one byte when `p` is not empty: a
full buffer is put to the store only when a later `Write` brings more bytes, or
by `Close`. After writing exactly `boxSize` bytes to a new writer the buffer
holds all of them, the list of hashes is empty and the store is as it was. -/
theorem Writer_Write_buffer_bound {σ : Type} (B : Bucket σ) (L : Lib) (boxSize : Nat) (s0 : σ)
    (fuel : Nat) (w : Writer) (s : σ) (p : List Byte) (stored : List (List Byte))
    (n1 : Nat) (w1 : Writer) (s1 : σ)
    (hw : Writer.Holds L boxSize w stored)
    (hs : s = applyPuts B (chunkPuts 0 stored) s0)
    (hne : w.n = 0 → stored = [])
    (h : Writer.Write B L fuel w s p = some (n1, none, w1, s1)) :
    w1.n ≤ boxSize ∧ (p ≠ [] → 1 ≤ boxSize → 1 ≤ w1.n) ∧
    (p.length = boxSize → ∀ fuel0, 1 ≤ fuel0 →
      ∃ w2, Writer.Write B L fuel0 (NewWriter boxSize) s p = some (boxSize, none, w2, s) ∧
        w2.n = boxSize ∧ w2.boxes = []) := by
  obtain ⟨stored1, hw1, _, hflat, hz, _, _⟩ :=
    Writer.Write_spec B L boxSize s0 fuel w s p stored n1 w1 s1 hw hs hne h
  refine ⟨hw1.n_le, ?_, ?_⟩
  · intro hp hb
    by_contra hcon
    have h0 : w1.n = 0 := by omega
    have hst := hz h0
    rw [hst, h0] at hflat
    simp only [List.flatten_nil, List.take_zero, List.append_nil, List.nil_append] at hflat
    have hlen := congrArg List.length hflat
    simp only [List.length_nil, List.length_append] at hlen
    have : p.length = 0 := by omega
    exact hp (List.length_eq_zero.1 this)
  · intro hp fuel0 hf
    obtain ⟨f, rfl⟩ : ∃ f, fuel0 = f + 1 := ⟨fuel0 - 1, by omega⟩
    have hsnd : ((NewWriter boxSize).fillBuf p).2 = boxSize := by
      rw [Writer.fillBuf_snd]
      simp [NewWriter, hp]
    have hn : ((NewWriter boxSize).fillBuf p).1.n = boxSize := by
      rw [Writer.fillBuf_n]
      simp [NewWriter, hp]
    have hloop : Writer.writeLoop B L (f + 1) (NewWriter boxSize) s p 0 =
        some (0 + ((NewWriter boxSize).fillBuf p).2, none, ((NewWriter boxSize).fillBuf p).1,
          s) := by
      unfold Writer.writeLoop
      rw [if_neg (by simp [NewWriter, hp])]
    refine ⟨{ ((NewWriter boxSize).fillBuf p).1 with
      total := ((NewWriter boxSize).fillBuf p).1.total.add boxSize }, ?_, hn, rfl⟩
    unfold Writer.Write
    rw [hloop, hsnd]
    simp [NewWriter]

theorem Writer_Write_buffer_bound_witness :
    (2 : Nat) ≤ 2 ∧ (([1, 2] : List Byte) ≠ [] → 1 ≤ 2 → 1 ≤ 2) ∧
    ((([1, 2] : List Byte)).length = 2 → ∀ fuel0, 1 ≤ fuel0 →
      ∃ w2, Writer.Write logBucket toyLib fuel0 (NewWriter 2) [] [1, 2] =
          some (2, none, w2, []) ∧
        w2.n = 2 ∧ w2.boxes = []) :=
  Writer_Write_buffer_bound logBucket toyLib 2 [] 4 (NewWriter 2) [] [1, 2] [] 2
    { err := none, boxes := [], buf := [1, 2], n := 2, total := int64.zero.add 2 } []
    (NewWriter_holds toyLib 2) rfl (fun _ => rfl) rfl

/-! ## The remote backend: what `Destroy` deletes -/

theorem s3Bucket_Descend_suffix {ρ : Type} (b : s3Bucket ρ) (child : String) :
    strings.HasSuffix (b.Descend child).prefix_ "/" = true := by
  unfold s3Bucket.Descend
  cases h : strings.HasSuffix child "/"
  · simp only [Bool.not_false, if_true]
    rw [← String.append_assoc]
    exact strings.HasSuffix_append _ _
  · simp only [Bool.not_true, Bool.false_eq_true, if_false]
    simp only [strings.HasSuffix, List.isSuffixOf_iff_suffix] at h ⊢
    obtain ⟨t, ht⟩ := h
    exact ⟨b.prefix_.data ++ t, by rw [String.data_append, ← ht, List.append_assoc]⟩

theorem s3Bucket_Destroy_keeps {ρ : Type} (quote : String → String) (b : s3Bucket ρ)
    (keys : ρ → List String)
    (hlist : ∀ pre d r list, (b.bucket.List pre d r).1 = .ok list →
      ∀ k ∈ list.Contents, strings.HasPrefix k pre = true)
    (hkeep : ∀ pre d r, keys (b.bucket.List pre d r).2 = keys r)
    (hdelete : ∀ ks r k, k ∉ ks → k ∈ keys r → k ∈ keys (b.bucket.Delete ks r).2)
    (k : String) (hk : strings.HasPrefix k b.prefix_ = false) (fuel : Nat) :
    ∀ r, k ∈ keys r → k ∈ keys (s3Bucket.Destroy quote b fuel r).2 := by
  induction fuel with
  | zero => intro r h; exact h
  | succ fuel ih =>
    intro r h
    unfold s3Bucket.Destroy
    have hl := hlist b.prefix_ "" r
    have hk1 := hkeep b.prefix_ "" r
    rcases hL : b.bucket.List b.prefix_ "" r with ⟨_ | list, r1⟩
    · rw [hL] at hk1
      simp only at hk1 ⊢
      rw [hk1]
      exact h
    · rw [hL] at hk1 hl
      simp only at hk1 hl ⊢
      have hr1 : k ∈ keys r1 := by rw [hk1]; exact h
      split
      · exact hr1
      · have hnot : k ∉ list.Contents := by
          intro hmem
          have := hl list rfl k hmem
          rw [hk] at this
          exact Bool.false_ne_true this
        have hd := hdelete list.Contents r1 k hnot hr1
        rcases hD : b.bucket.Delete list.Contents r1 with ⟨_ | del, r2⟩
        · rw [hD] at hd
          exact hd
        · rw [hD] at hd
          simp only at hd ⊢
          split
          · exact hd
          · exact ih r2 hd

theorem strings.HasPrefix_append_left (p a b : String) :
    strings.HasPrefix (p ++ a) (p ++ b) = strings.HasPrefix a b := by
  simp only [strings.HasPrefix, String.data_append]
  rw [Bool.eq_iff_iff, List.isPrefixOf_iff_prefix, List.isPrefixOf_iff_prefix]
  exact List.prefix_append_right_inj _

/-- C36. Every `s3Bucket` that `Descend` returns has a prefix ending in `/`.
Its `Destroy` asks for the deletion of the keys that a listing of exactly that
prefix has returned, and of nothing else: against a service whose listings
return only keys with the prefix asked for and whose `Delete` removes no key
but those asked for, every key that does not begin with the prefix of the
child is still there after `child.Destroy`, however long it runs. Such keys
are the parent's key `k` whenever `k` does not begin with `c/`, and `ab/x`
when the child is `a`. -/
theorem s3Bucket_Destroy_frame {ρ : Type} (quote : String → String) (b : s3Bucket ρ)
    (c : String) (keys : ρ → List String)
    (hlist : ∀ pre d r list, (b.bucket.List pre d r).1 = .ok list →
      ∀ k ∈ list.Contents, strings.HasPrefix k pre = true)
    (hkeep : ∀ pre d r, keys (b.bucket.List pre d r).2 = keys r)
    (hdelete : ∀ ks r k, k ∉ ks → k ∈ keys r → k ∈ keys (b.bucket.Delete ks r).2) :
    strings.HasSuffix (b.Descend c).prefix_ "/" = true ∧
    (∀ key fuel r, strings.HasPrefix key (b.Descend c).prefix_ = false → key ∈ keys r →
      key ∈ keys (s3Bucket.Destroy quote (b.Descend c) fuel r).2) ∧
    (∀ k, strings.HasSuffix c "/" = false → strings.HasPrefix k (c ++ "/") = false →
      strings.HasPrefix (b.Abs k) (b.Descend c).prefix_ = false) ∧
    strings.HasPrefix "ab/x" "a/" = false := by
  refine ⟨s3Bucket_Descend_suffix b c, ?_, ?_, by decide⟩
  · intro key fuel r hkey hmem
    exact s3Bucket_Destroy_keeps quote (b.Descend c) keys hlist hkeep hdelete key hkey fuel r hmem
  · intro k hc hk
    unfold s3Bucket.Descend s3Bucket.Abs
    simp only [hc, Bool.not_false, if_true]
    rw [strings.HasPrefix_append_left]
    exact hk

theorem s3Bucket_Destroy_frame_witness :
    "ab/x" ∈ (s3Bucket.Destroy toyQuote ((NewS3Bucket toyS3).Descend "a") 5
      [("a/y", [1]), ("ab/x", [2]), ("k", [3])]).2.map (fun e => e.1) :=
  (s3Bucket_Destroy_frame toyQuote (NewS3Bucket toyS3) "a" (fun r => r.map (fun e => e.1))
    (by
      intro pre d r list h k hk
      simp only [NewS3Bucket, toyS3, Except.ok.injEq] at h
      subst h
      exact (List.mem_filter.1 hk).2)
    (fun _ _ _ => rfl)
    (by
      intro ks r k hk hmem
      simp only [NewS3Bucket, toyS3, List.mem_map, List.mem_filter] at hmem ⊢
      obtain ⟨e, he, hek⟩ := hmem
      exact ⟨e, ⟨he, by simp [hek, hk]⟩, hek⟩)).2.1 "ab/x" 5
    [("a/y", [1]), ("ab/x", [2]), ("k", [3])] (by decide) (by decide)

/-! ## Request signing: canonical headers, canonical request, authorization -/

/-- The function `canonicalHeaders` itself trims nothing: handed a header `P` of
value `" phfft "`, with blanks that neither `http.ReadRequest` nor the package
leaves in a value, it writes the line `p: phfft `. -/
theorem canonicalHeaders_keeps_blanks :
    canonicalHeaders toySignLib
        { Method := "POST", Path := "/", Query := [], Header := [("P", [" phfft "])],
          Host := "host.foo.com", Body := none } =
      ("host:host.foo.com\np: phfft \n\nhost;p", ["host", "p"]) := by
  rfl

theorem lookup_of_mem_nodup (l : List (String × String)) (k v : String)
    (hnodup : (l.map (fun e => e.1)).Nodup) (hmem : (k, v) ∈ l) : l.lookup k = some v := by
  induction l with
  | nil => simp at hmem
  | cons e l ih =>
    obtain ⟨k2, v2⟩ := e
    rw [List.map_cons, List.nodup_cons] at hnodup
    rcases List.mem_cons.1 hmem with h | h
    · simp only [Prod.mk.injEq] at h
      obtain ⟨rfl, rfl⟩ := h
      simp [List.lookup]
    · have hne : k ≠ k2 := by
        intro hk
        subst hk
        exact hnodup.1 (List.mem_map.2 ⟨(k, v), h, rfl⟩)
      rw [List.lookup_cons]
      have : (k == k2) = false := by simpa using hne
      rw [this]
      exact ih hnodup.2 h

theorem canonicalHeaders.m_eq {τ : Type} (lib : SignLib τ) (r : Request) :
    canonicalHeaders.m lib r =
      (("host", r.Host) :: r.Header.map
        (fun e => (lib.ToLower e.1, ",".intercalate (sortStrings e.2)))).reverse := by
  unfold canonicalHeaders.m
  generalize r.Header = hs
  have h : ∀ (hs : List (String × List String)) (acc : List (String × String)),
      hs.foldl (fun m e => (lib.ToLower e.1, ",".intercalate (sortStrings e.2)) :: m) acc =
        (hs.map (fun e => (lib.ToLower e.1, ",".intercalate (sortStrings e.2)))).reverse
          ++ acc := by
    intro hs
    induction hs with
    | nil => intro acc; rfl
    | cons e hs ih =>
      intro acc
      rw [List.foldl_cons, ih, List.map_cons, List.reverse_cons, List.append_assoc]
      rfl
  rw [h, List.reverse_cons]

/-- The lines and the names that `canonicalHeaders` writes, for header names
that are pairwise different after lower-casing and none of them `host`. -/
theorem canonicalHeaders.lines_of_nodup {τ : Type} (lib : SignLib τ) (r : Request)
    (hnodup : ("host" :: r.Header.map (fun e => lib.ToLower e.1)).Nodup) :
    ∃ lines : List (String × String),
      lines.Perm (("host", r.Host) :: r.Header.map
        (fun e => (lib.ToLower e.1, ",".intercalate (sortStrings e.2)))) ∧
      (lines.map (fun l => l.1)).Sorted (fun a b => lessEq a.data b.data = true) ∧
      (canonicalHeaders lib r).1 =
        String.join (lines.map (fun l => l.1 ++ ":" ++ l.2 ++ "\n")) ++ "\n"
          ++ ";".intercalate (lines.map (fun l => l.1)) ∧
      (canonicalHeaders lib r).2 = lines.map (fun l => l.1) ∧
      ∀ e ∈ r.Header, (sortStrings e.2).Perm e.2 ∧
        (sortStrings e.2).Sorted (fun a b => lessEq a.data b.data = true) := by
  have hks : canonicalHeaders.ks lib r =
      sortStrings ((("host", r.Host) :: r.Header.map
        (fun e => (lib.ToLower e.1, ",".intercalate (sortStrings e.2)))).map (fun l => l.1)) := by
    unfold canonicalHeaders.ks
    simp [List.map_map, Function.comp_def]
  have hnd : ((("host", r.Host) :: r.Header.map
      (fun e => (lib.ToLower e.1, ",".intercalate (sortStrings e.2)))).map
        (fun l => l.1)).Nodup := by
    simpa [List.map_map, Function.comp_def] using hnodup
  generalize hent : (("host", r.Host) :: r.Header.map
      (fun e => (lib.ToLower e.1, ",".intercalate (sortStrings e.2)))) = entries at hks hnd
  have hm : canonicalHeaders.m lib r = entries.reverse := by
    rw [canonicalHeaders.m_eq, hent]
  have hget : ∀ e ∈ entries, mapGet (canonicalHeaders.m lib r) e.1 = e.2 := by
    intro e he
    unfold mapGet
    rw [hm, lookup_of_mem_nodup entries.reverse e.1 e.2
      (by rw [List.map_reverse]; exact List.nodup_reverse.2 hnd) (List.mem_reverse.2 he)]
    rfl
  have hmapid : (entries.map (fun l => l.1)).map
      (fun k => (k, mapGet (canonicalHeaders.m lib r) k)) = entries := by
    rw [List.map_map]
    conv_rhs => rw [← List.map_id entries]
    apply List.map_congr_left
    intro e he
    show (e.1, mapGet (canonicalHeaders.m lib r) e.1) = e
    rw [hget e he]
  refine ⟨(canonicalHeaders.ks lib r).map (fun k => (k, mapGet (canonicalHeaders.m lib r) k)),
    ?_, ?_, ?_, ?_, ?_⟩
  · rw [hks]
    refine List.Perm.trans ((sortStrings_perm _).map _) ?_
    rw [hmapid]
  · rw [List.map_map]
    have : ((fun l : String × String => l.1) ∘
        fun k => (k, mapGet (canonicalHeaders.m lib r) k)) = id := rfl
    rw [this, List.map_id, hks]
    exact sortStrings_sorted _
  · unfold canonicalHeaders canonicalHeaders.lines
    simp only [List.map_map, Function.comp_def, List.map_id']
  · unfold canonicalHeaders
    simp only [List.map_map, Function.comp_def, List.map_id']
  · intro e _
    exact ⟨sortStrings_perm _, sortStrings_sorted _⟩

/-- C32. For a request whose header names are pairwise different after
lower-casing and none of them `host`, `canonicalHeaders` writes one line
`name:value\n` for each header and one for `host` with the value `r.Host`, the
names in lower case and the lines in ascending order of the names, the values
of a header sorted and joined by commas; then an empty line and the names
joined by `;`. It returns the names in that order. -/
theorem canonicalHeaders_sorted_lines {τ : Type} (lib : SignLib τ) (r : Request)
    (hnodup : ("host" :: r.Header.map (fun e => lib.ToLower e.1)).Nodup) :
    ∃ lines : List (String × String),
      lines.Perm (("host", r.Host) :: r.Header.map
        (fun e => (lib.ToLower e.1, ",".intercalate (sortStrings e.2)))) ∧
      (lines.map (fun l => l.1)).Sorted (fun a b => lessEq a.data b.data = true) ∧
      (canonicalHeaders lib r).1 =
        String.join (lines.map (fun l => l.1 ++ ":" ++ l.2 ++ "\n")) ++ "\n"
          ++ ";".intercalate (lines.map (fun l => l.1)) ∧
      (canonicalHeaders lib r).2 = lines.map (fun l => l.1) ∧
      ∀ e ∈ r.Header, (sortStrings e.2).Perm e.2 ∧
        (sortStrings e.2).Sorted (fun a b => lessEq a.data b.data = true) :=
  canonicalHeaders.lines_of_nodup lib r hnodup

theorem canonicalHeaders_sorted_lines_witness :
    ∃ lines : List (String × String),
      lines.Perm (("host", "host.foo.com") ::
        [("Zoo", ["zoobar", "foobar"]), ("Date", ["Mon"])].map
          (fun e => (toySignLib.ToLower e.1, ",".intercalate (sortStrings e.2)))) ∧
      (lines.map (fun l => l.1)).Sorted (fun a b => lessEq a.data b.data = true) ∧
      (canonicalHeaders toySignLib
        { Method := "POST", Path := "/", Query := [],
          Header := [("Zoo", ["zoobar", "foobar"]), ("Date", ["Mon"])],
          Host := "host.foo.com", Body := none }).1 =
        String.join (lines.map (fun l => l.1 ++ ":" ++ l.2 ++ "\n")) ++ "\n"
          ++ ";".intercalate (lines.map (fun l => l.1)) ∧
      (canonicalHeaders toySignLib
        { Method := "POST", Path := "/", Query := [],
          Header := [("Zoo", ["zoobar", "foobar"]), ("Date", ["Mon"])],
          Host := "host.foo.com", Body := none }).2 = lines.map (fun l => l.1) ∧
      ∀ e ∈ [("Zoo", ["zoobar", "foobar"]), ("Date", ["Mon"])],
        (sortStrings e.2).Perm e.2 ∧
        (sortStrings e.2).Sorted (fun a b => lessEq a.data b.data = true) :=
  canonicalHeaders_sorted_lines toySignLib
    { Method := "POST", Path := "/", Query := [],
      Header := [("Zoo", ["zoobar", "foobar"]), ("Date", ["Mon"])],
      Host := "host.foo.com", Body := none } (by decide)

theorem Header.Get_sorted_single (r : Request) (key v : String)
    (h : r.Header.lookup (CanonicalMIMEHeaderKey key) = some [v]) :
    Header.Get (canonicalHeaders.sorted r) key = v := by
  have hl : ∀ hs : List (String × List String),
      hs.lookup (CanonicalMIMEHeaderKey key) = some [v] →
      (hs.map (fun e => (e.1, sortStrings e.2))).lookup (CanonicalMIMEHeaderKey key) =
        some [v] := by
    intro hs
    induction hs with
    | nil => intro h; simp at h
    | cons e hs ih =>
      intro h
      rw [List.map_cons, List.lookup_cons]
      rw [List.lookup_cons] at h
      cases hk : (CanonicalMIMEHeaderKey key == e.1)
      · rw [hk] at h
        exact ih h
      · rw [hk] at h
        simp only [Option.some.injEq] at h
        simp only
        rw [h]
        rfl
  unfold Header.Get canonicalHeaders.sorted
  rw [hl r.Header h]

set_option maxRecDepth 100000 in
theorem canonicalRequest_signTests :
    ∀ t ∈ signTests, t.Name ≠ "get-slash" →
      ∃ ks, canonicalRequest toySignLib t.Request = .ret (t.CanonicalRequest, ks) := by
  intro t ht hne
  simp only [signTests, List.mem_cons, List.mem_singleton, List.not_mem_nil, or_false] at ht
  rcases ht with rfl | rfl | rfl | rfl | rfl | rfl | rfl | rfl | rfl | rfl | rfl | rfl | rfl
    | rfl | rfl | rfl | rfl | rfl | rfl | rfl | rfl | rfl | rfl | rfl | rfl <;>
    first
    | exact ⟨_, rfl⟩
    | exact absurd rfl hne

theorem canonicalRequest_get_slash :
    url.resolvePath "//" "//" = "//" ∧
    ∃ t ∈ signTests, t.Name = "get-slash" ∧ t.Request.Path = "//" ∧
      canonicalRequest toySignLib t.Request =
        .ret ("GET\n//\n\ndate:Mon, 09 Sep 2011 23:36:00 GMT\nhost:host.foo.com\n\ndate;host\n"
          ++ "e3b0c44298fc1c149afbf4c8996fb92427ae41e4649b934ca495991b7852b855",
          ["date", "host"]) ∧
      t.CanonicalRequest =
        "GET\n/\n\ndate:Mon, 09 Sep 2011 23:36:00 GMT\nhost:host.foo.com\n\ndate;host\n"
          ++ "e3b0c44298fc1c149afbf4c8996fb92427ae41e4649b934ca495991b7852b855" ∧
      ∀ ks, canonicalRequest toySignLib t.Request ≠ .ret (t.CanonicalRequest, ks) := by
  refine ⟨by decide, ?_⟩
  refine ⟨{ Name := "get-slash",
            Request := { Method := "GET", Path := "//", Query := [],
                         Header := [("Date", ["Mon, 09 Sep 2011 23:36:00 GMT"])],
                         Host := "host.foo.com", Body := some (.ok []) },
            CanonicalRequest := "GET\n/\n\ndate:Mon, 09 Sep 2011 23:36:00 GMT\nhost:host.foo.com\n\ndate;host\ne3b0c44298fc1c149afbf4c8996fb92427ae41e4649b934ca495991b7852b855" },
    ?_, rfl, rfl, ?_, ?_, ?_⟩
  · simp [signTests]
  · rfl
  · decide
  · intro ks h
    have h2 : canonicalRequest toySignLib
        { Method := "GET", Path := "//", Query := [],
          Header := [("Date", ["Mon, 09 Sep 2011 23:36:00 GMT"])],
          Host := "host.foo.com", Body := some (.ok []) } =
        .ret ("GET\n//\n\ndate:Mon, 09 Sep 2011 23:36:00 GMT\nhost:host.foo.com\n\ndate;host\n"
          ++ "e3b0c44298fc1c149afbf4c8996fb92427ae41e4649b934ca495991b7852b855",
          ["date", "host"]) := rfl
    rw [h2] at h
    simp only [Outcome.ret.injEq, Prod.mk.injEq] at h
    exact absurd h.1 (by decide)

/-- C33 fails on the code for one test. `canonicalRequest` writes the method, the
encoded resolved path, the canonical query string, the header lines, the names
of the signed headers joined by `;` and the payload hash, a line feed after
each but the last (the header lines end in a line feed of their own, so that an
empty line follows them). The payload hash is the value that `Header.Get`
returns for `x-amz-content-sha256` unless that is empty, which is the value of
the header when it has one value; otherwise it is the SHA-256 of the body in
lower-case hexadecimal, of the empty input when the body is nil, and a body
that cannot be read makes the call panic. On 24 of the 25 tests of
sign_test.go that are run the text is the expected canonical request. On the
test `get-slash`, whose request path is `//`, `resolvePath` keeps both slashes:
the second line written is `//`, where the expected canonical request has
`/`. -/
theorem canonicalRequest_text {τ : Type} (lib : SignLib τ) (r : Request) :
    (∀ hash, canonicalRequest.hash lib r = .ret hash →
      canonicalRequest lib r =
        .ret (r.Method ++ "\n" ++ uriEncode (lib.ResolveReference r.Path) false ++ "\n"
          ++ canonicalQueryString r.Query ++ "\n" ++ canonicalHeaders.lines lib r ++ "\n"
          ++ ";".intercalate (canonicalHeaders.ks lib r) ++ "\n" ++ hash,
          canonicalHeaders.ks lib r)) ∧
    (canonicalRequest.hash lib r = .panic → canonicalRequest lib r = .panic) ∧
    (Header.Get (canonicalHeaders.sorted r) "x-amz-content-sha256" ≠ "" →
      canonicalRequest.hash lib r =
        .ret (Header.Get (canonicalHeaders.sorted r) "x-amz-content-sha256")) ∧
    (∀ v, r.Header.lookup "X-Amz-Content-Sha256" = some [v] →
      Header.Get (canonicalHeaders.sorted r) "x-amz-content-sha256" = v) ∧
    (Header.Get (canonicalHeaders.sorted r) "x-amz-content-sha256" = "" →
      (r.Body = none → canonicalRequest.hash lib r = .ret (hexLower (lib.Sum256 []).val)) ∧
      (∀ body, r.Body = some (.ok body) →
        canonicalRequest.hash lib r = .ret (hexLower (lib.Sum256 body).val)) ∧
      (∀ err, r.Body = some (.error err) → canonicalRequest.hash lib r = .panic)) ∧
    (∀ t ∈ signTests, t.Name ≠ "get-slash" →
      ∃ ks, canonicalRequest toySignLib t.Request = .ret (t.CanonicalRequest, ks)) ∧
    url.resolvePath "//" "//" = "//" ∧
    (∃ t ∈ signTests, t.Name = "get-slash" ∧ t.Request.Path = "//" ∧
      canonicalRequest toySignLib t.Request =
        .ret ("GET\n//\n\ndate:Mon, 09 Sep 2011 23:36:00 GMT\nhost:host.foo.com\n\ndate;host\n"
          ++ "e3b0c44298fc1c149afbf4c8996fb92427ae41e4649b934ca495991b7852b855",
          ["date", "host"]) ∧
      t.CanonicalRequest =
        "GET\n/\n\ndate:Mon, 09 Sep 2011 23:36:00 GMT\nhost:host.foo.com\n\ndate;host\n"
          ++ "e3b0c44298fc1c149afbf4c8996fb92427ae41e4649b934ca495991b7852b855" ∧
      ∀ ks, canonicalRequest toySignLib t.Request ≠ .ret (t.CanonicalRequest, ks)) := by
  refine ⟨?_, ?_, ?_, ?_, ?_, ?_, ?_⟩
  · intro hash h
    unfold canonicalRequest canonicalHeaders
    rw [h]
    simp only [String.append_assoc]
  · intro h
    unfold canonicalRequest
    rw [h]
  · intro h
    unfold canonicalRequest.hash
    rw [if_neg h]
  · intro v h
    exact Header.Get_sorted_single r "x-amz-content-sha256" v h
  · intro h
    unfold canonicalRequest.hash bodyHash
    rw [if_pos h]
    refine ⟨fun hb => by rw [hb], fun body hb => by rw [hb], fun err hb => by rw [hb]⟩
  · exact canonicalRequest_signTests
  · exact canonicalRequest_get_slash

theorem canonicalRequest_text_witness :
    canonicalRequest toySignLib
        { Method := "PUT", Path := "/k", Query := [],
          Header := [("X-Amz-Content-Sha256", ["abc"])], Host := "h", Body := none } =
      .ret ("PUT" ++ "\n" ++ uriEncode (toySignLib.ResolveReference "/k") false ++ "\n"
        ++ canonicalQueryString [] ++ "\n"
        ++ canonicalHeaders.lines toySignLib
            { Method := "PUT", Path := "/k", Query := [],
              Header := [("X-Amz-Content-Sha256", ["abc"])], Host := "h", Body := none }
        ++ "\n"
        ++ ";".intercalate (canonicalHeaders.ks toySignLib
            { Method := "PUT", Path := "/k", Query := [],
              Header := [("X-Amz-Content-Sha256", ["abc"])], Host := "h", Body := none })
        ++ "\n" ++ "abc",
        canonicalHeaders.ks toySignLib
          { Method := "PUT", Path := "/k", Query := [],
            Header := [("X-Amz-Content-Sha256", ["abc"])], Host := "h", Body := none }) :=
  (canonicalRequest_text toySignLib
    { Method := "PUT", Path := "/k", Query := [],
      Header := [("X-Amz-Content-Sha256", ["abc"])], Host := "h", Body := none }).1 "abc" rfl

theorem digitChar_hex (n : Nat) (h : n < 16) : Nat.digitChar n ∈ "0123456789abcdef".data := by
  interval_cases n <;> decide

theorem hexLower_length (bs : List Byte) : (hexLower bs).length = 2 * bs.length := by
  unfold hexLower
  show (List.flatMap _ _).length = _
  induction bs with
  | nil => rfl
  | cons b bs ih =>
    rw [List.flatMap_cons, List.length_append, ih, List.length_cons]
    simp only [List.length_cons, List.length_nil]
    omega

theorem hexLower_digits (bs : List Byte) :
    ∀ ch ∈ (hexLower bs).data, ch ∈ "0123456789abcdef".data := by
  intro ch hch
  unfold hexLower at hch
  simp only [List.mem_flatMap, List.mem_cons, List.mem_singleton, List.not_mem_nil,
    or_false] at hch
  obtain ⟨b, _, rfl | rfl⟩ := hch
  · have hb : b.toNat < 256 := b.val.isLt
    exact digitChar_hex _ (by omega)
  · exact digitChar_hex _ (Nat.mod_lt _ (by decide))

theorem strings.TrimFunc_self (s : String) (f : Char → Bool)
    (h : ∀ c ∈ s.data, f c = false) : strings.TrimFunc s f = s := by
  have hd : ∀ l : List Char, (∀ c ∈ l, f c = false) → l.dropWhile f = l := by
    intro l hl
    cases l with
    | nil => rfl
    | cons c cs => simp [List.dropWhile_cons, hl c (List.mem_cons_self c cs)]
  unfold strings.TrimFunc
  apply String.ext
  show ((s.data.dropWhile f).reverse.dropWhile f).reverse = s.data
  rw [hd s.data h, hd s.data.reverse (fun c hc => h c (List.mem_reverse.1 hc)),
    List.reverse_reverse]

/-- C31. Take a request whose header values have no white space at either end,
as those that `http.ReadRequest` has parsed and those that the package sets
(the hexadecimal digest below), and whose header names are pairwise different
after lower-casing and none of them `host`. Then each value written into the
canonical headers is the value with its leading and trailing white space
removed: the lines are those of the trimmed values, and the text is the text
for the request with every value trimmed. White space is any set of characters
`space`; for `unicode.IsSpace` a digest in hexadecimal has none. On the request
of the test `get-header-value-trim`, whose header `p` has been parsed to
`phfft`, the line is `p:phfft`. -/
theorem canonicalHeaders_trimmed_values {τ : Type} (lib : SignLib τ) (r : Request)
    (space : Char → Bool)
    (hnodup : ("host" :: r.Header.map (fun e => lib.ToLower e.1)).Nodup)
    (htrim : ∀ e ∈ r.Header, ∀ v ∈ e.2, strings.TrimFunc v space = v) :
    (∃ lines : List (String × String),
      lines.Perm (("host", r.Host) :: r.Header.map
        (fun e => (lib.ToLower e.1,
          ",".intercalate (sortStrings (e.2.map (fun v => strings.TrimFunc v space)))))) ∧
      (lines.map (fun l => l.1)).Sorted (fun a b => lessEq a.data b.data = true) ∧
      (canonicalHeaders lib r).1 =
        String.join (lines.map (fun l => l.1 ++ ":" ++ l.2 ++ "\n")) ++ "\n"
          ++ ";".intercalate (lines.map (fun l => l.1))) ∧
    canonicalHeaders lib r =
      canonicalHeaders lib
        { Method := r.Method, Path := r.Path, Query := r.Query,
          Header := r.Header.map (fun e => (e.1, e.2.map (fun v => strings.TrimFunc v space))),
          Host := r.Host, Body := r.Body } ∧
    (∀ bs : List Byte, strings.TrimSpace (hexLower bs) = hexLower bs) ∧
    canonicalHeaders toySignLib
        { Method := "POST", Path := "/", Query := [],
          Header := [("Date", ["Mon, 09 Sep 2011 23:36:00 GMT"]), ("P", ["phfft"])],
          Host := "host.foo.com", Body := some (.ok []) } =
      ("date:Mon, 09 Sep 2011 23:36:00 GMT\nhost:host.foo.com\np:phfft\n\ndate;host;p",
        ["date", "host", "p"]) := by
  have hvals : ∀ e ∈ r.Header, e.2.map (fun v => strings.TrimFunc v space) = e.2 := by
    intro e he
    conv_rhs => rw [← List.map_id e.2]
    exact List.map_congr_left (fun v hv => htrim e he v hv)
  have hheader : r.Header.map (fun e => (e.1, e.2.map (fun v => strings.TrimFunc v space))) =
      r.Header := by
    conv_rhs => rw [← List.map_id r.Header]
    apply List.map_congr_left
    intro e he
    show (e.1, e.2.map (fun v => strings.TrimFunc v space)) = e
    rw [hvals e he]
  refine ⟨?_, ?_, ?_, rfl⟩
  · obtain ⟨lines, hperm, hsorted, htext, _, _⟩ := canonicalHeaders.lines_of_nodup lib r hnodup
    refine ⟨lines, ?_, hsorted, htext⟩
    have hent : r.Header.map
        (fun e => (lib.ToLower e.1,
          ",".intercalate (sortStrings (e.2.map (fun v => strings.TrimFunc v space))))) =
        r.Header.map (fun e => (lib.ToLower e.1, ",".intercalate (sortStrings e.2))) := by
      apply List.map_congr_left
      intro e he
      rw [hvals e he]
    rw [hent]
    exact hperm
  · rw [hheader]
  · intro bs
    apply strings.TrimFunc_self
    intro c hc
    have hmem := hexLower_digits bs c hc
    simp only [String.data, List.mem_cons, List.mem_singleton, List.not_mem_nil,
      or_false] at hmem
    rcases hmem with rfl | rfl | rfl | rfl | rfl | rfl | rfl | rfl | rfl | rfl | rfl | rfl
      | rfl | rfl | rfl | rfl <;> rfl

theorem canonicalHeaders_trimmed_values_witness :
    canonicalHeaders toySignLib
        { Method := "PUT", Path := "/k", Query := [],
          Header := [("X-Amz-Content-Sha256", [hexLower [0xe3, 0xb0]])],
          Host := "h", Body := none } =
      canonicalHeaders toySignLib
        { Method := "PUT", Path := "/k", Query := [],
          Header := [("X-Amz-Content-Sha256", [hexLower [0xe3, 0xb0]])].map
            (fun e => (e.1, e.2.map (fun v => strings.TrimFunc v unicode.IsSpace))),
          Host := "h", Body := none } :=
  (canonicalHeaders_trimmed_values toySignLib
    { Method := "PUT", Path := "/k", Query := [],
      Header := [("X-Amz-Content-Sha256", [hexLower [0xe3, 0xb0]])],
      Host := "h", Body := none } unicode.IsSpace (by decide) (by decide)).2.1

theorem Service.now_eq {τ : Type} (lib : SignLib τ) (r : Request) (now : τ)
    (hnow : (Header.Get r.Header "x-amz-date" ≠ "" ∧
        lib.Parse iso8601 (Header.Get r.Header "x-amz-date") = .ok now) ∨
      (Header.Get r.Header "x-amz-date" = "" ∧ Header.Get r.Header "Date" ≠ "" ∧
        lib.Parse http.TimeFormat (Header.Get r.Header "Date") = .ok now)) :
    Service.now lib r = .ret now := by
  unfold Service.now
  rcases hnow with ⟨h1, h2⟩ | ⟨h1, h2, h3⟩
  · rw [if_pos h1, h2]
  · rw [if_neg (by simp [h1]), if_pos h2, h3]

/-- C34. When the time `now` of the request is parsed from the header
`x-amz-date`, or from `Date` when `x-amz-date` is not set, and `cr` is the
canonical request with the signed header names `names`, `Service.authorization`
returns the text of its description: the credential with the scope, the signed
header names joined by `;`, and as signature the 64 lower-case hexadecimal
digits of the HMAC, under the derived key, of the string to sign. With neither
header set the call panics. -/
theorem Service_authorization_text {τ : Type} (lib : SignLib τ) (s : Service) (r : Request)
    (now : τ) (cr : String) (names : List String)
    (hnow : (Header.Get r.Header "x-amz-date" ≠ "" ∧
        lib.Parse iso8601 (Header.Get r.Header "x-amz-date") = .ok now) ∨
      (Header.Get r.Header "x-amz-date" = "" ∧ Header.Get r.Header "Date" ≠ "" ∧
        lib.Parse http.TimeFormat (Header.Get r.Header "Date") = .ok now))
    (hcr : canonicalRequest lib r = .ret (cr, names)) :
    Service.authorization lib s r = .ret (Service.authorizationSpec lib s now cr names) ∧
    (∀ key message, (hexLower (lib.HMAC key message).val).length = 64 ∧
      ∀ ch ∈ (hexLower (lib.HMAC key message).val).data, ch ∈ "0123456789abcdef".data) ∧
    (∀ r0 : Request, Header.Get r0.Header "x-amz-date" = "" → Header.Get r0.Header "Date" = "" →
      Service.authorization lib s r0 = .panic) := by
  refine ⟨?_, ?_, ?_⟩
  · unfold Service.authorization Service.stringToSign
    rw [Service.now_eq lib r now hnow, hcr]
    simp only [Service.authorizationSpec, Service.scope, Service.signingKey, hmacSum,
      String.append_assoc]
  · intro key message
    refine ⟨?_, hexLower_digits _⟩
    rw [hexLower_length, (lib.HMAC key message).property]
  · intro r0 h1 h2
    unfold Service.authorization Service.now
    rw [if_neg (by simp [h1]), if_neg (by simp [h2])]

theorem Service_authorization_text_witness :
    Service.authorization toySignLib
        { Name := "host", Endpoint := "", Region := "us-east-1", AccessKey := "secret",
          AccessKeyId := "AKIDEXAMPLE" }
        { Method := "GET", Path := "/", Query := [],
          Header := [("X-Amz-Date", ["20110909T233600Z"])], Host := "host.foo.com",
          Body := none } =
      .ret (Service.authorizationSpec toySignLib
        { Name := "host", Endpoint := "", Region := "us-east-1", AccessKey := "secret",
          AccessKeyId := "AKIDEXAMPLE" }
        "20110909T233600Z"
        ("GET\n/\n\nhost:host.foo.com\nx-amz-date:20110909T233600Z\n\nhost;x-amz-date\n"
          ++ "e3b0c44298fc1c149afbf4c8996fb92427ae41e4649b934ca495991b7852b855")
        ["host", "x-amz-date"]) :=
  (Service_authorization_text toySignLib
    { Name := "host", Endpoint := "", Region := "us-east-1", AccessKey := "secret",
      AccessKeyId := "AKIDEXAMPLE" }
    { Method := "GET", Path := "/", Query := [],
      Header := [("X-Amz-Date", ["20110909T233600Z"])], Host := "host.foo.com",
      Body := none }
    "20110909T233600Z"
    ("GET\n/\n\nhost:host.foo.com\nx-amz-date:20110909T233600Z\n\nhost;x-amz-date\n"
      ++ "e3b0c44298fc1c149afbf4c8996fb92427ae41e4649b934ca495991b7852b855")
    ["host", "x-amz-date"] (Or.inl ⟨by decide, rfl⟩) rfl).1

end Kebab
